import Mathlib

/-!
Noise texture generator (`UNoiseGenerator`): shallow embedding and verified properties.

The definitions below follow `Source/TP2/NoiseGenerator.cpp` function by function.

Conventions of the embedding:

* `float` / `double` values are rationals (`ℚ`); every finite floating-point number is a
  rational.  Rounding to single and to double precision (`toFloat`, `toDouble`: IEEE 754
  round to nearest, ties to even) is applied wherever the rounded value decides a loop
  count, an integer conversion or a comparison: in `MakeNuclei`, in `FindTwoClosest` and in
  `DistanceSquared`.  The real-valued noise formulas (`NoiseToGray`, `Smooth`,
  `PerlinNoiseLayer`, the octave compositor, the quotient of `VoronoiNoiseLayer`) are
  carried out in exact arithmetic.
* A floating-point computation that divides by zero has no real value (the machine result
  is NaN or an infinity).  Such results are `none` in `Option ℚ`, and they propagate
  through every later operation, as NaN does.
* `int` values are `Int` and index arithmetic is exact; `&` is two's-complement bitwise
  and (`Int.land`), `%` is the truncating remainder of C++ (`Int.tmod`), or the remainder
  of natural numbers where both operands are known to be non-negative.  Where a statement
  depends on the width of a machine integer (the 32-bit pixel index, the 64-bit result of
  `FloorToInt`) it carries the bound under which the exact value is the machine value, and
  `PixelIndex`, `FloorToInt64` and `PerlinNoiseLayer64` give the fixed-width results.  The
  cell size and the cell bounds of `MakeNuclei` are computed in the 32-bit arithmetic of
  `int` (`toInt32`, `wrap32`).
* `TArray<T>` is `List T`; an indexed read or a swap outside the array (a failed engine
  check) is `none`.
* Engine functions that are not part of the repository sources are either defined by
  their documented meaning (`Lerp`, `Dot`, `FloorToInt`, `RoundToInt`, `DistSquared`) or
  taken as parameters (`Sqrt`, the streams of `FMath::Rand` and `FMath::FRandRange`
  results that follow `FMath::RandInit`, and the outcomes of the asset calls made by
  `CreateNoise`, collected in `Engine`).
* Loops whose bound is a floating-point comparison (`MakeNuclei`) are defined by
  well-founded recursion on the source's loop condition, the `int` counter staying below
  `2^31`; counted loops are folds over `List.range` or structural recursions on the
  counter.
-/

namespace UNoiseGenerator

/-! ## Data model -/

/-- Engine type `FVector2D`: a point or vector of the plane, with `double` components. -/
structure FVector2D where
  X : ℚ
  Y : ℚ
deriving DecidableEq

/-- Engine constant `FVector2D::ZeroVector`. -/
def FVector2D.ZeroVector : FVector2D := ⟨0, 0⟩

/-- Engine operator `FVector2D * float`: componentwise scaling. -/
def FVector2D.scale (A : FVector2D) (s : ℚ) : FVector2D := ⟨A.X * s, A.Y * s⟩

/-- Engine method `FVector2D::Dot`. -/
def FVector2D.Dot (A B : FVector2D) : ℚ := A.X * B.X + A.Y * B.Y

/-- Engine function `FMath::Lerp(A, B, Alpha)`, which is `A + Alpha * (B - A)`. -/
def Lerp (A B Alpha : ℚ) : ℚ := A + Alpha * (B - A)

/-- Engine function `FMath::FloorToInt`: the greatest integer not above the argument. -/
def FloorToInt (F : ℚ) : Int := ⌊F⌋

/-- Modelled from the spec: engine function `FMath::RoundToInt`, rounding to the nearest
integer with halves rounded up, which is `FloorToInt(F + 0.5)`. -/
def RoundToInt (F : ℚ) : Int := FloorToInt (F + 1 / 2)

/-- Conversion of an `int` to `uint8`: reduction modulo 256. -/
def toUInt8 (i : Int) : Nat := (i % 256).toNat

/-- Floating-point division: no real value when the divisor is zero. -/
def fdiv (a b : ℚ) : Option ℚ := if b = 0 then none else some (a / b)

/-- Rounding of a rational to the nearest integer, halves going to the even neighbour. -/
def roundEven (x : ℚ) : Int :=
  if x - ⌊x⌋ < 1 / 2 then ⌊x⌋
  else if 1 / 2 < x - ⌊x⌋ then ⌊x⌋ + 1
  else if ⌊x⌋ % 2 = 0 then ⌊x⌋ else ⌊x⌋ + 1

/-- The exponent of the unit in the last place of `x` in the binary floating-point format
with `p` significant bits and smallest normal exponent `emin`. -/
def ulpExponent (p : Nat) (emin : Int) (x : ℚ) : Int :=
  max (Int.log 2 |x|) emin - (p - 1 : Nat)

/-- IEEE 754 rounding to nearest, ties to even, into the binary format with `p` significant
bits and smallest normal exponent `emin`, subnormal numbers included.  The upper end of the
range is not applied: a result beyond the largest finite number stays a rational beyond
it, and it compares with every finite number as the infinity of the machine does (the
arithmetic of infinities is not modelled; no statement below computes with such a
result). -/
def roundBinary (p : Nat) (emin : Int) (x : ℚ) : ℚ :=
  roundEven (x / 2 ^ ulpExponent p emin x) * 2 ^ ulpExponent p emin x

/-- Rounding to single precision (`float`): 24 significant bits, exponents from -126. -/
def toFloat (x : ℚ) : ℚ := roundBinary 24 (-126) x

/-- Rounding to double precision (`double`): 53 significant bits, exponents from -1022. -/
def toDouble (x : ℚ) : ℚ := roundBinary 53 (-1022) x

/-- Indexed read `A[i]` of a `TArray` with an `int` index. -/
def TArrayGet {α : Type} (A : List α) (i : Int) : Option α :=
  if 0 ≤ i then A[i.toNat]? else none

/-- `TArray::Swap(i, j)`: exchanges two entries; both indices must be valid. -/
def TArraySwap {α : Type} (A : List α) (i j : Nat) : Option (List α) :=
  if h : i < A.length ∧ j < A.length then
    some ((A.set i (A.get ⟨j, h.2⟩)).set j (A.get ⟨i, h.1⟩))
  else none

/-! ## `NoiseToGray` -/

/-- Source lines 6-10: `NoiseToGray`. -/
def NoiseToGray (NoiseValue : ℚ) : Nat :=
  let GrayValue : ℚ := ((NoiseValue + 1) / 2) * 255
  toUInt8 (RoundToInt GrayValue)

/-! ## Perlin helpers -/

/-- Source lines 111-114: `Smooth`. -/
def Smooth (X : ℚ) : ℚ := X * X * X * (X * (X * 6 - 15) + 10)

/-- Source lines 116-128: `GetConstantVector`. -/
def GetConstantVector (Value : Int) : FVector2D :=
  let h := Int.land Value 3
  if h = 0 then ⟨1, 1⟩
  else if h = 1 then ⟨-1, 1⟩
  else if h = 2 then ⟨-1, -1⟩
  else ⟨1, -1⟩

/-- Wrap-around of a mathematical integer into the 32-bit two's-complement range. -/
def wrap32 (i : Int) : Int := (i + 2 ^ 31) % 2 ^ 32 - 2 ^ 31

/-- Source lines 130-146, the shuffle loop `for (int i = 255; i > 0; i--)` of
`MakePermutation`.  The first argument is the loop variable `i`; `Rand k` is the value
returned by the `k`-th call of `FMath::Rand()` (a non-negative `int`), and the second
argument counts the calls made so far. -/
def MakePermutation.shuffle (Rand : Nat → Nat) : Nat → Nat → List Int → Option (List Int)
  | 0, _, Permutation => some Permutation
  | i + 1, k, Permutation => do
    let RandNum := Rand k % (i + 1 + 1)
    let Swapped ← TArraySwap Permutation (i + 1) RandNum
    MakePermutation.shuffle Rand i (k + 1) Swapped

/-- Source lines 130-146: `MakePermutation`.  The table is first filled with `0..255` in
order and then shuffled. -/
def MakePermutation (Rand : Nat → Nat) : Option (List Int) :=
  MakePermutation.shuffle Rand 255 0 ((List.range 256).map Int.ofNat)

/-- Source lines 73-109: `PerlinNoiseLayer`. -/
def PerlinNoiseLayer (Location : FVector2D) (Permutation : List Int) : Option ℚ := do
  let X := Int.land (FloorToInt Location.X) 255
  let Y := Int.land (FloorToInt Location.Y) 255
  let BottomLeft := GetConstantVector
    (← TArrayGet Permutation (Int.tmod ((← TArrayGet Permutation X) + Y) 256))
  let BottomRight := GetConstantVector
    (← TArrayGet Permutation (Int.tmod ((← TArrayGet Permutation (Int.tmod (X + 1) 256)) + Y) 256))
  let TopLeft := GetConstantVector
    (← TArrayGet Permutation (Int.tmod ((← TArrayGet Permutation X) + Y + 1) 256))
  let TopRight := GetConstantVector
    (← TArrayGet Permutation
      (Int.tmod ((← TArrayGet Permutation (Int.tmod (X + 1) 256)) + Y + 1) 256))
  let Xf : ℚ := Location.X - FloorToInt Location.X
  let Yf : ℚ := Location.Y - FloorToInt Location.Y
  let BottomLeftToCenter : FVector2D := ⟨Xf, Yf⟩
  let BottomRightToCenter : FVector2D := ⟨Xf - 1, Yf⟩
  let TopLeftToCenter : FVector2D := ⟨Xf, Yf - 1⟩
  let TopRightToCenter : FVector2D := ⟨Xf - 1, Yf - 1⟩
  let DotBottomLeft := BottomLeftToCenter.Dot BottomLeft
  let DotBottomRight := BottomRightToCenter.Dot BottomRight
  let DotTopLeft := TopLeftToCenter.Dot TopLeft
  let DotTopRight := TopRightToCenter.Dot TopRight
  let U := Smooth Xf
  let V := Smooth Yf
  let Interp1 := Lerp DotBottomLeft DotTopLeft V
  let Interp2 := Lerp DotBottomRight DotTopRight V
  let FinalResult := Lerp Interp1 Interp2 U
  return FinalResult

/-! ## Octave compositor -/

/-- The octave loop shared by `PerlinNoise` (source lines 24-37) and `VoronoiNoise`
(source lines 50-67).  The first argument is the number of iterations that remain; the
result is the final pair `(Total, MaxValue)`. -/
def OctaveLoop (Layer : FVector2D → Option ℚ) (Location : FVector2D) :
    Nat → ℚ → ℚ → ℚ → ℚ → Option (ℚ × ℚ)
  | 0, Total, MaxValue, _, _ => some (Total, MaxValue)
  | n + 1, Total, MaxValue, Amplitude, CurrentFrequency => do
    let LayerValue ← Layer (Location.scale CurrentFrequency)
    OctaveLoop Layer Location n (Total + LayerValue * Amplitude) (MaxValue + Amplitude)
      (Amplitude * (1 / 2)) (CurrentFrequency * 2)

/-- The body shared by `PerlinNoise` and `VoronoiNoise`: the accumulators start at
`Total = 0`, `MaxValue = 0`, `Amplitude = 1`, `CurrentFrequency = Frequency`, the loop runs
while `i < Octaves`, and the result is `Total / MaxValue`. -/
def OctaveCompositor (Layer : FVector2D → Option ℚ) (Location : FVector2D) (Octaves : Int)
    (Frequency : ℚ) : Option ℚ := do
  let (Total, MaxValue) ← OctaveLoop Layer Location Octaves.toNat 0 0 1 Frequency
  fdiv Total MaxValue

/-- Source lines 17-41: `PerlinNoise`. -/
def PerlinNoise (Location : FVector2D) (Permutation : List Int) (Octaves : Int)
    (Frequency : ℚ) : Option ℚ :=
  OctaveCompositor (fun L => PerlinNoiseLayer L Permutation) Location Octaves Frequency

/-! ## Voronoi -/

/-- The constant `FLT_MAX`, the largest finite single-precision number. -/
def FLT_MAX : ℚ := (2 ^ 24 - 1) * 2 ^ 104

/-- Source lines 164-167: `DistanceSquared`.  The components of an `FVector2D` are
`double`, so the differences, the squares (`FMath::Square(x)` is `x * x`) and the sum are
rounded to double precision; the result is narrowed to the `float` return type. -/
def DistanceSquared (A B : FVector2D) : ℚ :=
  toFloat (toDouble (toDouble (toDouble (A.X - B.X) * toDouble (A.X - B.X))
    + toDouble (toDouble (A.Y - B.Y) * toDouble (A.Y - B.Y))))

/-- Engine function `FVector2D::DistSquared(V1, V2)`, which is
`Square(V2.X - V1.X) + Square(V2.Y - V1.Y)` in double precision. -/
def DistSquared (A B : FVector2D) : ℚ :=
  toDouble (toDouble (toDouble (B.X - A.X) * toDouble (B.X - A.X))
    + toDouble (toDouble (B.Y - A.Y) * toDouble (B.Y - A.Y)))

/-- Source line 208: `float DistanceSq = FVector2D::DistSquared(Target, Point)`; the
double-precision result is narrowed to `float`. -/
def FindTwoClosest.DistanceSq (Target Point : FVector2D) : ℚ :=
  toFloat (DistSquared Target Point)

/-- The local variables of `FindTwoClosest` (source lines 199-202). -/
structure Closest where
  ClosestPoint1 : FVector2D
  ClosestPoint2 : FVector2D
  ClosestDist1 : ℚ
  ClosestDist2 : ℚ
deriving DecidableEq

/-- Source lines 205-227: one iteration of the scan of `FindTwoClosest`. -/
def FindTwoClosest.step (Target : FVector2D) (s : Closest) (Point : FVector2D) : Closest :=
  let DistanceSq := FindTwoClosest.DistanceSq Target Point
  if DistanceSq < s.ClosestDist1 then
    ⟨Point, s.ClosestPoint1, DistanceSq, s.ClosestDist1⟩
  else if DistanceSq < s.ClosestDist2 then
    ⟨s.ClosestPoint1, Point, s.ClosestDist1, DistanceSq⟩
  else s

/-- Source lines 189-231: `FindTwoClosest`.  The result is empty or has two entries. -/
def FindTwoClosest (Target : FVector2D) (Points : List FVector2D) : List FVector2D :=
  if Points.length < 2 then []
  else
    let s := Points.foldl (FindTwoClosest.step Target)
      ⟨FVector2D.ZeroVector, FVector2D.ZeroVector, FLT_MAX, FLT_MAX⟩
    [s.ClosestPoint1, s.ClosestPoint2]

/-- Source lines 148-162: `VoronoiNoiseLayer`.  The engine function `FMath::Sqrt` is the
parameter `Sqrt`. -/
def VoronoiNoiseLayer (Sqrt : ℚ → ℚ) (Location : FVector2D) (Nuclei : List FVector2D) :
    Option ℚ :=
  let ClosestPoints := FindTwoClosest Location Nuclei
  if ClosestPoints.isEmpty then some (-1)
  else do
    let Dist1 := Sqrt (DistanceSquared Location (← TArrayGet ClosestPoints 0))
    let Dist2 := Sqrt (DistanceSquared Location (← TArrayGet ClosestPoints 1))
    let InterpValue ← fdiv (Dist2 - Dist1) (Dist2 + Dist1)
    return InterpValue * 2 - 1

/-- Source lines 43-71: `VoronoiNoise`. -/
def VoronoiNoise (Sqrt : ℚ → ℚ) (Location : FVector2D) (Nuclei : List FVector2D)
    (Octaves : Int) (Frequency : ℚ) : Option ℚ :=
  OctaveCompositor (fun L => VoronoiNoiseLayer Sqrt L Nuclei) Location Octaves Frequency

/-- The properties of `FMath::Sqrt` that the proofs rely on: it maps zero to zero, is
positive on positive arguments and is monotone.  Both the exact square root and the
correctly rounded machine square root have them. -/
structure IsSqrt (Sqrt : ℚ → ℚ) : Prop where
  zero : Sqrt 0 = 0
  pos : ∀ x, 0 < x → 0 < Sqrt x
  mono : ∀ x y, x ≤ y → Sqrt x ≤ Sqrt y

/-- A computable instance of `IsSqrt` for evaluating the definitions on concrete inputs:
the square root rounded up to the next integer.  It is exact on squares of integers. -/
def SqrtUp (x : ℚ) : ℚ := if x ≤ 0 then 0 else ((Nat.sqrt (⌈x⌉₊ - 1) + 1 : Nat) : ℚ)

/-! ## Rasterization -/

/-- The four byte stores of a pixel-loop body (source lines 356-359).  The buffer maps a
byte offset from `MipData` to the byte stored there; `none` is a byte whose value is not
determined (the gray value of a noise value that is not a real number). -/
def WritePixel (MipData : Nat → Option Nat) (PixelIndex : Nat) (GrayValue : Option Nat) :
    Nat → Option Nat :=
  let M0 := Function.update MipData (PixelIndex + 0) GrayValue
  let M1 := Function.update M0 (PixelIndex + 1) GrayValue
  let M2 := Function.update M1 (PixelIndex + 2) GrayValue
  Function.update M2 (PixelIndex + 3) (some 255)

/-- The nested pixel loops of the Perlin and Voronoi cases of `CreateNoise` (source lines
321-336 and 346-361): rows `Y` outside, columns `X` inside; `NoiseAt X Y` is the noise
value computed for the pixel. -/
def PixelLoops (NoiseAt : Nat → Nat → Option ℚ) (Width Height : Nat)
    (MipData : Nat → Option Nat) : Nat → Option Nat :=
  (List.range Height).foldl (fun MipRows Y =>
    (List.range Width).foldl (fun Mip X =>
      let PixelIndex := ((Y * Width) + X) * 4
      let NoiseValue := NoiseAt X Y
      let GrayValue := NoiseValue.map NoiseToGray
      WritePixel Mip PixelIndex GrayValue) MipRows) MipData

/-- Source lines 346-361: the pixel loops of the Voronoi case of `CreateNoise`, for the
nuclei array built before them. -/
def VoronoiPixels (Sqrt : ℚ → ℚ) (Nuclei : List FVector2D) (Width Height : Nat)
    (Octaves : Int) (Frequency : ℚ) (MipData : Nat → Option Nat) : Nat → Option Nat :=
  PixelLoops (fun X Y => VoronoiNoise Sqrt ⟨X, Y⟩ Nuclei Octaves Frequency) Width Height
    MipData

/-! ## Auxiliary definitions used by the statements and proofs -/

/-- A layer function with values in `[-1, 1]`, used to evaluate the compositor. -/
def sampleLayer (p : FVector2D) : Option ℚ := some (if p.X < 1 then 1 / 2 else -1)

/-- A table has 256 entries, all in `0..255`. -/
def TableOK (P : List Int) : Prop := P.length = 256 ∧ ∀ v ∈ P, 0 ≤ v ∧ v ≤ 255

/-- The arithmetic part of `PerlinNoiseLayer` (source lines 85-108) for given corner
gradients. -/
def perlinBlend (BottomLeft BottomRight TopLeft TopRight : FVector2D) (Xf Yf : ℚ) : ℚ :=
  Lerp (Lerp (FVector2D.Dot ⟨Xf, Yf⟩ BottomLeft) (FVector2D.Dot ⟨Xf, Yf - 1⟩ TopLeft) (Smooth Yf))
    (Lerp (FVector2D.Dot ⟨Xf - 1, Yf⟩ BottomRight) (FVector2D.Dot ⟨Xf - 1, Yf - 1⟩ TopRight)
      (Smooth Yf)) (Smooth Xf)

/-- The byte that the pixel loops store for channel `c` of a pixel with noise value `v`. -/
def pixelByte (v : Option ℚ) (c : Nat) : Option Nat :=
  if c = 3 then some 255 else v.map NoiseToGray

/-- The inner pixel loop over the first `n` columns of row `Y`. -/
def RowLoop (NoiseAt : Nat → Nat → Option ℚ) (Width Y n : Nat) (MipRows : Nat → Option Nat) :
    Nat → Option Nat :=
  (List.range n).foldl (fun Mip X =>
    let PixelIndex := ((Y * Width) + X) * 4
    let NoiseValue := NoiseAt X Y
    let GrayValue := NoiseValue.map NoiseToGray
    WritePixel Mip PixelIndex GrayValue) MipRows

/-! ## Nuclei field -/

/-- Truncation of a rational toward zero. -/
def truncToInt (x : ℚ) : Int := if 0 ≤ x then ⌊x⌋ else ⌈x⌉

/-- Conversion of a `float` to `int`: truncation toward zero.  For a value outside the
range of `int` the conversion is undefined in C++; the result taken here is the one of the
x86 conversion instruction, the smallest `int`. -/
def toInt32 (x : ℚ) : Int :=
  if -2 ^ 31 ≤ truncToInt x ∧ truncToInt x < 2 ^ 31 then truncToInt x else -2 ^ 31

/-- The loop bounds `Frequency * Width` and `Frequency * Height` of `MakeNuclei` (source
lines 174 and 176): the `int` operand is converted to `float` and the product is rounded to
single precision. -/
def MakeNuclei.bound (Frequency : ℚ) (Size : Int) : ℚ := toFloat (Frequency * toFloat Size)

/-- Source lines 176-184, the inner loop `for (int X = 0; X < Frequency * Width; X++)` of
`MakeNuclei` from the current value of `X` on.  The comparison converts `X` to `float`; the
counter is an `int`, and the loop is not followed beyond `X = 2^31`.  The cell bounds are
computed in the 32-bit arithmetic of `int` (`wrap32`) and converted to `float` for
`FRandRange`.  `FRandRange k lo hi` is the value returned by the `k`-th call of
`FMath::FRandRange` when its arguments are `lo` and `hi`; the state is the array built so
far and the number of calls made so far. -/
def MakeNuclei.columns (FRandRange : Nat → ℚ → ℚ → ℚ) (Width : Int) (Frequency : ℚ)
    (CellSize : Int) (Y : Nat) (X k : Nat) (Nuclei : List FVector2D) :
    List FVector2D × Nat :=
  if h : X < 2 ^ 31 ∧ toFloat X < MakeNuclei.bound Frequency Width then
    let CellX : Int := wrap32 (X * CellSize)
    let CellY : Int := wrap32 (Y * CellSize)
    let NucleusX := FRandRange k (toFloat CellX) (toFloat (wrap32 (CellX + CellSize)))
    let NucleusY := FRandRange (k + 1) (toFloat CellY) (toFloat (wrap32 (CellY + CellSize)))
    MakeNuclei.columns FRandRange Width Frequency CellSize Y (X + 1) (k + 2)
      (Nuclei ++ [⟨NucleusX, NucleusY⟩])
  else (Nuclei, k)
termination_by 2 ^ 31 - X
decreasing_by
  have := h.1
  omega

/-- Source lines 174-185, the outer loop `for (int Y = 0; Y < Frequency * Height; Y++)` of
`MakeNuclei` from the current value of `Y` on. -/
def MakeNuclei.rows (FRandRange : Nat → ℚ → ℚ → ℚ) (Width Height : Int) (Frequency : ℚ)
    (CellSize : Int) (Y k : Nat) (Nuclei : List FVector2D) : List FVector2D × Nat :=
  if h : Y < 2 ^ 31 ∧ toFloat Y < MakeNuclei.bound Frequency Height then
    let Row := MakeNuclei.columns FRandRange Width Frequency CellSize Y 0 k Nuclei
    MakeNuclei.rows FRandRange Width Height Frequency CellSize (Y + 1) Row.2 Row.1
  else (Nuclei, k)
termination_by 2 ^ 31 - Y
decreasing_by
  have := h.1
  omega

/-- Source lines 169-187: `MakeNuclei`.  `int CellSize = 1 / Frequency` divides in single
precision and converts the quotient to `int` (for `Frequency = 0` the loops do not run
and `CellSize` is not used). -/
def MakeNuclei (FRandRange : Nat → ℚ → ℚ → ℚ) (Width Height : Int) (Frequency : ℚ) :
    List FVector2D :=
  let CellSize : Int := toInt32 (toFloat (1 / Frequency))
  (MakeNuclei.rows FRandRange Width Height Frequency CellSize 0 0 []).1

/-! ## `CreateNoise` -/

/-- Source lines 12-15: `WhiteNoise`, as the `k`-th call of `FMath::FRandRange`. -/
def WhiteNoise (FRandRange : Nat → ℚ → ℚ → ℚ) (k : Nat) : ℚ := FRandRange k (-1) 1

/-- Source lines 296-311: the pixel loops of the white-noise case of `CreateNoise`.  The
state is the buffer and the number of `FRandRange` calls made so far. -/
def WhitePixels (FRandRange : Nat → ℚ → ℚ → ℚ) (Width Height : Nat)
    (MipData : Nat → Option Nat) : Nat → Option Nat :=
  ((List.range Height).foldl (fun (Rows : (Nat → Option Nat) × Nat) Y =>
    (List.range Width).foldl (fun (Cur : (Nat → Option Nat) × Nat) X =>
      let PixelIndex := ((Y * Width) + X) * 4
      let NoiseValue := WhiteNoise FRandRange Cur.2
      let GrayValue := NoiseToGray NoiseValue
      (WritePixel Cur.1 PixelIndex (some GrayValue), Cur.2 + 1)) Rows) (MipData, 0)).1

/-- Source lines 321-336: the pixel loops of the Perlin case of `CreateNoise`, for the
permutation table built before them. -/
def PerlinPixels (Permutation : List Int) (Width Height : Nat) (Octaves : Int)
    (Frequency : ℚ) (MipData : Nat → Option Nat) : Nat → Option Nat :=
  PixelLoops (fun X Y => PerlinNoise ⟨X, Y⟩ Permutation Octaves Frequency) Width Height
    MipData

/-- Source file `NoiseGenerator.h`, lines 8-14: `ENoiseType`. -/
inductive ENoiseType where
  | WhiteNoise
  | PerlinNoise
  | VoronoiNoise
deriving DecidableEq

/-- The reasons for which `CreateNoise` logs an error and returns `nullptr`, in source
order, and the failure of an engine check (an out-of-range array access). -/
inductive CreateError where
  | InvalidDimensions
  | InvalidFrequency
  | InvalidName
  | InvalidPackagePath
  | PackageFailed
  | TextureFailed
  | LockFailed
  | SaveFailed
  | CheckFailed
deriving DecidableEq

/-- The engine as `CreateNoise` sees it: the results of the engine calls it makes for the
given folder path and asset name, the buffer handed out by `LockMip`, the random streams
that follow `FMath::RandInit(Seed)`, and `FMath::Sqrt`. -/
structure Engine where
  NameIsNone : Bool
  IsValidLongPackageName : Bool
  PackageCreated : Bool
  TextureCreated : Bool
  LockMip : Option (Nat → Option Nat)
  PackageSaved : Bool
  Rand : Int → Nat → Nat
  FRandRange : Int → Nat → ℚ → ℚ → ℚ
  Sqrt : ℚ → ℚ

/-- What a call of `CreateNoise` leaves behind: the error it logged (`none` when the
texture is returned), the seed passed to `FMath::RandInit` if it was called, and the
pixel buffer after the pixel loops if they were reached. -/
structure Outcome where
  Error : Option CreateError
  Seeded : Option Int
  MipData : Option (Nat → Option Nat)

/-- Source lines 233-391: `CreateNoise`. -/
def CreateNoise (E : Engine) (NoiseType : ENoiseType) (Width Height Seed Octaves : Int)
    (Frequency : ℚ) : Outcome :=
  if Width ≤ 0 ∨ Height ≤ 0 then ⟨some .InvalidDimensions, none, none⟩
  else if Frequency = 0 then ⟨some .InvalidFrequency, none, none⟩
  else if E.NameIsNone then ⟨some .InvalidName, none, none⟩
  else if ¬ E.IsValidLongPackageName then ⟨some .InvalidPackagePath, none, none⟩
  else if ¬ E.PackageCreated then ⟨some .PackageFailed, none, none⟩
  else if ¬ E.TextureCreated then ⟨some .TextureFailed, none, none⟩
  else
    match E.LockMip with
    | none => ⟨some .LockFailed, none, none⟩
    | some MipData =>
      let Saved : Option CreateError := if E.PackageSaved then none else some .SaveFailed
      match NoiseType with
      | .WhiteNoise =>
        ⟨Saved, some Seed,
          some (WhitePixels (E.FRandRange Seed) Width.toNat Height.toNat MipData)⟩
      | .PerlinNoise =>
        match MakePermutation (E.Rand Seed) with
        | none => ⟨some .CheckFailed, some Seed, none⟩
        | some PermuationArray =>
          ⟨Saved, some Seed,
            some (PerlinPixels PermuationArray Width.toNat Height.toNat Octaves Frequency
              MipData)⟩
      | .VoronoiNoise =>
        let Nuclei := MakeNuclei (E.FRandRange Seed) Width Height Frequency
        ⟨Saved, some Seed,
          some (VoronoiPixels E.Sqrt Nuclei Width.toNat Height.toNat Octaves Frequency
            MipData)⟩

/-- An engine in which every engine call of `CreateNoise` succeeds, with an undetermined
initial buffer, simple deterministic random streams and `SqrtUp` as square root; used to
evaluate `CreateNoise` on concrete requests. -/
def sampleEngine : Engine where
  NameIsNone := false
  IsValidLongPackageName := true
  PackageCreated := true
  TextureCreated := true
  LockMip := some (fun _ => none)
  PackageSaved := true
  Rand := fun Seed k => (Seed.natAbs + 1) * (k + 7) * 2654435761 % 2147483648
  FRandRange := fun Seed k lo hi => lo + (hi - lo) * (((Seed.natAbs + 3 * k) % 8 : Nat) / 8)
  Sqrt := SqrtUp

/-- Every engine call that `CreateNoise` makes before the pixel loops succeeds, and
`LockMip` hands out the buffer `MipData`. -/
def Engine.Accepts (E : Engine) (MipData : Nat → Option Nat) : Prop :=
  E.NameIsNone = false ∧ E.IsValidLongPackageName = true ∧ E.PackageCreated = true ∧
    E.TextureCreated = true ∧ E.LockMip = some MipData

/-- The error logged after the pixel loops: none when the package is saved. -/
def Engine.Saved (E : Engine) : Option CreateError :=
  if E.PackageSaved then none else some .SaveFailed

/-- The nucleus that `MakeNuclei` draws for the grid cell `(X, Y)` when `k` calls of
`FRandRange` have been made before (source lines 178-183). -/
def cellNucleus (FRandRange : Nat → ℚ → ℚ → ℚ) (CellSize : Int) (X Y k : Nat) : FVector2D :=
  ⟨FRandRange k (toFloat (wrap32 (X * CellSize)))
      (toFloat (wrap32 (wrap32 (X * CellSize) + CellSize))),
    FRandRange (k + 1) (toFloat (wrap32 (Y * CellSize)))
      (toFloat (wrap32 (wrap32 (Y * CellSize) + CellSize)))⟩

/-- A grid of `rows` by `cols` cells in row-major order, one nucleus per cell, the cell
`(X, Y)` drawing with the calls number `2 * (Y * cols + X)` and the next one. -/
def nucleiGrid (FRandRange : Nat → ℚ → ℚ → ℚ) (CellSize : Int) (rows cols : Nat) :
    List FVector2D :=
  (List.range rows).flatMap (fun Y =>
    (List.range cols).map (fun X => cellNucleus FRandRange CellSize X Y (2 * (Y * cols + X))))

/-- Following the words of the specification: the squared Euclidean distance of two
points, in exact arithmetic. -/
def SquaredDistance (A B : FVector2D) : ℚ := (B.X - A.X) ^ 2 + (B.Y - A.Y) ^ 2

/-- Following the words of the specification: the first point in list order that attains
the minimum of the distance measure `d` (ties go to the earlier point). -/
def firstNearestBy (d : FVector2D → ℚ) : List FVector2D → Option FVector2D
  | [] => none
  | p :: rest =>
    match firstNearestBy d rest with
    | none => some p
    | some q => if d q < d p then some q else some p

/-- Following the words of the specification: the pair of the first nearest point and of
the first nearest point among the remaining entries (the list with that occurrence of the
first one removed); empty when there are fewer than two points. -/
def twoNearestBy (d : FVector2D → ℚ) (Points : List FVector2D) : List FVector2D :=
  match firstNearestBy d Points with
  | none => []
  | some p1 =>
    match firstNearestBy d (Points.erase p1) with
    | none => []
    | some p2 => [p1, p2]

/-- The state of the scan of `FindTwoClosest` after the points `l` have been visited, in
terms of `firstNearestBy` for the single-precision squared distance. -/
def ScanOrder (Target : FVector2D) (l : List FVector2D) (s : Closest) : Prop :=
  (l = [] ∧ s = ⟨FVector2D.ZeroVector, FVector2D.ZeroVector, FLT_MAX, FLT_MAX⟩) ∨
  (∃ p, l = [p] ∧
    s = ⟨p, FVector2D.ZeroVector, FindTwoClosest.DistanceSq Target p, FLT_MAX⟩) ∨
  (2 ≤ l.length ∧
    firstNearestBy (FindTwoClosest.DistanceSq Target) l = some s.ClosestPoint1 ∧
    firstNearestBy (FindTwoClosest.DistanceSq Target) (l.erase s.ClosestPoint1)
      = some s.ClosestPoint2 ∧
    s.ClosestDist1 = FindTwoClosest.DistanceSq Target s.ClosestPoint1 ∧
    s.ClosestDist2 = FindTwoClosest.DistanceSq Target s.ClosestPoint2)

/-- Two points whose exact squared distances to the origin differ by `2^(-48)`, less than
the single precision resolves: `(1 + 2^(-23), 2^(-24))` and `(1 + 2^(-23), 0)`.  All
coordinates are single-precision numbers. -/
def nearTiePoints : List FVector2D := [⟨8388609 / 8388608, 1 / 16777216⟩, ⟨8388609 / 8388608, 0⟩]

/-- The single-precision number nearest to `0.05`, the default frequency `0.05f` of
`CreateNoise` (source file `NoiseGenerator.h`). -/
def defaultFrequency : ℚ := 13421773 / 268435456

/-- Source lines 301, 326 and 351: `int PixelIndex = ((Y * Width) + X) * 4`, every operation
wrapped into the 32-bit range of `int`. -/
def PixelIndex (Width X Y : Int) : Int := wrap32 (wrap32 (wrap32 (Y * Width) + X) * 4)

/-- Source lines 75-82: the indices of the eight table reads of `PerlinNoiseLayer`, corner
by corner in source order (bottom left, bottom right, top left, top right), for each corner
the inner read followed by the outer read. -/
def PerlinNoiseLayer.reads (Location : FVector2D) (Permutation : List Int) :
    Option (List Int) := do
  let X := Int.land (FloorToInt Location.X) 255
  let Y := Int.land (FloorToInt Location.Y) 255
  let BottomLeft := Int.tmod ((← TArrayGet Permutation X) + Y) 256
  let BottomRight := Int.tmod ((← TArrayGet Permutation (Int.tmod (X + 1) 256)) + Y) 256
  let TopLeft := Int.tmod ((← TArrayGet Permutation X) + Y + 1) 256
  let TopRight := Int.tmod ((← TArrayGet Permutation (Int.tmod (X + 1) 256)) + Y + 1) 256
  return [X, BottomLeft, Int.tmod (X + 1) 256, BottomRight, X, TopLeft,
    Int.tmod (X + 1) 256, TopRight]

theorem ldiff_mask (k n : Nat) : Nat.ldiff (2 ^ k - 1) n = 2 ^ k - 1 - n % 2 ^ k := by
  apply Nat.eq_of_testBit_eq
  intro i
  have hlt : n % 2 ^ k < 2 ^ k := Nat.mod_lt _ (by positivity)
  have h2 : 2 ^ k - 1 - n % 2 ^ k = 2 ^ k - (n % 2 ^ k + 1) := by omega
  rw [h2, Nat.testBit_two_pow_sub_succ hlt, Nat.testBit_ldiff, Nat.testBit_two_pow_sub_one,
    Nat.testBit_mod_two_pow]
  by_cases hi : i < k <;> simp [hi]

theorem land_mask (k : Nat) (v : Int) : Int.land v (2 ^ k - 1 : Nat) = v % 2 ^ k := by
  cases v with
  | ofNat n =>
    show ((n &&& (2 ^ k - 1) : Nat) : Int) = (n : Int) % 2 ^ k
    rw [Nat.and_pow_two_sub_one_eq_mod]
    push_cast
    rfl
  | negSucc n =>
    show ((Nat.ldiff (2 ^ k - 1) n : Nat) : Int) = Int.negSucc n % 2 ^ k
    rw [ldiff_mask, Int.negSucc_emod _ (by positivity)]
    have hlt : n % 2 ^ k < 2 ^ k := Nat.mod_lt _ (by positivity)
    have h1 : 1 ≤ 2 ^ k := Nat.one_le_two_pow
    rw [Nat.sub_sub, Nat.cast_sub (by omega)]
    push_cast
    ring

theorem land_three (v : Int) : Int.land v 3 = v % 4 := land_mask 2 v

theorem land_255 (v : Int) : Int.land v 255 = v % 256 := land_mask 8 v

/-! ## Gradient lookup -/

theorem GetConstantVector_eq (v : Int) :
    GetConstantVector v =
      if v % 4 = 0 then ⟨1, 1⟩ else if v % 4 = 1 then ⟨-1, 1⟩
      else if v % 4 = 2 then ⟨-1, -1⟩ else ⟨1, -1⟩ := by
  simp only [GetConstantVector, land_three]

theorem GetConstantVector_cases (v : Int) :
    GetConstantVector v = ⟨1, 1⟩ ∨ GetConstantVector v = ⟨-1, 1⟩ ∨
      GetConstantVector v = ⟨-1, -1⟩ ∨ GetConstantVector v = ⟨1, -1⟩ := by
  rw [GetConstantVector_eq]
  split_ifs <;> simp

theorem wrap32_emod_four (i : Int) : wrap32 i % 4 = i % 4 := by
  unfold wrap32
  omega

theorem NoiseToGray_neg_one : NoiseToGray (-1) = 0 := by
  have h : ⌊((-1 + 1 : ℚ) / 2) * 255 + 1 / 2⌋ = 0 := by
    rw [Int.floor_eq_iff]; norm_num
  simp only [NoiseToGray, RoundToInt, FloorToInt, toUInt8, h]
  rfl

theorem NoiseToGray_one : NoiseToGray 1 = 255 := by
  have h : ⌊((1 + 1 : ℚ) / 2) * 255 + 1 / 2⌋ = 255 := by
    rw [Int.floor_eq_iff]; norm_num
  simp only [NoiseToGray, RoundToInt, FloorToInt, toUInt8, h]
  rfl

theorem NoiseToGray_zero : NoiseToGray 0 = 128 := by
  have h : ⌊((0 + 1 : ℚ) / 2) * 255 + 1 / 2⌋ = 128 := by
    rw [Int.floor_eq_iff]; norm_num
  simp only [NoiseToGray, RoundToInt, FloorToInt, toUInt8, h]
  rfl

/-- C7: `NoiseToGray(-1) = 0`, `NoiseToGray(1) = 255` and `NoiseToGray(0) = 128`; in general
`NoiseToGray(v)` is `floor(((v + 1) / 2) * 255 + 1/2)` (nearest integer, halves up) reduced
to an unsigned byte. -/
theorem NoiseToGray_endpoints :
    NoiseToGray (-1) = 0 ∧ NoiseToGray 1 = 255 ∧ NoiseToGray 0 = 128 ∧
      ∀ v : ℚ, NoiseToGray v = (⌊((v + 1) / 2) * 255 + 1 / 2⌋ % 256).toNat :=
  ⟨NoiseToGray_neg_one, NoiseToGray_one, NoiseToGray_zero, fun _ => rfl⟩

/-- The increment of `Smooth` between two arguments as a multiple of a sum of squares. -/
theorem Smooth_sub (a b : ℚ) :
    Smooth b - Smooth a =
      (b - a) * (30 * ((a * (1 - a) + (b - a) * (1 - 2 * a) / 2 - (b - a) ^ 2 / 3) ^ 2
        + ((b - a) * (1 - 2 * a) - (b - a) ^ 2) ^ 2 / 12 + ((b - a) ^ 2) ^ 2 / 180)) := by
  unfold Smooth
  ring

theorem Smooth_mono {a b : ℚ} (hab : a ≤ b) : Smooth a ≤ Smooth b := by
  have h := Smooth_sub a b
  have h1 : 0 ≤ b - a := sub_nonneg.mpr hab
  have h2 : 0 ≤ Smooth b - Smooth a := by
    rw [h]
    positivity
  linarith

/-- C8: `Smooth(0) = 0`, `Smooth(1) = 1`, `Smooth` is non-decreasing on `[0, 1]`, and
`Smooth(t) = t^3 (t (6t - 15) + 10)`. -/
theorem Smooth_endpoints_monotone :
    Smooth 0 = 0 ∧ Smooth 1 = 1 ∧
      (∀ a b : ℚ, 0 ≤ a → a ≤ b → b ≤ 1 → Smooth a ≤ Smooth b) ∧
      ∀ t : ℚ, Smooth t = t ^ 3 * (t * (6 * t - 15) + 10) := by
  refine ⟨by norm_num [Smooth], by norm_num [Smooth], fun a b _ hab _ => Smooth_mono hab, ?_⟩
  intro t
  unfold Smooth
  ring

/-- Witness for C8 at `a = 1/4`, `b = 1/2`, with the two values computed. -/
theorem Smooth_endpoints_monotone_witness :
    (0 : ℚ) ≤ 1 / 4 ∧ (1 / 4 : ℚ) ≤ 1 / 2 ∧ (1 / 2 : ℚ) ≤ 1 ∧
      Smooth (1 / 4) = 53 / 512 ∧ Smooth (1 / 2) = 1 / 2 ∧ Smooth (1 / 4) ≤ Smooth (1 / 2) :=
  ⟨by norm_num, by norm_num, by norm_num, by norm_num [Smooth], by norm_num [Smooth],
    Smooth_endpoints_monotone.2.2.1 (1 / 4) (1 / 2) (by norm_num) (by norm_num) (by norm_num)⟩

/-- C9: for every integer `v` (negative ones included, in two's complement)
`GetConstantVector(v)` is `(1,1)`, `(-1,1)`, `(-1,-1)` or `(1,-1)` according to whether
`v mod 4` is 0, 1, 2 or 3, and it has period 4, also when `v + 4` wraps around in 32 bits. -/
theorem GetConstantVector_mod_four (v : Int) :
    (GetConstantVector v =
      if v % 4 = 0 then ⟨1, 1⟩ else if v % 4 = 1 then ⟨-1, 1⟩
      else if v % 4 = 2 then ⟨-1, -1⟩ else ⟨1, -1⟩) ∧
    (v % 4 = 0 ∨ v % 4 = 1 ∨ v % 4 = 2 ∨ v % 4 = 3) ∧
    GetConstantVector (v + 4) = GetConstantVector v ∧
    GetConstantVector (wrap32 (v + 4)) = GetConstantVector v := by
  refine ⟨GetConstantVector_eq v, by omega, ?_, ?_⟩
  · rw [GetConstantVector_eq, GetConstantVector_eq v, Int.add_emod_self]
  · rw [GetConstantVector_eq, GetConstantVector_eq v, wrap32_emod_four, Int.add_emod_self]

/-- C10, as stated, fails: the vector returned for `v = 0` is `(1, 1)`, whose squared
magnitude is 2, not 1. -/
theorem GetConstantVector_not_unit :
    (GetConstantVector 0).X ^ 2 + (GetConstantVector 0).Y ^ 2 ≠ 1 := by
  rw [GetConstantVector_eq]
  norm_num

theorem GetConstantVector_components (v : Int) :
    ((GetConstantVector v).X = 1 ∨ (GetConstantVector v).X = -1) ∧
    ((GetConstantVector v).Y = 1 ∨ (GetConstantVector v).Y = -1) := by
  rcases GetConstantVector_cases v with h | h | h | h <;> rw [h] <;> norm_num

/-- C10, amended: for every integer `v` both components of `GetConstantVector(v)` are
`1` or `-1`, so the squared magnitude `gx^2 + gy^2` is 2 (the magnitude is the square root
of 2). -/
theorem GetConstantVector_sq_norm (v : Int) :
    ((GetConstantVector v).X = 1 ∨ (GetConstantVector v).X = -1) ∧
    ((GetConstantVector v).Y = 1 ∨ (GetConstantVector v).Y = -1) ∧
    (GetConstantVector v).X ^ 2 + (GetConstantVector v).Y ^ 2 = 2 := by
  rcases GetConstantVector_cases v with h | h | h | h <;> rw [h] <;> norm_num

/-! ## Permutation table -/

theorem set_set_perm {α : Type} [DecidableEq α] (A : List α) (i j : Nat) (hi : i < A.length)
    (hj : j < A.length) : ((A.set i (A.get ⟨j, hj⟩)).set j (A.get ⟨i, hi⟩)).Perm A := by
  rw [List.perm_iff_count]
  intro b
  have hj2 : j < (A.set i (A.get ⟨j, hj⟩)).length := by simpa using hj
  rw [List.count_set _ _ _ _ hj2, List.count_set _ _ _ _ hi]
  have hget : (A.set i (A.get ⟨j, hj⟩))[j] = A[j] := by
    rw [List.getElem_set]
    split <;> simp
  rw [hget]
  have hmem : A[i] ∈ A := List.getElem_mem hi
  have hc : (if A[i] == b then 1 else 0) ≤ A.count b := by
    by_cases hb : A[i] = b
    · subst hb
      simp only [beq_self_eq_true, if_true]
      exact List.count_pos_iff.mpr hmem
    · simp [hb]
  simp only [List.get_eq_getElem]
  split_ifs at hc ⊢ <;> omega

theorem TArraySwap_some {α : Type} [DecidableEq α] (A : List α) (i j : Nat)
    (hi : i < A.length) (hj : j < A.length) :
    ∃ B, TArraySwap A i j = some B ∧ B.Perm A :=
  ⟨_, dif_pos ⟨hi, hj⟩, set_set_perm A i j hi hj⟩

theorem shuffle_perm (Rand : Nat → Nat) :
    ∀ (i k : Nat) (P : List Int), i < P.length →
      ∃ T, MakePermutation.shuffle Rand i k P = some T ∧ T.Perm P := by
  intro i
  induction i with
  | zero => intro k P _; exact ⟨P, rfl, List.Perm.refl P⟩
  | succ i ih =>
    intro k P hP
    have hr : Rand k % (i + 1 + 1) < P.length :=
      lt_of_lt_of_le (Nat.mod_lt _ (by omega)) (by omega)
    obtain ⟨B, hB, hperm⟩ := TArraySwap_some P (i + 1) (Rand k % (i + 1 + 1)) hP hr
    have hlen : i < B.length := by rw [hperm.length_eq]; omega
    obtain ⟨T, hT, hTperm⟩ := ih (k + 1) B hlen
    refine ⟨T, ?_, hTperm.trans hperm⟩
    simp only [MakePermutation.shuffle, hB, Option.bind_eq_bind, Option.some_bind]
    exact hT

theorem range_table_nodup : ((List.range 256).map Int.ofNat).Nodup :=
  (List.nodup_range 256).map Int.ofNat_injective

theorem table_entry_bounds {P : List Int} (hperm : P.Perm ((List.range 256).map Int.ofNat))
    {v : Int} (hv : v ∈ P) : 0 ≤ v ∧ v ≤ 255 := by
  have h := hperm.mem_iff.mp hv
  simp only [List.mem_map, List.mem_range] at h
  obtain ⟨n, hn, rfl⟩ := h
  constructor
  · exact Int.ofNat_nonneg n
  · show (n : Int) ≤ 255
    omega

/-- C1: whatever values the calls of `FMath::Rand()` return, `MakePermutation` completes
(every `Swap` it performs has both indices inside the table, otherwise the result would be
`none`), and the table it returns has exactly 256 entries, is a rearrangement of `0..255`
and so contains each of the integers `0..255` exactly once. -/
theorem MakePermutation_bijection (Rand : Nat → Nat) :
    ∃ T, MakePermutation Rand = some T ∧ T.length = 256 ∧
      T.Perm ((List.range 256).map Int.ofNat) ∧ T.Nodup ∧
      ∀ v : Fin 256, T.count ((v : Nat) : Int) = 1 := by
  obtain ⟨T, hT, hperm⟩ :=
    shuffle_perm Rand 255 0 ((List.range 256).map Int.ofNat) (by simp)
  have hnd : T.Nodup := hperm.nodup_iff.mpr range_table_nodup
  refine ⟨T, hT, by rw [hperm.length_eq]; simp, hperm, hnd, ?_⟩
  intro v
  apply List.count_eq_one_of_mem hnd
  rw [hperm.mem_iff]
  simp only [List.mem_map, List.mem_range]
  exact ⟨v, v.isLt, rfl⟩

/-! ## Octave compositor -/

theorem OctaveLoop_bounds (Layer : FVector2D → Option ℚ) (Location : FVector2D)
    (hLayer : ∀ p, ∃ v, Layer p = some v ∧ -1 ≤ v ∧ v ≤ 1) :
    ∀ (n : Nat) (Total MaxValue Amplitude CurrentFrequency : ℚ),
      0 < Amplitude → -MaxValue ≤ Total → Total ≤ MaxValue →
      ∃ T M, OctaveLoop Layer Location n Total MaxValue Amplitude CurrentFrequency
          = some (T, M) ∧ -M ≤ T ∧ T ≤ M ∧ MaxValue ≤ M ∧ (0 < n → MaxValue < M) := by
  intro n
  induction n with
  | zero =>
    intro Total MaxValue Amplitude CurrentFrequency _ h1 h2
    exact ⟨Total, MaxValue, rfl, h1, h2, le_refl _, fun h => absurd h (by omega)⟩
  | succ n ih =>
    intro Total MaxValue Amplitude CurrentFrequency hA h1 h2
    obtain ⟨v, hv, hv1, hv2⟩ := hLayer (Location.scale CurrentFrequency)
    have hlo : -(MaxValue + Amplitude) ≤ Total + v * Amplitude := by nlinarith
    have hhi : Total + v * Amplitude ≤ MaxValue + Amplitude := by nlinarith
    obtain ⟨T, M, hTM, hT1, hT2, hM, _⟩ :=
      ih (Total + v * Amplitude) (MaxValue + Amplitude) (Amplitude * (1 / 2))
        (CurrentFrequency * 2) (by positivity) hlo hhi
    refine ⟨T, M, ?_, hT1, hT2, by linarith, fun _ => by linarith⟩
    simp only [OctaveLoop, hv, Option.bind_eq_bind, Option.some_bind]
    exact hTM

theorem OctaveCompositor_bounds (Layer : FVector2D → Option ℚ) (Location : FVector2D)
    (Octaves : Int) (Frequency : ℚ) (hOct : 1 ≤ Octaves)
    (hLayer : ∀ p, ∃ v, Layer p = some v ∧ -1 ≤ v ∧ v ≤ 1) :
    ∃ r, OctaveCompositor Layer Location Octaves Frequency = some r ∧ -1 ≤ r ∧ r ≤ 1 := by
  obtain ⟨T, M, hTM, hT1, hT2, _, hpos⟩ :=
    OctaveLoop_bounds Layer Location hLayer Octaves.toNat 0 0 1 Frequency (by norm_num)
      (by norm_num) (by norm_num)
  have hM : 0 < M := hpos (by omega)
  refine ⟨T / M, ?_, ?_, ?_⟩
  · simp only [OctaveCompositor, hTM, Option.bind_eq_bind, Option.some_bind, fdiv,
      if_neg (ne_of_gt hM)]
  · rw [le_div_iff₀ hM]; linarith
  · rw [div_le_iff₀ hM]; linarith

/-- C2: for every point, base frequency, octave count `n` with `1 <= n <= 8` and layer
function whose values all lie in `[-1, 1]`, the octave compositor shared by `PerlinNoise`
and `VoronoiNoise` returns a value, and the value lies in `[-1, 1]`. -/
theorem OctaveCompositor_range (Layer : FVector2D → Option ℚ) (Location : FVector2D)
    (Octaves : Int) (Frequency : ℚ) (hlo : 1 ≤ Octaves) (_hhi : Octaves ≤ 8)
    (hLayer : ∀ p, ∃ v, Layer p = some v ∧ -1 ≤ v ∧ v ≤ 1) :
    ∃ r, OctaveCompositor Layer Location Octaves Frequency = some r ∧ -1 ≤ r ∧ r ≤ 1 :=
  OctaveCompositor_bounds Layer Location Octaves Frequency hlo hLayer

/-- Witness for C2: three octaves at base frequency `1/4` of a layer that is `1/2` left of
`x = 1` and `-1` elsewhere; at the point `(3, -2)` the compositor returns `-1/7`. -/
theorem OctaveCompositor_range_witness :
    (1 : Int) ≤ 3 ∧ (3 : Int) ≤ 8 ∧ (∀ p, ∃ v, sampleLayer p = some v ∧ -1 ≤ v ∧ v ≤ 1) ∧
      OctaveCompositor sampleLayer ⟨3, -2⟩ 3 (1 / 4) = some (-1 / 7) ∧
      ∃ r, OctaveCompositor sampleLayer ⟨3, -2⟩ 3 (1 / 4) = some r ∧ -1 ≤ r ∧ r ≤ 1 := by
  have hL : ∀ p, ∃ v, sampleLayer p = some v ∧ -1 ≤ v ∧ v ≤ 1 := by
    intro p
    refine ⟨_, rfl, ?_, ?_⟩ <;> split_ifs <;> norm_num
  refine ⟨by decide, by decide, hL, ?_,
    OctaveCompositor_range sampleLayer ⟨3, -2⟩ 3 (1 / 4) (by decide) (by decide) hL⟩
  have h3 : Int.toNat 3 = 3 := rfl
  simp only [OctaveCompositor, h3, OctaveLoop, sampleLayer, FVector2D.scale,
    Option.bind_eq_bind, Option.some_bind, fdiv]
  norm_num

/-! ## Perlin layer -/

theorem TableOK_of_perm {P : List Int} (hperm : P.Perm ((List.range 256).map Int.ofNat)) :
    TableOK P :=
  ⟨by rw [hperm.length_eq]; simp, fun _ hv => table_entry_bounds hperm hv⟩

theorem TArrayGet_table {P : List Int} (hP : TableOK P) {i : Int} (h0 : 0 ≤ i)
    (h1 : i ≤ 255) : ∃ v, TArrayGet P i = some v ∧ 0 ≤ v ∧ v ≤ 255 := by
  have hlt : i.toNat < P.length := by rw [hP.1]; omega
  refine ⟨P[i.toNat], ?_, hP.2 _ (List.getElem_mem hlt)⟩
  simp only [TArrayGet, if_pos h0]
  exact List.getElem?_eq_getElem hlt

theorem tmod_256_bounds {a : Int} (ha : 0 ≤ a) : 0 ≤ Int.tmod a 256 ∧ Int.tmod a 256 ≤ 255 := by
  rw [Int.tmod_eq_emod ha (by decide)]
  omega

/-- On a table of 256 entries in `0..255` every read of `PerlinNoiseLayer` succeeds, and
the result is the blend of four gradients of `GetConstantVector`. -/
theorem PerlinNoiseLayer_eq (Location : FVector2D) {P : List Int} (hP : TableOK P) :
    ∃ a b c d : Int, PerlinNoiseLayer Location P =
      some (perlinBlend (GetConstantVector a) (GetConstantVector b) (GetConstantVector c)
        (GetConstantVector d) (Location.X - FloorToInt Location.X)
        (Location.Y - FloorToInt Location.Y)) := by
  have hX : 0 ≤ Int.land (FloorToInt Location.X) 255 ∧
      Int.land (FloorToInt Location.X) 255 ≤ 255 := by
    rw [land_255]; omega
  have hY : 0 ≤ Int.land (FloorToInt Location.Y) 255 ∧
      Int.land (FloorToInt Location.Y) 255 ≤ 255 := by
    rw [land_255]; omega
  obtain ⟨px, hpx, hpx0, _⟩ := TArrayGet_table hP hX.1 hX.2
  have hX1 := tmod_256_bounds (a := Int.land (FloorToInt Location.X) 255 + 1) (by omega)
  obtain ⟨px1, hpx1, hpx10, _⟩ := TArrayGet_table hP hX1.1 hX1.2
  have h1 := tmod_256_bounds (a := px + Int.land (FloorToInt Location.Y) 255) (by omega)
  have h2 := tmod_256_bounds (a := px1 + Int.land (FloorToInt Location.Y) 255) (by omega)
  have h3 := tmod_256_bounds (a := px + Int.land (FloorToInt Location.Y) 255 + 1) (by omega)
  have h4 := tmod_256_bounds (a := px1 + Int.land (FloorToInt Location.Y) 255 + 1) (by omega)
  obtain ⟨a, ha, _⟩ := TArrayGet_table hP h1.1 h1.2
  obtain ⟨b, hb, _⟩ := TArrayGet_table hP h2.1 h2.2
  obtain ⟨c, hc, _⟩ := TArrayGet_table hP h3.1 h3.2
  obtain ⟨d, hd, _⟩ := TArrayGet_table hP h4.1 h4.2
  refine ⟨a, b, c, d, ?_⟩
  simp only [PerlinNoiseLayer, hpx, hpx1, ha, hb, hc, hd, Option.bind_eq_bind,
    Option.some_bind, Option.pure_def, bind_pure_comp, Option.map_eq_map, Option.map_some',
    perlinBlend, pure]

theorem Smooth_unit {t : ℚ} (h0 : 0 ≤ t) (h1 : t ≤ 1) : 0 ≤ Smooth t ∧ Smooth t ≤ 1 := by
  have a := Smooth_mono h0
  have b := Smooth_mono h1
  have e0 : Smooth 0 = 0 := by norm_num [Smooth]
  have e1 : Smooth 1 = 1 := by norm_num [Smooth]
  rw [e0] at a
  rw [e1] at b
  exact ⟨a, b⟩

/-- The weighted distance to the two cell borders along one axis never exceeds one half. -/
theorem Smooth_half (t : ℚ) :
    1 / 2 - (t + Smooth t * (1 - 2 * t)) =
      2 * (t - 1 / 2) ^ 2 * (6 * (t * (1 - t)) ^ 2 + 2 * (t * (1 - t)) + 1) := by
  unfold Smooth
  ring

theorem Smooth_half_le {t : ℚ} (h0 : 0 ≤ t) (h1 : t ≤ 1) :
    t + Smooth t * (1 - 2 * t) ≤ 1 / 2 := by
  have h := Smooth_half t
  have ht : 0 ≤ t * (1 - t) := mul_nonneg h0 (by linarith)
  have hr : 0 ≤ 2 * (t - 1 / 2) ^ 2 * (6 * (t * (1 - t)) ^ 2 + 2 * (t * (1 - t)) + 1) := by
    positivity
  linarith

theorem Dot_bound (g : FVector2D) (hx : g.X = 1 ∨ g.X = -1) (hy : g.Y = 1 ∨ g.Y = -1)
    {a b A B : ℚ} (ha1 : -A ≤ a) (ha2 : a ≤ A) (hb1 : -B ≤ b) (hb2 : b ≤ B) :
    -(A + B) ≤ FVector2D.Dot ⟨a, b⟩ g ∧ FVector2D.Dot ⟨a, b⟩ g ≤ A + B := by
  unfold FVector2D.Dot
  rcases hx with hx | hx <;> rcases hy with hy | hy <;> rw [hx, hy] <;>
    constructor <;> linarith

theorem perlinBlend_weights (g00 g10 g01 g11 : FVector2D) (Xf Yf : ℚ) :
    perlinBlend g00 g10 g01 g11 Xf Yf =
      (1 - Smooth Xf) * (1 - Smooth Yf) * FVector2D.Dot ⟨Xf, Yf⟩ g00
      + Smooth Xf * (1 - Smooth Yf) * FVector2D.Dot ⟨Xf - 1, Yf⟩ g10
      + (1 - Smooth Xf) * Smooth Yf * FVector2D.Dot ⟨Xf, Yf - 1⟩ g01
      + Smooth Xf * Smooth Yf * FVector2D.Dot ⟨Xf - 1, Yf - 1⟩ g11 := by
  unfold perlinBlend Lerp
  ring

theorem perlinBlend_bounds (a b c d : Int) {Xf Yf : ℚ} (hx0 : 0 ≤ Xf) (hx1 : Xf ≤ 1)
    (hy0 : 0 ≤ Yf) (hy1 : Yf ≤ 1) :
    -1 ≤ perlinBlend (GetConstantVector a) (GetConstantVector b) (GetConstantVector c)
        (GetConstantVector d) Xf Yf ∧
    perlinBlend (GetConstantVector a) (GetConstantVector b) (GetConstantVector c)
        (GetConstantVector d) Xf Yf ≤ 1 := by
  obtain ⟨hu0, hu1⟩ := Smooth_unit hx0 hx1
  obtain ⟨hv0, hv1⟩ := Smooth_unit hy0 hy1
  have gx := Smooth_half_le hx0 hx1
  have gy := Smooth_half_le hy0 hy1
  obtain ⟨d00l, d00u⟩ := Dot_bound (GetConstantVector a) (GetConstantVector_components a).1
    (GetConstantVector_components a).2 (a := Xf) (b := Yf) (A := Xf) (B := Yf)
    (by linarith) (by linarith) (by linarith) (by linarith)
  obtain ⟨d10l, d10u⟩ := Dot_bound (GetConstantVector b) (GetConstantVector_components b).1
    (GetConstantVector_components b).2 (a := Xf - 1) (b := Yf) (A := 1 - Xf) (B := Yf)
    (by linarith) (by linarith) (by linarith) (by linarith)
  obtain ⟨d01l, d01u⟩ := Dot_bound (GetConstantVector c) (GetConstantVector_components c).1
    (GetConstantVector_components c).2 (a := Xf) (b := Yf - 1) (A := Xf) (B := 1 - Yf)
    (by linarith) (by linarith) (by linarith) (by linarith)
  obtain ⟨d11l, d11u⟩ := Dot_bound (GetConstantVector d) (GetConstantVector_components d).1
    (GetConstantVector_components d).2 (a := Xf - 1) (b := Yf - 1) (A := 1 - Xf) (B := 1 - Yf)
    (by linarith) (by linarith) (by linarith) (by linarith)
  have w00 : 0 ≤ (1 - Smooth Xf) * (1 - Smooth Yf) :=
    mul_nonneg (by linarith) (by linarith)
  have w10 : 0 ≤ Smooth Xf * (1 - Smooth Yf) := mul_nonneg hu0 (by linarith)
  have w01 : 0 ≤ (1 - Smooth Xf) * Smooth Yf := mul_nonneg (by linarith) hv0
  have w11 : 0 ≤ Smooth Xf * Smooth Yf := mul_nonneg hu0 hv0
  rw [perlinBlend_weights]
  have u00 := mul_le_mul_of_nonneg_left d00u w00
  have u10 := mul_le_mul_of_nonneg_left d10u w10
  have u01 := mul_le_mul_of_nonneg_left d01u w01
  have u11 := mul_le_mul_of_nonneg_left d11u w11
  have l00 := mul_le_mul_of_nonneg_left d00l w00
  have l10 := mul_le_mul_of_nonneg_left d10l w10
  have l01 := mul_le_mul_of_nonneg_left d01l w01
  have l11 := mul_le_mul_of_nonneg_left d11l w11
  have hsum : (1 - Smooth Xf) * (1 - Smooth Yf) * (Xf + Yf)
      + Smooth Xf * (1 - Smooth Yf) * (1 - Xf + Yf)
      + (1 - Smooth Xf) * Smooth Yf * (Xf + (1 - Yf))
      + Smooth Xf * Smooth Yf * (1 - Xf + (1 - Yf))
      = (Xf + Smooth Xf * (1 - 2 * Xf)) + (Yf + Smooth Yf * (1 - 2 * Yf)) := by ring
  constructor <;> linarith

theorem fract_bounds (x : ℚ) : 0 ≤ x - FloorToInt x ∧ x - FloorToInt x ≤ 1 := by
  unfold FloorToInt
  have h1 := Int.floor_le x
  have h2 := Int.lt_floor_add_one x
  constructor <;> linarith

theorem PerlinNoiseLayer_bounds (Location : FVector2D) {P : List Int} (hP : TableOK P) :
    ∃ r, PerlinNoiseLayer Location P = some r ∧ -1 ≤ r ∧ r ≤ 1 := by
  obtain ⟨a, b, c, d, h⟩ := PerlinNoiseLayer_eq Location hP
  obtain ⟨hx0, hx1⟩ := fract_bounds Location.X
  obtain ⟨hy0, hy1⟩ := fract_bounds Location.Y
  exact ⟨_, h, perlinBlend_bounds a b c d hx0 hx1 hy0 hy1⟩

/-- C3: for every point and every permutation table (256 entries, a rearrangement of
`0..255`) `PerlinNoiseLayer`, in exact arithmetic, returns a value, and the value lies in
`[-1, 1]`. -/
theorem PerlinNoiseLayer_range (Location : FVector2D) (Permutation : List Int)
    (hperm : Permutation.Perm ((List.range 256).map Int.ofNat)) :
    ∃ r, PerlinNoiseLayer Location Permutation = some r ∧ -1 ≤ r ∧ r ≤ 1 :=
  PerlinNoiseLayer_bounds Location (TableOK_of_perm hperm)

theorem TArrayGet_range (i : Nat) (hi : i < 256) :
    TArrayGet ((List.range 256).map Int.ofNat) (i : Int) = some (i : Int) := by
  simp [TArrayGet, List.getElem?_range hi]

/-- With the unshuffled table `0..255`, the layer value at the centre `(1/2, 1/2)` of the
first cell is `1/2`. -/
theorem PerlinNoiseLayer_centre :
    PerlinNoiseLayer ⟨1 / 2, 1 / 2⟩ ((List.range 256).map Int.ofNat) = some (1 / 2) := by
  have hf : FloorToInt (1 / 2) = 0 := by
    unfold FloorToInt
    rw [Int.floor_eq_iff]
    norm_num
  have h0 := TArrayGet_range 0 (by decide)
  have h1 := TArrayGet_range 1 (by decide)
  have h2 := TArrayGet_range 2 (by decide)
  have m0 : Int.land 0 255 = 0 := by rw [land_255]; rfl
  have t1 : Int.tmod (0 + 1) 256 = 1 := by decide
  have t2 : Int.tmod (0 + 0) 256 = 0 := by decide
  have t3 : Int.tmod (1 + 0) 256 = 1 := by decide
  have t4 : Int.tmod (0 + 0 + 1) 256 = 1 := by decide
  have t5 : Int.tmod (1 + 0 + 1) 256 = 2 := by decide
  simp only [Nat.cast_zero, Nat.cast_one, Nat.cast_ofNat] at h0 h1 h2
  simp only [PerlinNoiseLayer, hf, m0, t1, h0, h1, t2, t3, t4, t5, h2, Option.bind_eq_bind,
    Option.some_bind, Option.pure_def, GetConstantVector_eq, pure]
  norm_num [FVector2D.Dot, Lerp, Smooth]

/-- Witness for C3: with the unshuffled table `0..255`, at the centre `(1/2, 1/2)` of the
first cell, the layer value is `1/2`. -/
theorem PerlinNoiseLayer_range_witness :
    ((List.range 256).map Int.ofNat).Perm ((List.range 256).map Int.ofNat) ∧
      PerlinNoiseLayer ⟨1 / 2, 1 / 2⟩ ((List.range 256).map Int.ofNat) = some (1 / 2) ∧
      ∃ r, PerlinNoiseLayer ⟨1 / 2, 1 / 2⟩ ((List.range 256).map Int.ofNat) = some r ∧
        -1 ≤ r ∧ r ≤ 1 :=
  ⟨List.Perm.refl _, PerlinNoiseLayer_centre,
    PerlinNoiseLayer_range ⟨1 / 2, 1 / 2⟩ ((List.range 256).map Int.ofNat) (List.Perm.refl _)⟩

/-! ## Floating-point rounding -/

theorem roundEven_intCast (n : Int) : roundEven (n : ℚ) = n := by
  simp [roundEven]

theorem roundEven_near (x : ℚ) (n : Int) (h1 : (n : ℚ) - 1 / 2 < x) (h2 : x < n + 1 / 2) :
    roundEven x = n := by
  unfold roundEven
  by_cases hx : (n : ℚ) ≤ x
  · have hf : ⌊x⌋ = n := by
      rw [Int.floor_eq_iff]; constructor <;> linarith
    rw [hf, if_pos (by linarith)]
  · have hf : ⌊x⌋ = n - 1 := by
      rw [Int.floor_eq_iff]; push_cast; constructor <;> linarith
    rw [hf]
    push_cast
    rw [if_neg (by linarith), if_pos (by linarith)]
    ring

theorem roundEven_nonneg {x : ℚ} (hx : 0 ≤ x) : 0 ≤ roundEven x := by
  have hf : 0 ≤ ⌊x⌋ := Int.floor_nonneg.mpr hx
  unfold roundEven
  split_ifs <;> omega

theorem roundEven_nonpos {x : ℚ} (hx : x ≤ 0) : roundEven x ≤ 0 := by
  have hf : ⌊x⌋ ≤ 0 := by
    have := Int.floor_le x
    have h : ((⌊x⌋ : Int) : ℚ) ≤ ((0 : Int) : ℚ) := by push_cast; linarith
    exact_mod_cast h
  unfold roundEven
  by_cases h1 : x - ⌊x⌋ < 1 / 2
  · rw [if_pos h1]; exact hf
  · have hne : ⌊x⌋ ≠ 0 := by
      intro h0
      rw [h0] at h1
      push_cast at h1
      linarith
    have : ⌊x⌋ + 1 ≤ 0 := by omega
    rw [if_neg h1]
    split_ifs <;> omega

theorem two_zpow_pos (e : Int) : (0 : ℚ) < 2 ^ e := zpow_pos (by norm_num) e

theorem roundBinary_zero (p : Nat) (emin : Int) : roundBinary p emin 0 = 0 := by
  simp [roundBinary, roundEven]

theorem roundBinary_nonneg (p : Nat) (emin : Int) {x : ℚ} (hx : 0 ≤ x) :
    0 ≤ roundBinary p emin x := by
  unfold roundBinary
  have h1 : 0 ≤ x / 2 ^ ulpExponent p emin x := div_nonneg hx (le_of_lt (two_zpow_pos _))
  have h2 := roundEven_nonneg h1
  have h3 : (0 : ℚ) ≤ roundEven (x / 2 ^ ulpExponent p emin x) := by exact_mod_cast h2
  exact mul_nonneg h3 (le_of_lt (two_zpow_pos _))

theorem roundBinary_nonpos (p : Nat) (emin : Int) {x : ℚ} (hx : x ≤ 0) :
    roundBinary p emin x ≤ 0 := by
  unfold roundBinary
  have h1 : x / 2 ^ ulpExponent p emin x ≤ 0 := div_nonpos_of_nonpos_of_nonneg hx (le_of_lt (two_zpow_pos _))
  have h2 := roundEven_nonpos h1
  have h3 : (roundEven (x / 2 ^ ulpExponent p emin x) : ℚ) ≤ 0 := by exact_mod_cast h2
  exact mul_nonpos_of_nonpos_of_nonneg h3 (le_of_lt (two_zpow_pos _))

/-- A number `n * 2^k` with `|n| < 2^p` and `k` not below the smallest exponent is
representable: rounding leaves it unchanged. -/
theorem roundBinary_exact (p : Nat) (emin : Int) (hp : 1 ≤ p) (n k : Int)
    (hn : |n| < 2 ^ p) (hk : emin - (p - 1 : Nat) ≤ k) :
    roundBinary p emin ((n : ℚ) * 2 ^ k) = (n : ℚ) * 2 ^ k := by
  by_cases h0 : n = 0
  · subst h0
    simp [roundBinary_zero]
  have hxpos : (0 : ℚ) < |(n : ℚ) * 2 ^ k| := by
    rw [abs_pos]
    exact mul_ne_zero (by exact_mod_cast h0) (ne_of_gt (two_zpow_pos k))
  have hlt : |(n : ℚ) * 2 ^ k| < ((2 : Nat) : ℚ) ^ ((p : Int) + k) := by
    rw [abs_mul, abs_of_pos (two_zpow_pos k), zpow_add₀ (by norm_num), zpow_natCast]
    have hnq : |(n : ℚ)| < 2 ^ p := by
      have : ((|n| : Int) : ℚ) < ((2 ^ p : Int) : ℚ) := by exact_mod_cast hn
      simpa using this
    push_cast
    exact mul_lt_mul_of_pos_right hnq (two_zpow_pos k)
  have hlog : Int.log 2 |(n : ℚ) * 2 ^ k| < (p : Int) + k :=
    (Int.lt_zpow_iff_log_lt (by norm_num) hxpos).mp hlt
  have he : ulpExponent p emin ((n : ℚ) * 2 ^ k) ≤ k := by
    unfold ulpExponent
    have : max (Int.log 2 |(n : ℚ) * 2 ^ k|) emin ≤ k + (p - 1 : Nat) := by
      apply max_le <;> omega
    omega
  obtain ⟨j, hj⟩ := Int.le.dest he
  unfold roundBinary
  set e := ulpExponent p emin ((n : ℚ) * 2 ^ k) with hedef
  have hk2 : k = e + j := hj.symm
  have hdiv : (n : ℚ) * 2 ^ k / 2 ^ e = ((n * 2 ^ j : Int) : ℚ) := by
    rw [hk2, zpow_add₀ (by norm_num), zpow_natCast]
    push_cast
    field_simp
    ring
  rw [hdiv, roundEven_intCast, hk2, zpow_add₀ (by norm_num), zpow_natCast]
  push_cast
  ring

/-- Evaluation of a rounding: a positive `x` in the binade `[2^e, 2^(e+1))`, at a distance
below half a unit in the last place from `n` units, rounds to `n` units. -/
theorem roundBinary_near (p : Nat) (emin : Int) (x : ℚ) (e n : Int) (hemin : emin ≤ e)
    (he1 : (2 : ℚ) ^ e ≤ x) (he2 : x < 2 ^ (e + 1))
    (hn1 : (n : ℚ) - 1 / 2 < x / 2 ^ (e - (p - 1 : Nat)))
    (hn2 : x / 2 ^ (e - (p - 1 : Nat)) < n + 1 / 2) :
    roundBinary p emin x = (n : ℚ) * 2 ^ (e - (p - 1 : Nat)) := by
  have hx : 0 < x := lt_of_lt_of_le (two_zpow_pos e) he1
  have habs : |x| = x := abs_of_pos hx
  have hlog : Int.log 2 |x| = e := by
    rw [habs]
    apply le_antisymm
    · have : Int.log 2 x < e + 1 :=
        (Int.lt_zpow_iff_log_lt (by norm_num) hx).mp (by simpa using he2)
      omega
    · exact (Int.zpow_le_iff_le_log (by norm_num) hx).mp (by simpa using he1)
  have hu : ulpExponent p emin x = e - (p - 1 : Nat) := by
    unfold ulpExponent
    rw [hlog, max_eq_left hemin]
  unfold roundBinary
  rw [hu, roundEven_near _ n hn1 hn2]


theorem roundEven_half (n : Int) :
    roundEven ((n : ℚ) + 1 / 2) = if n % 2 = 0 then n else n + 1 := by
  have hf : ⌊(n : ℚ) + 1 / 2⌋ = n := by
    rw [Int.floor_eq_iff]; constructor <;> linarith
  unfold roundEven
  rw [hf, if_neg (by linarith), if_neg (by linarith)]

/-- Evaluation of a rounding at a tie: a positive `x` in the binade `[2^e, 2^(e+1))`,
half-way between `n` and `n + 1` units in the last place, rounds to the even one. -/
theorem roundBinary_tie (p : Nat) (emin : Int) (x : ℚ) (e n : Int) (hemin : emin ≤ e)
    (he1 : (2 : ℚ) ^ e ≤ x) (he2 : x < 2 ^ (e + 1))
    (hn : x / 2 ^ (e - (p - 1 : Nat)) = n + 1 / 2) :
    roundBinary p emin x
      = ((if n % 2 = 0 then n else n + 1 : Int) : ℚ) * 2 ^ (e - (p - 1 : Nat)) := by
  have hx : 0 < x := lt_of_lt_of_le (two_zpow_pos e) he1
  have habs : |x| = x := abs_of_pos hx
  have hlog : Int.log 2 |x| = e := by
    rw [habs]
    apply le_antisymm
    · have : Int.log 2 x < e + 1 :=
        (Int.lt_zpow_iff_log_lt (by norm_num) hx).mp (by simpa using he2)
      omega
    · exact (Int.zpow_le_iff_le_log (by norm_num) hx).mp (by simpa using he1)
  have hu : ulpExponent p emin x = e - (p - 1 : Nat) := by
    unfold ulpExponent
    rw [hlog, max_eq_left hemin]
  unfold roundBinary
  rw [hu, hn, roundEven_half]

theorem toFloat_zero : toFloat 0 = 0 := roundBinary_zero 24 (-126)

theorem toDouble_zero : toDouble 0 = 0 := roundBinary_zero 53 (-1022)

theorem toFloat_nonneg {x : ℚ} (hx : 0 ≤ x) : 0 ≤ toFloat x := roundBinary_nonneg 24 (-126) hx

theorem toFloat_nonpos {x : ℚ} (hx : x ≤ 0) : toFloat x ≤ 0 := roundBinary_nonpos 24 (-126) hx

/-- A single-precision number is left unchanged by `toFloat`. -/
theorem toFloat_of_eq (x : ℚ) (n k : Int) (hn : |n| < 2 ^ 24) (hk : -149 ≤ k)
    (hx : x = (n : ℚ) * 2 ^ k) : toFloat x = x := by
  rw [hx]
  exact roundBinary_exact 24 (-126) (by norm_num) n k hn (by norm_num; omega)

/-- A double-precision number is left unchanged by `toDouble`. -/
theorem toDouble_of_eq (x : ℚ) (n k : Int) (hn : |n| < 2 ^ 53) (hk : -1074 ≤ k)
    (hx : x = (n : ℚ) * 2 ^ k) : toDouble x = x := by
  rw [hx]
  exact roundBinary_exact 53 (-1022) (by norm_num) n k hn (by norm_num; omega)

theorem toFloat_16777217 : toFloat 16777217 = 16777216 := by
  have h := roundBinary_tie 24 (-126) 16777217 24 8388608 (by norm_num) (by norm_num)
    (by norm_num) (by norm_num)
  rw [toFloat, h]
  norm_num

theorem toFloat_16777218 : toFloat 16777218 = 16777218 :=
  toFloat_of_eq _ 8388609 1 (by norm_num) (by norm_num) (by norm_num)

theorem toFloat_16777219 : toFloat 16777219 = 16777220 := by
  have h := roundBinary_tie 24 (-126) 16777219 24 8388609 (by norm_num) (by norm_num)
    (by norm_num) (by norm_num)
  rw [toFloat, h]
  norm_num

theorem toFloat_16777220 : toFloat 16777220 = 16777220 :=
  toFloat_of_eq _ 8388610 1 (by norm_num) (by norm_num) (by norm_num)

theorem toFloat_natCast (n : Nat) (hn : n ≤ 2 ^ 24) : toFloat (n : ℚ) = n := by
  unfold toFloat
  rcases Nat.lt_or_ge n (2 ^ 24) with h | h
  · have := roundBinary_exact 24 (-126) (by norm_num) (n : Int) 0
      (by rw [abs_of_nonneg (by omega)]; exact_mod_cast h) (by norm_num)
    simpa using this
  · have e : n = 2 ^ 24 := le_antisymm hn h
    have := roundBinary_exact 24 (-126) (by norm_num) 1 24 (by norm_num) (by norm_num)
    subst e
    norm_num at this ⊢
    exact this

theorem toFloat_default_40 : toFloat (defaultFrequency * 40) = 2 := by
  have h := roundBinary_near 24 (-126) (defaultFrequency * 40) 1 8388608 (by norm_num)
    (by norm_num [defaultFrequency]) (by norm_num [defaultFrequency])
    (by norm_num [defaultFrequency]) (by norm_num [defaultFrequency])
  rw [toFloat, h]
  norm_num

theorem toFloat_default_inv : toFloat (1 / defaultFrequency) = 20 := by
  have h := roundBinary_near 24 (-126) (1 / defaultFrequency) 4 10485760 (by norm_num)
    (by norm_num [defaultFrequency]) (by norm_num [defaultFrequency])
    (by norm_num [defaultFrequency]) (by norm_num [defaultFrequency])
  rw [toFloat, h]
  norm_num

theorem toFloat_default_256 : toFloat (defaultFrequency * 256) = 13421773 / 1048576 := by
  have h := roundBinary_exact 24 (-126) (by norm_num) 13421773 (-20) (by norm_num) (by norm_num)
  rw [toFloat]
  have e : defaultFrequency * 256 = ((13421773 : Int) : ℚ) * 2 ^ (-20 : Int) := by
    norm_num [defaultFrequency]
  rw [e, h]
  norm_num

theorem toFloat_twentieth : toFloat (1 / 20) = defaultFrequency := by
  have h := roundBinary_near 24 (-126) (1 / 20) (-5) 13421773 (by norm_num)
    (by norm_num) (by norm_num) (by norm_num) (by norm_num)
  rw [toFloat, h]
  norm_num [defaultFrequency]


/-! ## Voronoi layer -/

theorem SqrtUp_isSqrt : IsSqrt SqrtUp := by
  refine ⟨by simp [SqrtUp], ?_, ?_⟩
  · intro x hx
    simp only [SqrtUp, if_neg (not_le.mpr hx)]
    positivity
  · intro x y hxy
    unfold SqrtUp
    by_cases hx : x ≤ 0
    · rw [if_pos hx]
      split_ifs
      · exact le_refl _
      · positivity
    · have hy : ¬ y ≤ 0 := fun h => hx (le_trans hxy h)
      rw [if_neg hx, if_neg hy]
      have h1 : ⌈x⌉₊ - 1 ≤ ⌈y⌉₊ - 1 := Nat.sub_le_sub_right (Nat.ceil_mono hxy) 1
      have h2 := Nat.sqrt_le_sqrt h1
      exact_mod_cast Nat.add_le_add_right h2 1

theorem toFloat_intCast (n : Int) (hn : |n| < 2 ^ 24) : toFloat (n : ℚ) = n :=
  toFloat_of_eq _ n 0 hn (by norm_num) (by simp)

theorem DistanceSquared_self (p : FVector2D) : DistanceSquared p p = 0 := by
  simp only [DistanceSquared, sub_self, toDouble_zero, mul_zero, add_zero, toFloat_zero]

theorem DistanceSq_self (p : FVector2D) : FindTwoClosest.DistanceSq p p = 0 := by
  simp only [FindTwoClosest.DistanceSq, DistSquared, sub_self, toDouble_zero, mul_zero,
    add_zero, toFloat_zero]

theorem step_first (Target : FVector2D) (s : Closest) (x : FVector2D)
    (h : FindTwoClosest.DistanceSq Target x < s.ClosestDist1) :
    FindTwoClosest.step Target s x =
      ⟨x, s.ClosestPoint1, FindTwoClosest.DistanceSq Target x, s.ClosestDist1⟩ := by
  simp only [FindTwoClosest.step, if_pos h]

theorem step_second (Target : FVector2D) (s : Closest) (x : FVector2D)
    (h1 : ¬ FindTwoClosest.DistanceSq Target x < s.ClosestDist1)
    (h2 : FindTwoClosest.DistanceSq Target x < s.ClosestDist2) :
    FindTwoClosest.step Target s x =
      ⟨s.ClosestPoint1, x, s.ClosestDist1, FindTwoClosest.DistanceSq Target x⟩ := by
  simp only [FindTwoClosest.step, if_neg h1, if_pos h2]

theorem step_none (Target : FVector2D) (s : Closest) (x : FVector2D)
    (h1 : ¬ FindTwoClosest.DistanceSq Target x < s.ClosestDist1)
    (h2 : ¬ FindTwoClosest.DistanceSq Target x < s.ClosestDist2) :
    FindTwoClosest.step Target s x = s := by
  simp only [FindTwoClosest.step, if_neg h1, if_neg h2]

theorem VoronoiNoiseLayer_of_closest (Sqrt : ℚ → ℚ) (Location : FVector2D)
    (Nuclei : List FVector2D) (p1 p2 : FVector2D)
    (h : FindTwoClosest Location Nuclei = [p1, p2]) :
    VoronoiNoiseLayer Sqrt Location Nuclei =
      (fdiv (Sqrt (DistanceSquared Location p2) - Sqrt (DistanceSquared Location p1))
        (Sqrt (DistanceSquared Location p2) + Sqrt (DistanceSquared Location p1))).bind
        (fun InterpValue => some (InterpValue * 2 - 1)) := by
  have g0 : TArrayGet [p1, p2] 0 = some p1 := rfl
  have g1 : TArrayGet [p1, p2] 1 = some p2 := rfl
  simp only [VoronoiNoiseLayer, h, List.isEmpty_cons, Bool.false_eq_true, if_false, g0, g1,
    Option.bind_eq_bind, Option.some_bind, Option.pure_def, pure]

theorem FLT_MAX_pos : 0 < FLT_MAX := by norm_num [FLT_MAX]

theorem FindTwoClosest_two (Target a b : FVector2D) :
    FindTwoClosest Target [a, b] =
      [(FindTwoClosest.step Target (FindTwoClosest.step Target
          ⟨FVector2D.ZeroVector, FVector2D.ZeroVector, FLT_MAX, FLT_MAX⟩ a) b).ClosestPoint1,
        (FindTwoClosest.step Target (FindTwoClosest.step Target
          ⟨FVector2D.ZeroVector, FVector2D.ZeroVector, FLT_MAX, FLT_MAX⟩ a) b).ClosestPoint2] := by
  simp [FindTwoClosest]

theorem FindTwoClosest_pair (p : FVector2D) : FindTwoClosest p [p, p] = [p, p] := by
  have h0 := DistanceSq_self p
  have hM := FLT_MAX_pos
  have e1 : FindTwoClosest.step p
      ⟨FVector2D.ZeroVector, FVector2D.ZeroVector, FLT_MAX, FLT_MAX⟩ p
      = ⟨p, FVector2D.ZeroVector, 0, FLT_MAX⟩ := by
    rw [step_first p _ p (by rw [h0]; exact hM), h0]
  have e2 : FindTwoClosest.step p ⟨p, FVector2D.ZeroVector, 0, FLT_MAX⟩ p
      = ⟨p, p, 0, 0⟩ := by
    rw [step_second p _ p (by rw [h0]; exact lt_irrefl (0 : ℚ)) (by rw [h0]; exact hM), h0]
  simp only [FindTwoClosest, List.length_cons, List.length_nil, List.foldl_cons,
    List.foldl_nil, e1, e2]
  simp

theorem VoronoiNoiseLayer_pair (Sqrt : ℚ → ℚ) (h0 : Sqrt 0 = 0) (p : FVector2D) :
    VoronoiNoiseLayer Sqrt p [p, p] = none := by
  rw [VoronoiNoiseLayer_of_closest Sqrt p [p, p] p p (FindTwoClosest_pair p),
    DistanceSquared_self, h0]
  simp [fdiv]

/-- C5 fails on the code: when the point coincides with two nuclei, both distances are
zero, `(Dist2 - Dist1) / (Dist2 + Dist1)` is `0 / 0`, and the layer has no value (the
machine result is NaN), not `+1`. -/
theorem VoronoiNoiseLayer_duplicate_nucleus (Sqrt : ℚ → ℚ) (h0 : Sqrt 0 = 0)
    (p : FVector2D) :
    p ∈ [p, p] ∧ 2 ≤ [p, p].length ∧ VoronoiNoiseLayer Sqrt p [p, p] = none ∧
      VoronoiNoiseLayer Sqrt p [p, p] ≠ some 1 := by
  have h := VoronoiNoiseLayer_pair Sqrt h0 p
  refine ⟨by simp, by simp, h, ?_⟩
  rw [h]
  simp

/-- Witness for the evaluation of C5 at the origin, with two nuclei at the origin. -/
theorem VoronoiNoiseLayer_duplicate_nucleus_witness :
    SqrtUp 0 = 0 ∧ VoronoiNoiseLayer SqrtUp ⟨0, 0⟩ [⟨0, 0⟩, ⟨0, 0⟩] = none :=
  ⟨SqrtUp_isSqrt.zero,
    (VoronoiNoiseLayer_duplicate_nucleus SqrtUp SqrtUp_isSqrt.zero ⟨0, 0⟩).2.2.1⟩

/-! ## Rasterization -/

theorem WritePixel_apply (M : Nat → Option Nat) (PixelIndex : Nat) (g : Option Nat) (o : Nat) :
    WritePixel M PixelIndex g o =
      if o = PixelIndex + 3 then some 255
      else if o = PixelIndex + 2 then g
      else if o = PixelIndex + 1 then g
      else if o = PixelIndex + 0 then g
      else M o := by
  simp only [WritePixel, Function.update_apply]

theorem PixelLoops_eq (NoiseAt : Nat → Nat → Option ℚ) (Width Height : Nat)
    (MipData : Nat → Option Nat) :
    PixelLoops NoiseAt Width Height MipData =
      (List.range Height).foldl (fun MipRows Y => RowLoop NoiseAt Width Y Width MipRows)
        MipData := rfl

theorem RowLoop_succ (NoiseAt : Nat → Nat → Option ℚ) (Width Y n : Nat)
    (M : Nat → Option Nat) :
    RowLoop NoiseAt Width Y (n + 1) M =
      WritePixel (RowLoop NoiseAt Width Y n M) (((Y * Width) + n) * 4)
        ((NoiseAt n Y).map NoiseToGray) := by
  simp only [RowLoop, List.range_succ, List.foldl_append, List.foldl_cons, List.foldl_nil]

theorem RowLoop_spec (NoiseAt : Nat → Nat → Option ℚ) (Width Y : Nat) (M : Nat → Option Nat) :
    ∀ n : Nat,
      (∀ x c, x < n → c < 4 →
        RowLoop NoiseAt Width Y n M (((Y * Width) + x) * 4 + c) = pixelByte (NoiseAt x Y) c) ∧
      (∀ o, (o < (Y * Width) * 4 ∨ ((Y * Width) + n) * 4 ≤ o) →
        RowLoop NoiseAt Width Y n M o = M o) := by
  intro n
  induction n with
  | zero =>
    refine ⟨fun x c hx _ => absurd hx (by omega), fun o _ => rfl⟩
  | succ n ih =>
    obtain ⟨ih1, ih2⟩ := ih
    constructor
    · intro x c hx hc
      rw [RowLoop_succ, WritePixel_apply]
      by_cases hxn : x = n
      · subst hxn
        unfold pixelByte
        split_ifs <;> first | rfl | omega
      · have hlt : x < n := by omega
        rw [if_neg (by omega), if_neg (by omega), if_neg (by omega), if_neg (by omega)]
        exact ih1 x c hlt hc
    · intro o ho
      rw [RowLoop_succ, WritePixel_apply]
      rw [if_neg (by omega), if_neg (by omega), if_neg (by omega), if_neg (by omega)]
      exact ih2 o (by omega)

theorem PixelLoops_succ (NoiseAt : Nat → Nat → Option ℚ) (Width m : Nat)
    (M : Nat → Option Nat) :
    PixelLoops NoiseAt Width (m + 1) M =
      RowLoop NoiseAt Width m Width (PixelLoops NoiseAt Width m M) := by
  simp only [PixelLoops_eq, List.range_succ, List.foldl_append, List.foldl_cons,
    List.foldl_nil]

/-- After the pixel loops every channel of every pixel holds the byte computed for that
pixel, and the bytes from offset `4 * Width * Height` on are untouched. -/
theorem PixelLoops_spec (NoiseAt : Nat → Nat → Option ℚ) (Width : Nat) (M : Nat → Option Nat) :
    ∀ m : Nat,
      (∀ x y c, y < m → x < Width → c < 4 →
        PixelLoops NoiseAt Width m M (((y * Width) + x) * 4 + c)
          = pixelByte (NoiseAt x y) c) ∧
      (∀ o, (m * Width) * 4 ≤ o → PixelLoops NoiseAt Width m M o = M o) := by
  intro m
  induction m with
  | zero =>
    refine ⟨fun x y c hy _ _ => absurd hy (by omega), fun o _ => rfl⟩
  | succ m ih =>
    obtain ⟨ih1, ih2⟩ := ih
    have hsucc : (m + 1) * Width = m * Width + Width := Nat.succ_mul m Width
    constructor
    · intro x y c hy hx hc
      rw [PixelLoops_succ]
      by_cases hym : y = m
      · subst hym
        exact (RowLoop_spec NoiseAt Width y _ Width).1 x c hx hc
      · have hlt : y < m := by omega
        have hrow : (y + 1) * Width ≤ m * Width := Nat.mul_le_mul_right Width (by omega)
        have hrow2 : (y + 1) * Width = y * Width + Width := Nat.succ_mul y Width
        rw [(RowLoop_spec NoiseAt Width m _ Width).2 _ (Or.inl (by omega))]
        exact ih1 x y c hlt hx hc
    · intro o ho
      rw [PixelLoops_succ, (RowLoop_spec NoiseAt Width m _ Width).2 _ (Or.inr (by omega))]
      exact ih2 o (by omega)

theorem VoronoiNoiseLayer_few (Sqrt : ℚ → ℚ) (Location : FVector2D)
    (Nuclei : List FVector2D) (hN : Nuclei.length < 2) :
    VoronoiNoiseLayer Sqrt Location Nuclei = some (-1) := by
  simp [VoronoiNoiseLayer, FindTwoClosest, hN]

theorem OctaveLoop_sentinel (Layer : FVector2D → Option ℚ) (Location : FVector2D)
    (hLayer : ∀ p, Layer p = some (-1)) :
    ∀ (n : Nat) (MaxValue Amplitude CurrentFrequency : ℚ), 0 < Amplitude →
      ∃ M, OctaveLoop Layer Location n (-MaxValue) MaxValue Amplitude CurrentFrequency
          = some (-M, M) ∧ MaxValue ≤ M ∧ (0 < n → MaxValue < M) := by
  intro n
  induction n with
  | zero =>
    intro MaxValue Amplitude CurrentFrequency _
    exact ⟨MaxValue, rfl, le_refl _, fun h => absurd h (by omega)⟩
  | succ n ih =>
    intro MaxValue Amplitude CurrentFrequency hA
    obtain ⟨M, hM, hle, _⟩ :=
      ih (MaxValue + Amplitude) (Amplitude * (1 / 2)) (CurrentFrequency * 2) (by positivity)
    refine ⟨M, ?_, by linarith, fun _ => by linarith⟩
    have e : -MaxValue + -1 * Amplitude = -(MaxValue + Amplitude) := by ring
    simp only [OctaveLoop, hLayer, Option.bind_eq_bind, Option.some_bind, e]
    exact hM

theorem OctaveCompositor_sentinel (Layer : FVector2D → Option ℚ) (Location : FVector2D)
    (Octaves : Int) (Frequency : ℚ) (hOct : 1 ≤ Octaves) (hLayer : ∀ p, Layer p = some (-1)) :
    OctaveCompositor Layer Location Octaves Frequency = some (-1) := by
  obtain ⟨M, hM, _, hpos⟩ :=
    OctaveLoop_sentinel Layer Location hLayer Octaves.toNat 0 1 Frequency (by norm_num)
  have hM0 : 0 < M := hpos (by omega)
  rw [neg_zero] at hM
  simp only [OctaveCompositor, hM, Option.bind_eq_bind, Option.some_bind, fdiv,
    if_neg (ne_of_gt hM0), neg_div, div_self (ne_of_gt hM0)]

theorem VoronoiNoise_few (Sqrt : ℚ → ℚ) (Location : FVector2D) (Nuclei : List FVector2D)
    (Octaves : Int) (Frequency : ℚ) (hN : Nuclei.length < 2) (hOct : 1 ≤ Octaves) :
    VoronoiNoise Sqrt Location Nuclei Octaves Frequency = some (-1) :=
  OctaveCompositor_sentinel _ Location Octaves Frequency hOct
    (fun p => VoronoiNoiseLayer_few Sqrt p Nuclei hN)

/-- C6: when the nuclei set has fewer than 2 points, `VoronoiNoiseLayer` returns the
sentinel `-1` at every point, `VoronoiNoise` returns `-1` for every octave count `>= 1`,
and the Voronoi pixel loops store the gray value `NoiseToGray(-1) = 0` in the three colour
channels of every pixel (and 255 in its alpha channel); the loops run to completion. -/
theorem VoronoiPixels_sentinel (Sqrt : ℚ → ℚ) (Nuclei : List FVector2D)
    (Width Height : Nat) (Octaves : Int) (Frequency : ℚ) (MipData : Nat → Option Nat)
    (hN : Nuclei.length < 2) (hOct : 1 ≤ Octaves) :
    (∀ Location, VoronoiNoiseLayer Sqrt Location Nuclei = some (-1)) ∧
    (∀ Location, VoronoiNoise Sqrt Location Nuclei Octaves Frequency = some (-1)) ∧
    NoiseToGray (-1) = 0 ∧
    ∀ X Y, X < Width → Y < Height →
      VoronoiPixels Sqrt Nuclei Width Height Octaves Frequency MipData
          (((Y * Width) + X) * 4 + 0) = some 0 ∧
      VoronoiPixels Sqrt Nuclei Width Height Octaves Frequency MipData
          (((Y * Width) + X) * 4 + 1) = some 0 ∧
      VoronoiPixels Sqrt Nuclei Width Height Octaves Frequency MipData
          (((Y * Width) + X) * 4 + 2) = some 0 ∧
      VoronoiPixels Sqrt Nuclei Width Height Octaves Frequency MipData
          (((Y * Width) + X) * 4 + 3) = some 255 := by
  refine ⟨fun L => VoronoiNoiseLayer_few Sqrt L Nuclei hN,
    fun L => VoronoiNoise_few Sqrt L Nuclei Octaves Frequency hN hOct,
    NoiseToGray_neg_one, ?_⟩
  intro X Y hX hY
  have hspec := (PixelLoops_spec
    (fun X Y => VoronoiNoise Sqrt ⟨X, Y⟩ Nuclei Octaves Frequency) Width MipData Height).1 X Y
  have hv := VoronoiNoise_few Sqrt ⟨X, Y⟩ Nuclei Octaves Frequency hN hOct
  have h0 := hspec 0 hY hX (by omega)
  have h1 := hspec 1 hY hX (by omega)
  have h2 := hspec 2 hY hX (by omega)
  have h3 := hspec 3 hY hX (by omega)
  simp only [hv, pixelByte, Option.map_some', NoiseToGray_neg_one] at h0 h1 h2 h3
  exact ⟨h0, h1, h2, h3⟩

/-- Witness for C6: a single nucleus, a 2 x 2 image, three octaves; the pixel `(1, 1)`
occupies the bytes 12..15. -/
theorem VoronoiPixels_sentinel_witness :
    [(⟨5, 5⟩ : FVector2D)].length < 2 ∧ (1 : Int) ≤ 3 ∧
      VoronoiPixels SqrtUp [⟨5, 5⟩] 2 2 3 (1 / 20) (fun _ => none) 12 = some 0 ∧
      VoronoiPixels SqrtUp [⟨5, 5⟩] 2 2 3 (1 / 20) (fun _ => none) 13 = some 0 ∧
      VoronoiPixels SqrtUp [⟨5, 5⟩] 2 2 3 (1 / 20) (fun _ => none) 14 = some 0 ∧
      VoronoiPixels SqrtUp [⟨5, 5⟩] 2 2 3 (1 / 20) (fun _ => none) 15 = some 255 :=
  ⟨by simp, by decide,
    (VoronoiPixels_sentinel SqrtUp [⟨5, 5⟩] 2 2 3 (1 / 20) (fun _ => none) (by simp)
      (by decide)).2.2.2 1 1 (by decide) (by decide)⟩

/-! ## `CreateNoise`: validation -/

theorem CreateNoise_invalid_dimensions (E : Engine) (NoiseType : ENoiseType)
    (Width Height Seed Octaves : Int) (Frequency : ℚ) (h : Width ≤ 0 ∨ Height ≤ 0) :
    CreateNoise E NoiseType Width Height Seed Octaves Frequency
      = ⟨some .InvalidDimensions, none, none⟩ := by
  simp only [CreateNoise, if_pos h]

theorem CreateNoise_invalid_frequency (E : Engine) (NoiseType : ENoiseType)
    (Width Height Seed Octaves : Int) (hW : 0 < Width) (hH : 0 < Height) :
    CreateNoise E NoiseType Width Height Seed Octaves 0
      = ⟨some .InvalidFrequency, none, none⟩ := by
  have h : ¬ (Width ≤ 0 ∨ Height ≤ 0) := by omega
  simp only [CreateNoise, if_neg h, if_true]

/-- C11: for every request with `Width <= 0` or `Height <= 0`, `CreateNoise` fails with the
invalid-dimensions error, and for every request with positive dimensions and
`Frequency = 0` it fails with the invalid-frequency error; in both cases no pixel buffer is
produced and the random stream is not seeded. -/
theorem CreateNoise_validation (E : Engine) (NoiseType : ENoiseType)
    (Width Height Seed Octaves : Int) (Frequency : ℚ) :
    ((Width ≤ 0 ∨ Height ≤ 0) →
      (CreateNoise E NoiseType Width Height Seed Octaves Frequency).Error
          = some .InvalidDimensions ∧
      (CreateNoise E NoiseType Width Height Seed Octaves Frequency).Seeded = none ∧
      (CreateNoise E NoiseType Width Height Seed Octaves Frequency).MipData = none) ∧
    (0 < Width → 0 < Height → Frequency = 0 →
      (CreateNoise E NoiseType Width Height Seed Octaves Frequency).Error
          = some .InvalidFrequency ∧
      (CreateNoise E NoiseType Width Height Seed Octaves Frequency).Seeded = none ∧
      (CreateNoise E NoiseType Width Height Seed Octaves Frequency).MipData = none) := by
  constructor
  · intro h
    rw [CreateNoise_invalid_dimensions E NoiseType Width Height Seed Octaves Frequency h]
    exact ⟨rfl, rfl, rfl⟩
  · intro hW hH hF
    rw [hF, CreateNoise_invalid_frequency E NoiseType Width Height Seed Octaves hW hH]
    exact ⟨rfl, rfl, rfl⟩

/-- Witness for C11: the request `{width: 0, height: 10}` and a `4 x 4` request with
frequency 0, both on an engine whose own calls all succeed. -/
theorem CreateNoise_validation_witness :
    ((0 : Int) ≤ 0 ∨ (10 : Int) ≤ 0) ∧
    ((CreateNoise sampleEngine .PerlinNoise 0 10 42 1 (1 / 20)).Error
        = some .InvalidDimensions ∧
      (CreateNoise sampleEngine .PerlinNoise 0 10 42 1 (1 / 20)).Seeded = none ∧
      (CreateNoise sampleEngine .PerlinNoise 0 10 42 1 (1 / 20)).MipData = none) ∧
    (0 : Int) < 4 ∧ (0 : ℚ) = 0 ∧
    ((CreateNoise sampleEngine .VoronoiNoise 4 4 42 1 0).Error = some .InvalidFrequency ∧
      (CreateNoise sampleEngine .VoronoiNoise 4 4 42 1 0).Seeded = none ∧
      (CreateNoise sampleEngine .VoronoiNoise 4 4 42 1 0).MipData = none) :=
  ⟨Or.inl (le_refl 0),
    (CreateNoise_validation sampleEngine .PerlinNoise 0 10 42 1 (1 / 20)).1
      (Or.inl (le_refl 0)),
    by decide, rfl,
    (CreateNoise_validation sampleEngine .VoronoiNoise 4 4 42 1 0).2 (by decide) (by decide)
      rfl⟩

theorem MakePermutation_some (Rand : Nat → Nat) :
    ∃ P, MakePermutation Rand = some P ∧ P.Perm ((List.range 256).map Int.ofNat) :=
  shuffle_perm Rand 255 0 ((List.range 256).map Int.ofNat) (by simp)

theorem CreateNoise_perlin (E : Engine) (Width Height Seed Octaves : Int) (Frequency : ℚ)
    (M0 : Nat → Option Nat) (hE : E.Accepts M0) (hW : 0 < Width) (hH : 0 < Height)
    (hF : Frequency ≠ 0) :
    ∃ P, MakePermutation (E.Rand Seed) = some P ∧
      P.Perm ((List.range 256).map Int.ofNat) ∧
      CreateNoise E .PerlinNoise Width Height Seed Octaves Frequency =
        ⟨E.Saved, some Seed,
          some (PerlinPixels P Width.toNat Height.toNat Octaves Frequency M0)⟩ := by
  obtain ⟨h1, h2, h3, h4, h5⟩ := hE
  obtain ⟨P, hP, hperm⟩ := MakePermutation_some (E.Rand Seed)
  have h : ¬ (Width ≤ 0 ∨ Height ≤ 0) := by omega
  refine ⟨P, hP, hperm, ?_⟩
  simp [CreateNoise, h, hF, h1, h2, h3, h4, h5, hP, Engine.Saved]

theorem sampleEngine_accepts : sampleEngine.Accepts (fun _ => none) :=
  ⟨rfl, rfl, rfl, rfl, rfl⟩

theorem OctaveCompositor_no_octaves (Layer : FVector2D → Option ℚ) (Location : FVector2D)
    (Octaves : Int) (Frequency : ℚ) (hO : Octaves ≤ 0) :
    OctaveLoop Layer Location Octaves.toNat 0 0 1 Frequency = some (0, 0) ∧
      OctaveCompositor Layer Location Octaves Frequency = none := by
  have h0 : Octaves.toNat = 0 := by omega
  constructor
  · rw [h0]; rfl
  · simp [OctaveCompositor, h0, OctaveLoop, fdiv]

theorem CreateNoise_error_octaves (E : Engine) (NoiseType : ENoiseType)
    (Width Height Seed Octaves Octaves2 : Int) (Frequency : ℚ) :
    (CreateNoise E NoiseType Width Height Seed Octaves Frequency).Error =
      (CreateNoise E NoiseType Width Height Seed Octaves2 Frequency).Error := by
  by_cases c1 : Width ≤ 0 ∨ Height ≤ 0
  · rw [CreateNoise_invalid_dimensions _ _ _ _ _ _ _ c1,
      CreateNoise_invalid_dimensions _ _ _ _ _ _ _ c1]
  by_cases c2 : Frequency = 0
  · subst c2
    rw [CreateNoise_invalid_frequency _ _ _ _ _ _ (by omega) (by omega),
      CreateNoise_invalid_frequency _ _ _ _ _ _ (by omega) (by omega)]
  cases h1 : E.NameIsNone <;> cases h2 : E.IsValidLongPackageName <;>
    cases h3 : E.PackageCreated <;> cases h4 : E.TextureCreated <;>
    cases h5 : E.LockMip <;> cases NoiseType <;>
    cases h6 : MakePermutation (E.Rand Seed) <;>
    simp [CreateNoise, c1, c2, h1, h2, h3, h4, h5, h6]

/-- C12 fails on the code: `CreateNoise` never looks at `Octaves` before the pixel loops,
so a request with `Octaves <= 0` is treated by the validation exactly like the same request
with `Octaves = 1`; in the compositor the loop body then never runs, the division is
`Total / MaxValue = 0 / 0`, and `PerlinNoise` and `VoronoiNoise` have no value (the
machine result is NaN), so the gray bytes of every pixel are not determined. -/
theorem CreateNoise_octaves_unchecked (E : Engine) (NoiseType : ENoiseType)
    (Width Height Seed Octaves : Int) (Frequency : ℚ) (hO : Octaves ≤ 0) :
    (CreateNoise E NoiseType Width Height Seed Octaves Frequency).Error =
      (CreateNoise E NoiseType Width Height Seed 1 Frequency).Error ∧
    (∀ Layer Location,
      OctaveLoop Layer Location Octaves.toNat 0 0 1 Frequency = some (0, 0)) ∧
    (∀ Location Permutation, PerlinNoise Location Permutation Octaves Frequency = none) ∧
    (∀ Sqrt Location Nuclei, VoronoiNoise Sqrt Location Nuclei Octaves Frequency = none) ∧
    (∀ Permutation M0 X Y, X < Width.toNat → Y < Height.toNat →
      PerlinPixels Permutation Width.toNat Height.toNat Octaves Frequency M0
        (((Y * Width.toNat) + X) * 4 + 0) = none) :=
  ⟨CreateNoise_error_octaves E NoiseType Width Height Seed Octaves 1 Frequency,
    fun Layer Location => (OctaveCompositor_no_octaves Layer Location Octaves Frequency hO).1,
    fun Location Permutation => (OctaveCompositor_no_octaves _ Location Octaves Frequency hO).2,
    fun Sqrt Location Nuclei => (OctaveCompositor_no_octaves _ Location Octaves Frequency hO).2,
    fun Permutation M0 X Y hX hY => by
      have h := (PixelLoops_spec
        (fun X Y => PerlinNoise ⟨X, Y⟩ Permutation Octaves Frequency) Width.toNat M0
          Height.toNat).1 X Y 0 hY hX (by omega)
      have hv : PerlinNoise ⟨X, Y⟩ Permutation Octaves Frequency = none :=
        (OctaveCompositor_no_octaves _ _ Octaves Frequency hO).2
      rw [hv] at h
      exact h⟩

/-- Witness for the evaluation of C12: the request `Perlin, 1 x 1, seed 0, octaves 0,
frequency 1/20` on an engine whose own calls all succeed is not rejected: no error is
logged, the stream is seeded and the buffer is produced. -/
theorem CreateNoise_octaves_unchecked_witness :
    (0 : Int) ≤ 0 ∧
    (CreateNoise sampleEngine .PerlinNoise 1 1 0 0 (1 / 20)).Error = none ∧
    (CreateNoise sampleEngine .PerlinNoise 1 1 0 0 (1 / 20)).Seeded = some 0 ∧
    (CreateNoise sampleEngine .PerlinNoise 1 1 0 0 (1 / 20)).MipData ≠ none ∧
    (∀ Permutation, PerlinNoise ⟨0, 0⟩ Permutation 0 (1 / 20) = none) := by
  obtain ⟨P, _, _, hC⟩ := CreateNoise_perlin sampleEngine 1 1 0 0 (1 / 20) (fun _ => none)
    sampleEngine_accepts (by decide) (by decide) (by norm_num)
  have h := CreateNoise_octaves_unchecked sampleEngine .PerlinNoise 1 1 0 0 (1 / 20)
    (le_refl 0)
  refine ⟨le_refl 0, ?_, ?_, ?_, fun Permutation => h.2.2.1 ⟨0, 0⟩ Permutation⟩
  · rw [hC]; rfl
  · rw [hC]
  · rw [hC]; simp

/-! ## Nuclei field -/

theorem wrap32_of_range {i : Int} (h0 : -2 ^ 31 ≤ i) (h1 : i < 2 ^ 31) : wrap32 i = i := by
  unfold wrap32
  rw [Int.emod_eq_of_lt (by omega) (by omega)]
  omega

theorem toFloat_intCast_le (n : Int) (h0 : 0 ≤ n) (hn : n ≤ 2 ^ 24) : toFloat (n : ℚ) = n := by
  have h := toFloat_natCast n.toNat (by omega)
  have e : ((n.toNat : Nat) : ℚ) = (n : ℚ) := by
    have : ((n.toNat : Nat) : Int) = n := Int.toNat_of_nonneg h0
    exact_mod_cast congrArg (fun i : Int => (i : ℚ)) this
  rw [e] at h
  exact h

theorem bound_nonneg {Frequency : ℚ} {Size : Int} (hF : 0 ≤ Frequency) (hS : 0 ≤ Size) :
    0 ≤ MakeNuclei.bound Frequency Size :=
  toFloat_nonneg (mul_nonneg hF (toFloat_nonneg (by exact_mod_cast hS)))

theorem bound_pos_frequency {Frequency : ℚ} {Size : Int} (hS : 0 ≤ Size)
    (h : 0 < MakeNuclei.bound Frequency Size) : 0 < Frequency := by
  by_contra hF
  have h1 : Frequency * toFloat Size ≤ 0 :=
    mul_nonpos_of_nonpos_of_nonneg (not_lt.mp hF) (toFloat_nonneg (by exact_mod_cast hS))
  have h2 := toFloat_nonpos h1
  unfold MakeNuclei.bound at h
  linarith

theorem ceil_bound_le {B : ℚ} (hB : B ≤ 2 ^ 24) : ⌈B⌉₊ ≤ 2 ^ 24 := by
  rw [Nat.ceil_le]
  exact_mod_cast hB

/-- While the counter is not above `2^24` its conversion to `float` is exact, and the loop
condition of `MakeNuclei` holds exactly for the counters below the bound rounded up. -/
theorem loop_condition {B : ℚ} (hB : B ≤ 2 ^ 24) (X : Nat) (hX : X ≤ ⌈B⌉₊) :
    (X < 2 ^ 31 ∧ toFloat X < B) ↔ X < ⌈B⌉₊ := by
  have hN := ceil_bound_le hB
  rw [toFloat_natCast X (le_trans hX hN), Nat.lt_ceil]
  constructor
  · exact fun h => h.2
  · intro h
    refine ⟨?_, h⟩
    have : (2 : Nat) ^ 24 < 2 ^ 31 := by norm_num
    omega

/-- The inner loop of `MakeNuclei` runs over the columns `X < N`, where `N` is the first
counter value at which the loop condition fails. -/
theorem MakeNuclei.columns_spec (FRandRange : Nat → ℚ → ℚ → ℚ) (Width : Int)
    (Frequency : ℚ) (CellSize : Int) (Y N : Nat)
    (hN : ∀ X, X ≤ N →
      ((X < 2 ^ 31 ∧ toFloat X < MakeNuclei.bound Frequency Width) ↔ X < N)) :
    ∀ (d X k : Nat) (Nuclei : List FVector2D),
      N - X = d → X ≤ N →
      MakeNuclei.columns FRandRange Width Frequency CellSize Y X k Nuclei =
        (Nuclei ++ (List.range d).map
            (fun j => cellNucleus FRandRange CellSize (X + j) Y (k + 2 * j)),
          k + 2 * d) := by
  intro d
  induction d with
  | zero =>
    intro X k Nuclei hd hX
    have hn : ¬ (X < 2 ^ 31 ∧ toFloat X < MakeNuclei.bound Frequency Width) := by
      rw [hN X hX]
      omega
    rw [MakeNuclei.columns, dif_neg hn]
    simp
  | succ d ih =>
    intro X k Nuclei hd hX
    have hlt : X < N := by omega
    have hc : X < 2 ^ 31 ∧ toFloat X < MakeNuclei.bound Frequency Width :=
      (hN X hX).mpr hlt
    rw [MakeNuclei.columns, dif_pos hc]
    simp only []
    rw [ih (X + 1) (k + 2) _ (by omega) (by omega), List.range_succ_eq_map, List.map_cons,
      List.map_map]
    simp only [List.append_assoc, List.singleton_append, Prod.mk.injEq]
    refine ⟨?_, by omega⟩
    congr 1
    refine congrArg₂ _ ?_ ?_
    · simp [cellNucleus]
    · apply List.map_congr_left
      intro j _
      simp only [Function.comp, Nat.succ_eq_add_one]
      congr 1 <;> omega

/-- The outer loop of `MakeNuclei` runs over the rows `Y < Nr`, each of `Nc` columns, where
`Nr` and `Nc` are the first counter values at which the loop conditions fail. -/
theorem MakeNuclei.rows_spec (FRandRange : Nat → ℚ → ℚ → ℚ) (Width Height : Int)
    (Frequency : ℚ) (CellSize : Int) (Nr Nc : Nat)
    (hNr : ∀ Y, Y ≤ Nr →
      ((Y < 2 ^ 31 ∧ toFloat Y < MakeNuclei.bound Frequency Height) ↔ Y < Nr))
    (hNc : ∀ X, X ≤ Nc →
      ((X < 2 ^ 31 ∧ toFloat X < MakeNuclei.bound Frequency Width) ↔ X < Nc)) :
    ∀ (d Y k : Nat) (Nuclei : List FVector2D),
      Nr - Y = d → Y ≤ Nr →
      MakeNuclei.rows FRandRange Width Height Frequency CellSize Y k Nuclei =
        (Nuclei ++ (List.range d).flatMap (fun i =>
            (List.range Nc).map (fun X =>
              cellNucleus FRandRange CellSize X (Y + i) (k + 2 * (i * Nc + X)))),
          k + 2 * (d * Nc)) := by
  intro d
  induction d with
  | zero =>
    intro Y k Nuclei hd hY
    have hn : ¬ (Y < 2 ^ 31 ∧ toFloat Y < MakeNuclei.bound Frequency Height) := by
      rw [hNr Y hY]
      omega
    rw [MakeNuclei.rows, dif_neg hn]
    simp
  | succ d ih =>
    intro Y k Nuclei hd hY
    have hlt : Y < Nr := by omega
    have hc : Y < 2 ^ 31 ∧ toFloat Y < MakeNuclei.bound Frequency Height :=
      (hNr Y hY).mpr hlt
    rw [MakeNuclei.rows, dif_pos hc]
    simp only []
    rw [MakeNuclei.columns_spec FRandRange Width Frequency CellSize Y Nc hNc Nc 0 k Nuclei
      (by omega) (by omega)]
    simp only []
    rw [ih (Y + 1) _ _ (by omega) (by omega), List.range_succ_eq_map, List.flatMap_cons,
      List.flatMap_map]
    simp only [List.append_assoc, Prod.mk.injEq]
    constructor
    · congr 1
      refine congrArg₂ _ ?_ ?_
      · apply List.map_congr_left
        intro X _
        congr 1 <;> omega
      · apply List.flatMap_congr
        intro i _
        apply List.map_congr_left
        intro X _
        simp only [Nat.succ_eq_add_one]
        congr 1
        · omega
        · rw [Nat.add_mul]; omega
    · rw [Nat.add_mul]; omega

/-- `MakeNuclei` builds the grid of `Nr` rows by `Nc` columns, where `Nr` and `Nc` are the
first counter values at which the loop conditions fail. -/
theorem MakeNuclei_eq_grid_of (FRandRange : Nat → ℚ → ℚ → ℚ) (Width Height : Int)
    (Frequency : ℚ) (Nr Nc : Nat)
    (hNr : ∀ Y, Y ≤ Nr →
      ((Y < 2 ^ 31 ∧ toFloat Y < MakeNuclei.bound Frequency Height) ↔ Y < Nr))
    (hNc : ∀ X, X ≤ Nc →
      ((X < 2 ^ 31 ∧ toFloat X < MakeNuclei.bound Frequency Width) ↔ X < Nc)) :
    MakeNuclei FRandRange Width Height Frequency =
      nucleiGrid FRandRange (toInt32 (toFloat (1 / Frequency))) Nr Nc := by
  simp only [MakeNuclei, nucleiGrid]
  rw [MakeNuclei.rows_spec FRandRange Width Height Frequency _ Nr Nc hNr hNc Nr 0 0 []
    (by omega) (by omega)]
  simp

/-- When both loop bounds are at most `2^24`, `MakeNuclei` builds the grid of
`ceil(bound Frequency Height)` rows by `ceil(bound Frequency Width)` columns. -/
theorem MakeNuclei_eq_grid (FRandRange : Nat → ℚ → ℚ → ℚ) (Width Height : Int)
    (Frequency : ℚ) (hBH : MakeNuclei.bound Frequency Height ≤ 2 ^ 24)
    (hBW : MakeNuclei.bound Frequency Width ≤ 2 ^ 24) :
    MakeNuclei FRandRange Width Height Frequency =
      nucleiGrid FRandRange (toInt32 (toFloat (1 / Frequency)))
        ⌈MakeNuclei.bound Frequency Height⌉₊ ⌈MakeNuclei.bound Frequency Width⌉₊ :=
  MakeNuclei_eq_grid_of FRandRange Width Height Frequency _ _
    (fun Y hY => loop_condition hBH Y hY) (fun X hX => loop_condition hBW X hX)

theorem grid_length {α : Type} (f : Nat → Nat → α) (cols : Nat) :
    ∀ rows : Nat,
      ((List.range rows).flatMap (fun Y => (List.range cols).map (f Y))).length
        = rows * cols := by
  intro rows
  induction rows with
  | zero => simp
  | succ r ih =>
    rw [List.range_succ, List.flatMap_append, List.length_append, ih, List.flatMap_singleton,
      List.length_map, List.length_range, Nat.succ_mul]

theorem grid_getElem {α : Type} (f : Nat → Nat → α) (cols : Nat) :
    ∀ rows X Y : Nat, X < cols → Y < rows →
      ((List.range rows).flatMap (fun Y => (List.range cols).map (f Y)))[Y * cols + X]?
        = some (f Y X) := by
  intro rows
  induction rows with
  | zero => intro X Y _ hY; omega
  | succ r ih =>
    intro X Y hX hY
    rw [List.range_succ, List.flatMap_append, List.flatMap_singleton]
    by_cases hYr : Y = r
    · subst hYr
      rw [List.getElem?_append_right (by rw [grid_length]; omega), grid_length]
      simp [hX]
    · have hlt : Y < r := by omega
      have hrow : (Y + 1) * cols ≤ r * cols := Nat.mul_le_mul_right cols (by omega)
      rw [Nat.succ_mul] at hrow
      rw [List.getElem?_append_left (by rw [grid_length]; omega)]
      exact ih X Y hX hlt

theorem MakeNuclei_length (FRandRange : Nat → ℚ → ℚ → ℚ) (Width Height : Int)
    (Frequency : ℚ) (hBH : MakeNuclei.bound Frequency Height ≤ 2 ^ 24)
    (hBW : MakeNuclei.bound Frequency Width ≤ 2 ^ 24) :
    (MakeNuclei FRandRange Width Height Frequency).length
      = ⌈MakeNuclei.bound Frequency Height⌉₊ * ⌈MakeNuclei.bound Frequency Width⌉₊ := by
  rw [MakeNuclei_eq_grid FRandRange Width Height Frequency hBH hBW]
  exact grid_length _ _ _

theorem MakeNuclei_getElem (FRandRange : Nat → ℚ → ℚ → ℚ) (Width Height : Int)
    (Frequency : ℚ) (hBH : MakeNuclei.bound Frequency Height ≤ 2 ^ 24)
    (hBW : MakeNuclei.bound Frequency Width ≤ 2 ^ 24) (X Y : Nat)
    (hX : X < ⌈MakeNuclei.bound Frequency Width⌉₊)
    (hY : Y < ⌈MakeNuclei.bound Frequency Height⌉₊) :
    (MakeNuclei FRandRange Width Height Frequency)[
        Y * ⌈MakeNuclei.bound Frequency Width⌉₊ + X]?
      = some (cellNucleus FRandRange (toInt32 (toFloat (1 / Frequency))) X Y
          (2 * (Y * ⌈MakeNuclei.bound Frequency Width⌉₊ + X))) := by
  rw [MakeNuclei_eq_grid FRandRange Width Height Frequency hBH hBW]
  exact grid_getElem
    (fun Y X => cellNucleus FRandRange (toInt32 (toFloat (1 / Frequency))) X Y
      (2 * (Y * ⌈MakeNuclei.bound Frequency Width⌉₊ + X))) _ _ X Y hX hY

theorem truncToInt_nonneg {x : ℚ} (hx : 0 ≤ x) : 0 ≤ truncToInt x := by
  simp only [truncToInt, if_pos hx]
  exact Int.floor_nonneg.mpr hx

/-- A non-negative value below `2^31` is converted to `int` by truncation. -/
theorem toInt32_of_range {x : ℚ} (h0 : 0 ≤ x) (h1 : x < 2 ^ 31) :
    toInt32 x = truncToInt x ∧ 0 ≤ toInt32 x := by
  have ht := truncToInt_nonneg h0
  have hlt : truncToInt x < 2 ^ 31 := by
    simp only [truncToInt, if_pos h0]
    rw [Int.floor_lt]
    exact_mod_cast h1
  have e : toInt32 x = truncToInt x := by
    unfold toInt32
    rw [if_pos ⟨by omega, hlt⟩]
  exact ⟨e, by rw [e]; exact ht⟩

/-- For a non-negative argument, rounding up is truncation plus one, unless the argument is
an integer. -/
theorem ceil_eq_trunc {x : ℚ} (h0 : 0 ≤ x) :
    (⌈x⌉₊ : Int) = truncToInt x + if ((truncToInt x : Int) : ℚ) = x then 0 else 1 := by
  have hc : ((⌈x⌉₊ : Nat) : Int) = ⌈x⌉ := by
    rw [Int.natCast_ceil_eq_ceil h0]
  simp only [truncToInt, if_pos h0]
  rw [hc]
  have h1 := Int.floor_le x
  have h2 := Int.lt_floor_add_one x
  split_ifs with hi
  · rw [add_zero, Int.ceil_eq_iff]
    constructor <;> linarith
  · rw [Int.ceil_eq_iff]
    push_cast
    have hlt : (⌊x⌋ : ℚ) < x := lt_of_le_of_ne h1 hi
    constructor <;> linarith

theorem toFloat_default_20 : toFloat (defaultFrequency * 20) = 1 := by
  have h := roundBinary_near 24 (-126) (defaultFrequency * 20) 0 8388608 (by norm_num)
    (by norm_num [defaultFrequency]) (by norm_num [defaultFrequency])
    (by norm_num [defaultFrequency]) (by norm_num [defaultFrequency])
  rw [toFloat, h]
  norm_num

theorem bound_default_256 : MakeNuclei.bound defaultFrequency 256 = 13421773 / 1048576 := by
  have h := toFloat_intCast 256 (by norm_num)
  rw [MakeNuclei.bound, h]
  have e : defaultFrequency * ((256 : Int) : ℚ) = defaultFrequency * 256 := by norm_num
  rw [e, toFloat_default_256]

theorem bound_default_40 : MakeNuclei.bound defaultFrequency 40 = 2 := by
  have h := toFloat_intCast 40 (by norm_num)
  rw [MakeNuclei.bound, h]
  have e : defaultFrequency * ((40 : Int) : ℚ) = defaultFrequency * 40 := by norm_num
  rw [e, toFloat_default_40]

theorem bound_default_20 : MakeNuclei.bound defaultFrequency 20 = 1 := by
  have h := toFloat_intCast 20 (by norm_num)
  rw [MakeNuclei.bound, h]
  have e : defaultFrequency * ((20 : Int) : ℚ) = defaultFrequency * 20 := by norm_num
  rw [e, toFloat_default_20]

theorem bound_default_100 : MakeNuclei.bound defaultFrequency 100 = 5 := by
  have h := toFloat_intCast 100 (by norm_num)
  have h2 := roundBinary_near 24 (-126) (defaultFrequency * 100) 2 10485760 (by norm_num)
    (by norm_num [defaultFrequency]) (by norm_num [defaultFrequency])
    (by norm_num [defaultFrequency]) (by norm_num [defaultFrequency])
  have e : defaultFrequency * ((100 : Int) : ℚ) = defaultFrequency * 100 := by norm_num
  rw [MakeNuclei.bound, h, e, toFloat, h2]
  norm_num

theorem ceil_default_256 : ⌈MakeNuclei.bound defaultFrequency 256⌉₊ = 13 := by
  rw [bound_default_256, Nat.ceil_eq_iff (by decide)]
  norm_num

theorem trunc_default_256 :
    truncToInt (MakeNuclei.bound defaultFrequency 256) = 12 ∧
      truncToInt (defaultFrequency * ((256 : Int) : ℚ)) = 12 := by
  have h : (0 : ℚ) ≤ 13421773 / 1048576 := by norm_num
  have h2 : (0 : ℚ) ≤ defaultFrequency * ((256 : Int) : ℚ) := by norm_num [defaultFrequency]
  rw [bound_default_256]
  simp only [truncToInt, if_pos h, if_pos h2]
  constructor <;> rw [Int.floor_eq_iff] <;> norm_num [defaultFrequency]

theorem trunc_default_inv : truncToInt (toFloat (1 / defaultFrequency)) = 20 := by
  rw [toFloat_default_inv]
  have h : (0 : ℚ) ≤ 20 := by norm_num
  simp only [truncToInt, if_pos h]
  rw [Int.floor_eq_iff]
  norm_num

theorem cellSize_default : toInt32 (toFloat (1 / defaultFrequency)) = 20 := by
  have h : (0 : ℚ) ≤ toFloat (1 / defaultFrequency) := by rw [toFloat_default_inv]; norm_num
  have h2 : toFloat (1 / defaultFrequency) < 2 ^ 31 := by rw [toFloat_default_inv]; norm_num
  rw [(toInt32_of_range h h2).1, trunc_default_inv]

theorem bound_one (n : Int) (h : toFloat (n : ℚ) = n) : MakeNuclei.bound 1 n = n := by
  rw [MakeNuclei.bound, h, one_mul, h]

theorem bound_one_wide : MakeNuclei.bound 1 16777220 = 16777220 := by
  have h := bound_one 16777220 (by exact_mod_cast toFloat_16777220)
  exact_mod_cast h

theorem bound_one_one : MakeNuclei.bound 1 1 = 1 := by
  have h := bound_one 1 (by exact_mod_cast toFloat_intCast 1 (by norm_num))
  exact_mod_cast h

/-- With the loop bound `16777220`, above `2^24`, the loop condition of `MakeNuclei` fails
first at the counter `16777219`, whose conversion to `float` rounds up to the bound. -/
theorem wide_loop_condition (X : Nat) (hX : X ≤ 16777219) :
    (X < 2 ^ 31 ∧ toFloat X < MakeNuclei.bound 1 16777220) ↔ X < 16777219 := by
  rw [bound_one_wide]
  rcases Nat.lt_or_ge X 16777217 with h | h
  · rw [toFloat_natCast X (by norm_num; omega)]
    constructor
    · intro _; omega
    · intro _
      refine ⟨by norm_num; omega, ?_⟩
      have : (X : ℚ) < ((16777220 : Nat) : ℚ) := by exact_mod_cast (by omega : X < 16777220)
      simpa using this
  · have hc : X = 16777217 ∨ X = 16777218 ∨ X = 16777219 := by omega
    rcases hc with rfl | rfl | rfl
    · have e : toFloat ((16777217 : Nat) : ℚ) = 16777216 := by exact_mod_cast toFloat_16777217
      rw [e]; norm_num
    · have e : toFloat ((16777218 : Nat) : ℚ) = 16777218 := by exact_mod_cast toFloat_16777218
      rw [e]; norm_num
    · have e : toFloat ((16777219 : Nat) : ℚ) = 16777220 := by exact_mod_cast toFloat_16777219
      rw [e]; norm_num

theorem unit_loop_condition (Y : Nat) (hY : Y ≤ 1) :
    (Y < 2 ^ 31 ∧ toFloat Y < MakeNuclei.bound 1 1) ↔ Y < 1 := by
  have hB : MakeNuclei.bound 1 1 ≤ 2 ^ 24 := by rw [bound_one_one]; norm_num
  have hc : ⌈MakeNuclei.bound 1 1⌉₊ = 1 := by rw [bound_one_one]; exact Nat.ceil_one
  have h := loop_condition hB Y (by rw [hc]; exact hY)
  rw [hc] at h
  exact h

theorem cellSize_one : toInt32 (toFloat (1 / 1)) = 1 := by
  have e : toFloat (1 / 1) = 1 := by
    have h := toFloat_intCast 1 (by norm_num)
    norm_num at h ⊢
    exact h
  rw [e]
  have h : (0 : ℚ) ≤ 1 := by norm_num
  rw [(toInt32_of_range h (by norm_num)).1]
  simp only [truncToInt, if_pos h]
  exact Int.floor_one

/-- For an image `16777220` wide and 1 high at frequency 1, `MakeNuclei` builds one row of
`16777219` cells of size 1: one column fewer than the loop bound. -/
theorem MakeNuclei_wide (FRandRange : Nat → ℚ → ℚ → ℚ) :
    MakeNuclei FRandRange 16777220 1 1 = nucleiGrid FRandRange 1 1 16777219 := by
  rw [MakeNuclei_eq_grid_of FRandRange 16777220 1 1 1 16777219 unit_loop_condition
    wide_loop_condition, cellSize_one]

theorem MakeNuclei_wide_length (FRandRange : Nat → ℚ → ℚ → ℚ) :
    (MakeNuclei FRandRange 16777220 1 1).length = 16777219 := by
  rw [MakeNuclei_wide]
  exact (grid_length _ _ _).trans (by norm_num)

/-- C13, as stated, fails: for the default request (256 x 256, frequency `0.05f`) the
products are about 12.8, in exact arithmetic and in single precision; `MakeNuclei` runs 13
rows by 13 columns and returns 169 nuclei, while truncation gives 12 by 12, that is 144.
Beyond `2^24` the grid is not given by the products at all: for an image `16777220` wide and
1 high at frequency 1 the products are the integers 16777220 and 1, and `MakeNuclei` returns
16777219 nuclei, because the counter 16777219 converts to the `float` 16777220. -/
theorem MakeNuclei_not_truncated :
    ((0 : Int) < 256 ∧ 0 < defaultFrequency ∧ toFloat (1 / 20) = defaultFrequency ∧
      (MakeNuclei (sampleEngine.FRandRange 0) 256 256 defaultFrequency).length = 169 ∧
      truncToInt (defaultFrequency * ((256 : Int) : ℚ)) = 12 ∧
      truncToInt (MakeNuclei.bound defaultFrequency 256) = 12 ∧
      ((MakeNuclei (sampleEngine.FRandRange 0) 256 256 defaultFrequency).length : Int) ≠
        truncToInt (defaultFrequency * ((256 : Int) : ℚ))
          * truncToInt (defaultFrequency * ((256 : Int) : ℚ))) ∧
    ((0 : Int) < 16777220 ∧ (0 : Int) < 1 ∧ (0 : ℚ) < 1 ∧
      (MakeNuclei (sampleEngine.FRandRange 0) 16777220 1 1).length = 16777219 ∧
      MakeNuclei.bound 1 16777220 = 16777220 ∧ MakeNuclei.bound 1 1 = 1 ∧
      (1 : ℚ) * ((16777220 : Int) : ℚ) = 16777220) := by
  have hB : MakeNuclei.bound defaultFrequency 256 ≤ 2 ^ 24 := by
    rw [bound_default_256]; norm_num
  have h1 : (MakeNuclei (sampleEngine.FRandRange 0) 256 256 defaultFrequency).length = 169 := by
    rw [MakeNuclei_length _ _ _ _ hB hB, ceil_default_256]
  refine ⟨⟨by decide, by norm_num [defaultFrequency], toFloat_twentieth, h1,
    trunc_default_256.2, trunc_default_256.1, ?_⟩, by decide, by decide, by norm_num,
    MakeNuclei_wide_length _, bound_one_wide, bound_one_one, by norm_num⟩
  rw [h1, trunc_default_256.2]
  decide

/-- C13, amended: for every width > 0, height > 0 and frequency > 0 whose single-precision
products `frequency * height` and `frequency * width` are at most `2^24`, `MakeNuclei`
iterates a grid of `ceil(frequency * height)` rows by `ceil(frequency * width)` columns,
the products taken in single precision and rounded up to integers (which is the truncated
product plus one unless the product is an integer), and returns exactly that many nuclei,
one per cell, in row-major order. -/
theorem MakeNuclei_grid (FRandRange : Nat → ℚ → ℚ → ℚ) (Width Height : Int)
    (Frequency : ℚ) (hW : 0 < Width) (hH : 0 < Height) (hF : 0 < Frequency)
    (hBH : MakeNuclei.bound Frequency Height ≤ 2 ^ 24)
    (hBW : MakeNuclei.bound Frequency Width ≤ 2 ^ 24) :
    MakeNuclei FRandRange Width Height Frequency =
      nucleiGrid FRandRange (toInt32 (toFloat (1 / Frequency)))
        ⌈MakeNuclei.bound Frequency Height⌉₊ ⌈MakeNuclei.bound Frequency Width⌉₊ ∧
    (MakeNuclei FRandRange Width Height Frequency).length
      = ⌈MakeNuclei.bound Frequency Height⌉₊ * ⌈MakeNuclei.bound Frequency Width⌉₊ ∧
    (⌈MakeNuclei.bound Frequency Height⌉₊ : Int) = truncToInt (MakeNuclei.bound Frequency Height)
      + (if ((truncToInt (MakeNuclei.bound Frequency Height) : Int) : ℚ)
            = MakeNuclei.bound Frequency Height then 0 else 1) ∧
    (⌈MakeNuclei.bound Frequency Width⌉₊ : Int) = truncToInt (MakeNuclei.bound Frequency Width)
      + (if ((truncToInt (MakeNuclei.bound Frequency Width) : Int) : ℚ)
            = MakeNuclei.bound Frequency Width then 0 else 1) :=
  ⟨MakeNuclei_eq_grid FRandRange Width Height Frequency hBH hBW,
    MakeNuclei_length FRandRange Width Height Frequency hBH hBW,
    ceil_eq_trunc (bound_nonneg (le_of_lt hF) (le_of_lt hH)),
    ceil_eq_trunc (bound_nonneg (le_of_lt hF) (le_of_lt hW))⟩

/-- Witness for C13 (amended): the default frequency `0.05f` on a `100 x 100` image; the
single-precision product is exactly 5, and the grid has 5 rows by 5 columns of cells of
size 20, that is 25 nuclei. -/
theorem MakeNuclei_grid_witness :
    (0 : Int) < 100 ∧ 0 < defaultFrequency ∧
    MakeNuclei.bound defaultFrequency 100 = 5 ∧
    MakeNuclei.bound defaultFrequency 100 ≤ 2 ^ 24 ∧
    toInt32 (toFloat (1 / defaultFrequency)) = 20 ∧
    (MakeNuclei (sampleEngine.FRandRange 0) 100 100 defaultFrequency).length = 25 ∧
    MakeNuclei (sampleEngine.FRandRange 0) 100 100 defaultFrequency =
      nucleiGrid (sampleEngine.FRandRange 0) (toInt32 (toFloat (1 / defaultFrequency)))
        ⌈MakeNuclei.bound defaultFrequency 100⌉₊ ⌈MakeNuclei.bound defaultFrequency 100⌉₊ := by
  have hB : MakeNuclei.bound defaultFrequency 100 ≤ 2 ^ 24 := by
    rw [bound_default_100]; norm_num
  have h := MakeNuclei_grid (sampleEngine.FRandRange 0) 100 100 defaultFrequency (by decide)
    (by decide) (by norm_num [defaultFrequency]) hB hB
  refine ⟨by decide, by norm_num [defaultFrequency], bound_default_100, hB, cellSize_default,
    ?_, h.1⟩
  rw [h.2.1, bound_default_100]
  norm_num

/-- C14, as stated, fails.  With the products read in exact arithmetic: at the default
frequency `0.05f` and a `40 x 20` image the exact products are just above 2 and 1, so
`ceil(frequency * width) * ceil(frequency * height)` is `3 * 2 = 6`, while the
single-precision products are exactly 2 and 1 and `MakeNuclei` returns 2 nuclei.  With the
products read in either way, beyond `2^24`: for an image `16777220` wide and 1 high at
frequency 1 the products are the integers 16777220 and 1, and `MakeNuclei` returns 16777219
nuclei, because the counter 16777219 converts to the `float` 16777220. -/
theorem MakeNuclei_count_not_exact :
    ((0 : Int) < 40 ∧ (0 : Int) < 20 ∧ 0 < defaultFrequency ∧
      (MakeNuclei (sampleEngine.FRandRange 0) 40 20 defaultFrequency).length = 2 ∧
      ⌈defaultFrequency * ((40 : Int) : ℚ)⌉ * ⌈defaultFrequency * ((20 : Int) : ℚ)⌉ = 6 ∧
      ((MakeNuclei (sampleEngine.FRandRange 0) 40 20 defaultFrequency).length : Int) ≠
        ⌈defaultFrequency * ((40 : Int) : ℚ)⌉ * ⌈defaultFrequency * ((20 : Int) : ℚ)⌉) ∧
    ((0 : Int) < 16777220 ∧ (0 : Int) < 1 ∧ (0 : ℚ) < 1 ∧
      (MakeNuclei (sampleEngine.FRandRange 0) 16777220 1 1).length = 16777219 ∧
      ⌈(1 : ℚ) * ((16777220 : Int) : ℚ)⌉ * ⌈(1 : ℚ) * ((1 : Int) : ℚ)⌉ = 16777220 ∧
      ⌈MakeNuclei.bound 1 16777220⌉ * ⌈MakeNuclei.bound 1 1⌉ = 16777220) := by
  have hBW : MakeNuclei.bound defaultFrequency 40 ≤ 2 ^ 24 := by
    rw [bound_default_40]; norm_num
  have hBH : MakeNuclei.bound defaultFrequency 20 ≤ 2 ^ 24 := by
    rw [bound_default_20]; norm_num
  have h1 : (MakeNuclei (sampleEngine.FRandRange 0) 40 20 defaultFrequency).length = 2 := by
    rw [MakeNuclei_length _ _ _ _ hBH hBW, bound_default_40, bound_default_20]
    norm_num
  have c40 : ⌈defaultFrequency * ((40 : Int) : ℚ)⌉ = 3 := by
    rw [Int.ceil_eq_iff]; norm_num [defaultFrequency]
  have c20 : ⌈defaultFrequency * ((20 : Int) : ℚ)⌉ = 2 := by
    rw [Int.ceil_eq_iff]; norm_num [defaultFrequency]
  have cw : ⌈(16777220 : ℚ)⌉ = 16777220 := by simp
  have c1 : ⌈(1 : ℚ)⌉ = 1 := Int.ceil_one
  refine ⟨⟨by decide, by decide, by norm_num [defaultFrequency], h1, ?_, ?_⟩, by decide,
    by decide, by norm_num, MakeNuclei_wide_length _, ?_, ?_⟩
  · rw [c40, c20]; rfl
  · rw [h1, c40, c20]; decide
  · norm_num
  · rw [bound_one_wide, bound_one_one, cw, c1]
    rfl

/-- C14, amended: for every width > 0, height > 0 and frequency > 0 whose single-precision
products `frequency * width` and `frequency * height` are at most `2^24`, the number of
nuclei returned by `MakeNuclei` equals `ceil(frequency * width) * ceil(frequency * height)`
with the products taken in single precision. -/
theorem MakeNuclei_count (FRandRange : Nat → ℚ → ℚ → ℚ) (Width Height : Int)
    (Frequency : ℚ) (hW : 0 < Width) (hH : 0 < Height) (hF : 0 < Frequency)
    (hBW : MakeNuclei.bound Frequency Width ≤ 2 ^ 24)
    (hBH : MakeNuclei.bound Frequency Height ≤ 2 ^ 24) :
    ((MakeNuclei FRandRange Width Height Frequency).length : Int)
      = ⌈MakeNuclei.bound Frequency Width⌉ * ⌈MakeNuclei.bound Frequency Height⌉ := by
  rw [MakeNuclei_length FRandRange Width Height Frequency hBH hBW, Nat.cast_mul,
    Int.natCast_ceil_eq_ceil (bound_nonneg (le_of_lt hF) (le_of_lt hH)),
    Int.natCast_ceil_eq_ceil (bound_nonneg (le_of_lt hF) (le_of_lt hW)), mul_comm]

/-- Witness for C14 (amended): the default frequency `0.05f` on a `40 x 20` image yields
`2 * 1 = 2` nuclei. -/
theorem MakeNuclei_count_witness :
    (0 : Int) < 40 ∧ (0 : Int) < 20 ∧ 0 < defaultFrequency ∧
    MakeNuclei.bound defaultFrequency 40 = 2 ∧ MakeNuclei.bound defaultFrequency 20 = 1 ∧
    ((MakeNuclei (sampleEngine.FRandRange 0) 40 20 defaultFrequency).length : Int)
      = ⌈MakeNuclei.bound defaultFrequency 40⌉ * ⌈MakeNuclei.bound defaultFrequency 20⌉ :=
  ⟨by decide, by decide, by norm_num [defaultFrequency], bound_default_40, bound_default_20,
    MakeNuclei_count (sampleEngine.FRandRange 0) 40 20 defaultFrequency (by decide)
      (by decide) (by norm_num [defaultFrequency]) (by rw [bound_default_40]; norm_num)
      (by rw [bound_default_20]; norm_num)⟩

/-- While a cell bound is at most `2^24`, neither its 32-bit computation nor its
conversion to `float` changes it. -/
theorem cell_bound_exact (CellSize : Int) (X : Nat) (hC : 0 ≤ CellSize)
    (hXC : ((X : Int) + 1) * CellSize ≤ 2 ^ 24) :
    toFloat (wrap32 (X * CellSize)) = ((X * CellSize : Int) : ℚ) ∧
      toFloat (wrap32 (wrap32 (X * CellSize) + CellSize))
        = ((X * CellSize + CellSize : Int) : ℚ) := by
  have hX0 : (0 : Int) ≤ X * CellSize := mul_nonneg (Int.natCast_nonneg X) hC
  have hX1 : (X : Int) * CellSize + CellSize ≤ 2 ^ 24 := by
    have : ((X : Int) + 1) * CellSize = X * CellSize + CellSize := by ring
    omega
  have w0 : wrap32 (X * CellSize) = X * CellSize := wrap32_of_range (by omega) (by omega)
  have w1 : wrap32 (X * CellSize + CellSize) = X * CellSize + CellSize :=
    wrap32_of_range (by omega) (by omega)
  rw [w0, w1]
  exact ⟨toFloat_intCast_le _ hX0 (by omega), toFloat_intCast_le _ (by omega) hX1⟩

theorem cellNucleus_bounds (FRandRange : Nat → ℚ → ℚ → ℚ) (CellSize : Int) (X Y k : Nat)
    (hC : 0 ≤ CellSize)
    (hU : ∀ k lo hi, lo ≤ hi → lo ≤ FRandRange k lo hi ∧ FRandRange k lo hi ≤ hi)
    (hXC : ((X : Int) + 1) * CellSize ≤ 2 ^ 24) (hYC : ((Y : Int) + 1) * CellSize ≤ 2 ^ 24) :
    ((X * CellSize : Int) : ℚ) ≤ (cellNucleus FRandRange CellSize X Y k).X ∧
    (cellNucleus FRandRange CellSize X Y k).X ≤ ((X * CellSize + CellSize : Int) : ℚ) ∧
    ((Y * CellSize : Int) : ℚ) ≤ (cellNucleus FRandRange CellSize X Y k).Y ∧
    (cellNucleus FRandRange CellSize X Y k).Y ≤ ((Y * CellSize + CellSize : Int) : ℚ) := by
  obtain ⟨fx0, fx1⟩ := cell_bound_exact CellSize X hC hXC
  obtain ⟨fy0, fy1⟩ := cell_bound_exact CellSize Y hC hYC
  have hx : ((X * CellSize : Int) : ℚ) ≤ ((X * CellSize + CellSize : Int) : ℚ) := by
    exact_mod_cast (by omega : (X * CellSize : Int) ≤ X * CellSize + CellSize)
  have hy : ((Y * CellSize : Int) : ℚ) ≤ ((Y * CellSize + CellSize : Int) : ℚ) := by
    exact_mod_cast (by omega : (Y * CellSize : Int) ≤ Y * CellSize + CellSize)
  simp only [cellNucleus, fx0, fx1, fy0, fy1]
  exact ⟨(hU k _ _ hx).1, (hU k _ _ hx).2, (hU (k + 1) _ _ hy).1, (hU (k + 1) _ _ hy).2⟩

theorem sampleStream_between (Seed : Int) (k : Nat) (lo hi : ℚ) (h : lo ≤ hi) :
    lo ≤ sampleEngine.FRandRange Seed k lo hi ∧ sampleEngine.FRandRange Seed k lo hi ≤ hi := by
  have h8 : (Seed.natAbs + 3 * k) % 8 < 8 := Nat.mod_lt _ (by decide)
  have h1 : (0 : ℚ) ≤ (((Seed.natAbs + 3 * k) % 8 : Nat) : ℚ) / 8 := by positivity
  have h2 : (((Seed.natAbs + 3 * k) % 8 : Nat) : ℚ) / 8 ≤ 1 := by
    rw [div_le_one (by norm_num)]
    exact_mod_cast (by omega : (Seed.natAbs + 3 * k) % 8 ≤ 8)
  have h3 : 0 ≤ hi - lo := sub_nonneg.mpr h
  show lo ≤ lo + (hi - lo) * _ ∧ lo + (hi - lo) * _ ≤ hi
  constructor
  · nlinarith [mul_nonneg h3 h1]
  · nlinarith [mul_le_mul_of_nonneg_left h2 h3]

theorem MakeNuclei_wide_cell :
    ∃ p, (MakeNuclei (sampleEngine.FRandRange 2) 16777220 1 1)[0 * 16777220 + 16777217]?
      = some p ∧ p.X = 16777216 := by
  have hg := grid_getElem
    (fun Y X => cellNucleus (sampleEngine.FRandRange 2) 1 X Y (2 * (Y * 16777219 + X)))
    16777219 1 16777217 0 (by norm_num) (by norm_num)
  have w0 : wrap32 (((16777217 : Nat) : Int) * 1) = 16777217 := by
    norm_num [wrap32]
  have w1 : wrap32 (16777217 + 1) = 16777218 := by
    norm_num [wrap32]
  have e0 : toFloat ((16777217 : Int) : ℚ) = 16777216 := by
    have h := toFloat_16777217
    exact_mod_cast h
  have e1 : toFloat ((16777218 : Int) : ℚ) = 16777218 := by
    have h := toFloat_16777218
    exact_mod_cast h
  refine ⟨cellNucleus (sampleEngine.FRandRange 2) 1 16777217 0
    (2 * (0 * 16777219 + 16777217)), ?_, ?_⟩
  · rw [MakeNuclei_wide]
    simp only [nucleiGrid]
    have e : 0 * 16777220 + 16777217 = 0 * 16777219 + 16777217 := by norm_num
    rw [e]
    exact hg
  · simp only [cellNucleus, w0, w1, e0, e1]
    show (16777216 : ℚ) + (16777218 - 16777216)
        * ((((2 : Int).natAbs + 3 * (2 * (0 * 16777219 + 16777217))) % 8 : Nat) / 8)
      = 16777216
    have e : ((2 : Int).natAbs + 3 * (2 * (0 * 16777219 + 16777217))) % 8 = 0 := by decide
    rw [e]
    norm_num

/-- C15, as stated, fails.  With the quotient read in exact arithmetic: at the default
frequency `0.05f` the exact quotient `1 / frequency` is just below 20 and truncates to 19,
while the single-precision quotient is exactly 20, which is the cell size of the code; for
the default `256 x 256` request and a stream returning the midpoint of its arguments, the
nucleus of the cell `(12, 0)`, stored at position `0 * 13 + 12`, has the x-coordinate 250,
outside `[12 * 19, 12 * 19 + 19] = [228, 247]`.  With the quotient read in either way,
beyond `2^24`: for an image `16777220` wide and 1 high at frequency 1 the cell size is 1,
the lower bound 16777217 of the cell `(16777217, 0)` converts to the `float` 16777216, and
a stream returning its lower argument puts the nucleus at 16777216, outside
`[16777217, 16777218]`. -/
theorem MakeNuclei_cell_not_exact :
    (truncToInt (1 / defaultFrequency) = 19 ∧
      toInt32 (toFloat (1 / defaultFrequency)) = 20 ∧
      (∀ k lo hi, lo ≤ hi → lo ≤ sampleEngine.FRandRange 4 k lo hi ∧
        sampleEngine.FRandRange 4 k lo hi ≤ hi) ∧
      ⌈MakeNuclei.bound defaultFrequency 256⌉₊ = 13 ∧
      ∃ p, (MakeNuclei (sampleEngine.FRandRange 4) 256 256 defaultFrequency)[0 * 13 + 12]?
          = some p ∧ p.X = 250 ∧
        ¬ (p.X ≤ (((12 : Nat) * truncToInt (1 / defaultFrequency)
          + truncToInt (1 / defaultFrequency) : Int) : ℚ))) ∧
    (truncToInt (1 / (1 : ℚ)) = 1 ∧ toInt32 (toFloat (1 / 1)) = 1 ∧
      (∀ k lo hi, lo ≤ hi → lo ≤ sampleEngine.FRandRange 2 k lo hi ∧
        sampleEngine.FRandRange 2 k lo hi ≤ hi) ∧
      MakeNuclei.bound 1 16777220 = 16777220 ∧
      ∃ p, (MakeNuclei (sampleEngine.FRandRange 2) 16777220 1 1)[0 * 16777220 + 16777217]?
          = some p ∧ p.X = 16777216 ∧
        ¬ ((((16777217 : Nat) * toInt32 (toFloat (1 / 1)) : Int) : ℚ) ≤ p.X)) := by
  have hB : MakeNuclei.bound defaultFrequency 256 ≤ 2 ^ 24 := by
    rw [bound_default_256]; norm_num
  have h19 : truncToInt (1 / defaultFrequency) = 19 := by
    have h : (0 : ℚ) ≤ 1 / defaultFrequency := by norm_num [defaultFrequency]
    simp only [truncToInt, if_pos h]
    rw [Int.floor_eq_iff]
    norm_num [defaultFrequency]
  have h1 : truncToInt (1 / (1 : ℚ)) = 1 := by
    have h : (0 : ℚ) ≤ 1 / 1 := by norm_num
    simp only [truncToInt, if_pos h]
    rw [Int.floor_eq_iff]
    norm_num
  have hg := MakeNuclei_getElem (sampleEngine.FRandRange 4) 256 256 defaultFrequency hB hB
    12 0 (by rw [ceil_default_256]; decide) (by rw [ceil_default_256]; decide)
  rw [ceil_default_256, cellSize_default] at hg
  obtain ⟨f0, f1⟩ := cell_bound_exact 20 12 (by decide) (by decide)
  have hx : (cellNucleus (sampleEngine.FRandRange 4) 20 12 0 (2 * (0 * 13 + 12))).X = 250 := by
    simp only [cellNucleus, f0, f1]
    show ((((12 : Nat) : Int) * 20 : Int) : ℚ)
      + (((((12 : Nat) : Int) * 20 + 20 : Int) : ℚ) - ((((12 : Nat) : Int) * 20 : Int) : ℚ))
        * ((((4 : Int).natAbs + 3 * (2 * (0 * 13 + 12))) % 8 : Nat) / 8) = 250
    have e : ((4 : Int).natAbs + 3 * (2 * (0 * 13 + 12))) % 8 = 4 := by decide
    rw [e]
    norm_num
  obtain ⟨p, hp, hpx⟩ := MakeNuclei_wide_cell
  refine ⟨⟨h19, cellSize_default, sampleStream_between 4, ceil_default_256, _, hg, hx, ?_⟩,
    h1, cellSize_one, sampleStream_between 2, bound_one_wide, p, hp, hpx, ?_⟩
  · rw [hx, h19]
    norm_num
  · rw [hpx, cellSize_one]
    norm_num

/-- C15, amended: with `CellSize = trunc(1 / Frequency)`, the quotient taken in single
precision, and a stream whose `FRandRange(lo, hi)` returns a value between `lo` and `hi`,
the nucleus that `MakeNuclei` emits for the grid cell `(X, Y)` is stored at the row-major
position `Y * columns + X` and has its x-coordinate in `[X * CellSize, X * CellSize +
CellSize]` and its y-coordinate in `[Y * CellSize, Y * CellSize + CellSize]`, for every cell
of the grid whose bounds `(X + 1) * CellSize` and `(Y + 1) * CellSize` are at most `2^24`
(up to there the `int` cell size and the conversion of the `int` bounds to `float` are
exact); the grid has `ceil(Frequency * Width)` columns and `ceil(Frequency * Height)` rows
with the products in single precision, both at most `2^24` (positive image dimensions, as
`CreateNoise` passes them). -/
theorem MakeNuclei_cell (FRandRange : Nat → ℚ → ℚ → ℚ) (Width Height : Int)
    (Frequency : ℚ) (hW : 0 < Width) (_hH : 0 < Height)
    (hU : ∀ k lo hi, lo ≤ hi → lo ≤ FRandRange k lo hi ∧ FRandRange k lo hi ≤ hi)
    (hBW : MakeNuclei.bound Frequency Width ≤ 2 ^ 24)
    (hBH : MakeNuclei.bound Frequency Height ≤ 2 ^ 24)
    (X Y : Nat) (hX : X < ⌈MakeNuclei.bound Frequency Width⌉₊)
    (hY : Y < ⌈MakeNuclei.bound Frequency Height⌉₊)
    (hXC : ((X : Int) + 1) * truncToInt (toFloat (1 / Frequency)) ≤ 2 ^ 24)
    (hYC : ((Y : Int) + 1) * truncToInt (toFloat (1 / Frequency)) ≤ 2 ^ 24) :
    toInt32 (toFloat (1 / Frequency)) = truncToInt (toFloat (1 / Frequency)) ∧
    ∃ p, (MakeNuclei FRandRange Width Height Frequency)[
          Y * ⌈MakeNuclei.bound Frequency Width⌉₊ + X]? = some p ∧
      ((X * truncToInt (toFloat (1 / Frequency)) : Int) : ℚ) ≤ p.X ∧
      p.X ≤ ((X * truncToInt (toFloat (1 / Frequency))
        + truncToInt (toFloat (1 / Frequency)) : Int) : ℚ) ∧
      ((Y * truncToInt (toFloat (1 / Frequency)) : Int) : ℚ) ≤ p.Y ∧
      p.Y ≤ ((Y * truncToInt (toFloat (1 / Frequency))
        + truncToInt (toFloat (1 / Frequency)) : Int) : ℚ) := by
  have hBpos : 0 < MakeNuclei.bound Frequency Width :=
    lt_of_le_of_lt (Nat.cast_nonneg X) (Nat.lt_ceil.mp hX)
  have hF : 0 < Frequency := bound_pos_frequency (le_of_lt hW) hBpos
  have hC : 0 ≤ truncToInt (toFloat (1 / Frequency)) :=
    truncToInt_nonneg (toFloat_nonneg (le_of_lt (one_div_pos.mpr hF)))
  have hC2 : truncToInt (toFloat (1 / Frequency)) ≤ 2 ^ 24 := by
    have hX0 : (0 : Int) ≤ X := Int.natCast_nonneg X
    nlinarith
  have e : toInt32 (toFloat (1 / Frequency)) = truncToInt (toFloat (1 / Frequency)) := by
    unfold toInt32
    rw [if_pos ⟨by omega, by omega⟩]
  have hg := MakeNuclei_getElem FRandRange Width Height Frequency hBH hBW X Y hX hY
  rw [e] at hg
  exact ⟨e, _, hg, cellNucleus_bounds FRandRange _ X Y _ hC hU hXC hYC⟩

/-- Witness for C15 (amended): the default request, cell `(1, 2)` of the 13 x 13 grid,
stored at position `2 * 13 + 1`, with `CellSize = 20`. -/
theorem MakeNuclei_cell_witness :
    (0 : Int) < 256 ∧ truncToInt (toFloat (1 / defaultFrequency)) = 20 ∧
    MakeNuclei.bound defaultFrequency 256 ≤ 2 ^ 24 ∧
    1 < ⌈MakeNuclei.bound defaultFrequency 256⌉₊ ∧
    2 < ⌈MakeNuclei.bound defaultFrequency 256⌉₊ ∧
    (((1 : Nat) : Int) + 1) * truncToInt (toFloat (1 / defaultFrequency)) ≤ 2 ^ 24 ∧
    (((2 : Nat) : Int) + 1) * truncToInt (toFloat (1 / defaultFrequency)) ≤ 2 ^ 24 ∧
    toInt32 (toFloat (1 / defaultFrequency)) = truncToInt (toFloat (1 / defaultFrequency)) ∧
    ∃ p, (MakeNuclei (sampleEngine.FRandRange 0) 256 256 defaultFrequency)[
          2 * ⌈MakeNuclei.bound defaultFrequency 256⌉₊ + 1]? = some p ∧
      (((1 : Nat) * truncToInt (toFloat (1 / defaultFrequency)) : Int) : ℚ) ≤ p.X ∧
      p.X ≤ (((1 : Nat) * truncToInt (toFloat (1 / defaultFrequency))
        + truncToInt (toFloat (1 / defaultFrequency)) : Int) : ℚ) ∧
      (((2 : Nat) * truncToInt (toFloat (1 / defaultFrequency)) : Int) : ℚ) ≤ p.Y ∧
      p.Y ≤ (((2 : Nat) * truncToInt (toFloat (1 / defaultFrequency))
        + truncToInt (toFloat (1 / defaultFrequency)) : Int) : ℚ) := by
  have hc := ceil_default_256
  have hB : MakeNuclei.bound defaultFrequency 256 ≤ 2 ^ 24 := by
    rw [bound_default_256]; norm_num
  have h1 : (((1 : Nat) : Int) + 1) * truncToInt (toFloat (1 / defaultFrequency)) ≤ 2 ^ 24 := by
    rw [trunc_default_inv]; decide
  have h2 : (((2 : Nat) : Int) + 1) * truncToInt (toFloat (1 / defaultFrequency)) ≤ 2 ^ 24 := by
    rw [trunc_default_inv]; decide
  exact ⟨by decide, trunc_default_inv, hB, by rw [hc]; decide, by rw [hc]; decide, h1, h2,
    MakeNuclei_cell (sampleEngine.FRandRange 0) 256 256 defaultFrequency (by decide)
      (by decide) (sampleStream_between 0) hB hB 1 2 (by rw [hc]; decide)
      (by rw [hc]; decide) h1 h2⟩

/-! ## `FindTwoClosest`: order of the result -/

theorem firstNearestBy_append (d : FVector2D → ℚ) (x : FVector2D) :
    ∀ l : List FVector2D, firstNearestBy d (l ++ [x]) =
      match firstNearestBy d l with
      | none => some x
      | some q => if d x < d q then some x else some q := by
  intro l
  induction l with
  | nil => rfl
  | cons p l ih =>
    rw [List.cons_append]
    simp only [firstNearestBy]
    rw [ih]
    cases h : firstNearestBy d l with
    | none => simp only []
    | some q =>
      simp only []
      by_cases hxq : d x < d q <;>
        by_cases hqp : d q < d p <;>
        simp only [hxq, hqp, if_true, if_false]
      · rw [if_pos (lt_trans hxq hqp)]
      · rw [if_neg (not_lt.mpr (le_trans (not_lt.mp hqp) (not_lt.mp hxq)))]

theorem firstNearestBy_mem (d : FVector2D → ℚ) :
    ∀ (l : List FVector2D) (c : FVector2D), firstNearestBy d l = some c →
      c ∈ l ∧ ∀ y ∈ l, d c ≤ d y := by
  intro l
  induction l with
  | nil => intro c h; simp [firstNearestBy] at h
  | cons p l ih =>
    intro c h
    simp only [firstNearestBy] at h
    cases hq : firstNearestBy d l with
    | none =>
      rw [hq] at h
      simp only [Option.some.injEq] at h
      subst h
      have hl : l = [] := by
        cases l with
        | nil => rfl
        | cons a l =>
          simp only [firstNearestBy] at hq
          cases h2 : firstNearestBy d l <;> rw [h2] at hq <;> simp only [] at hq
          · exact absurd hq (by simp)
          · split_ifs at hq
      subst hl
      simp
    | some q =>
      rw [hq] at h
      simp only [] at h
      obtain ⟨hqm, hqmin⟩ := ih q hq
      split_ifs at h with hlt
      · simp only [Option.some.injEq] at h
        subst h
        refine ⟨List.mem_cons_of_mem _ hqm, ?_⟩
        intro y hy
        rcases List.mem_cons.mp hy with rfl | hy
        · exact le_of_lt hlt
        · exact hqmin y hy
      · simp only [Option.some.injEq] at h
        subst h
        refine ⟨List.mem_cons_self _ _, ?_⟩
        intro y hy
        rcases List.mem_cons.mp hy with rfl | hy
        · exact le_refl _
        · exact le_trans (not_lt.mp hlt) (hqmin y hy)

theorem firstNearestBy_singleton (d : FVector2D → ℚ) (p : FVector2D) :
    firstNearestBy d [p] = some p :=
  rfl

theorem ScanOrder_step (Target : FVector2D) (l : List FVector2D) (s : Closest)
    (x : FVector2D) (hx : FindTwoClosest.DistanceSq Target x < FLT_MAX)
    (h : ScanOrder Target l s) :
    ScanOrder Target (l ++ [x]) (FindTwoClosest.step Target s x) := by
  rcases h with ⟨rfl, rfl⟩ | ⟨p, rfl, rfl⟩ | ⟨hlen, hc1, hc2, h1, h2⟩
  · exact Or.inr (Or.inl ⟨x, rfl, step_first Target _ x hx⟩)
  · refine Or.inr (Or.inr ?_)
    by_cases hlt : FindTwoClosest.DistanceSq Target x < FindTwoClosest.DistanceSq Target p
    · rw [step_first Target _ x hlt]
      have hne : ¬ p = x := fun e => by rw [e] at hlt; exact lt_irrefl _ hlt
      refine ⟨by simp, ?_, ?_, rfl, rfl⟩
      · rw [firstNearestBy_append, firstNearestBy_singleton]
        simp only [if_pos hlt]
      · show firstNearestBy (FindTwoClosest.DistanceSq Target) (([p] ++ [x]).erase x) = some p
        rw [List.erase_append_right _ (by simpa using fun e => hne e.symm)]
        simp [firstNearestBy]
    · rw [step_second Target _ x hlt hx]
      refine ⟨by simp, ?_, ?_, rfl, rfl⟩
      · rw [firstNearestBy_append, firstNearestBy_singleton]
        simp only [if_neg hlt]
      · show firstNearestBy (FindTwoClosest.DistanceSq Target) (([p] ++ [x]).erase p) = some x
        rw [List.erase_append_left _ (by simp)]
        simp [firstNearestBy]
  · refine Or.inr (Or.inr ?_)
    obtain ⟨hmem, hmin⟩ := firstNearestBy_mem (FindTwoClosest.DistanceSq Target) l _ hc1
    have hlen2 : 2 ≤ (l ++ [x]).length := by simp; omega
    by_cases hlt1 : FindTwoClosest.DistanceSq Target x < s.ClosestDist1
    · rw [step_first Target _ x hlt1]
      have hxl : x ∉ l := by
        intro hm
        have := hmin x hm
        rw [h1] at hlt1
        linarith
      refine ⟨hlen2, ?_, ?_, rfl, h1⟩
      · rw [firstNearestBy_append, hc1]
        rw [h1] at hlt1
        simp only [if_pos hlt1]
      · show firstNearestBy (FindTwoClosest.DistanceSq Target) ((l ++ [x]).erase x)
          = some s.ClosestPoint1
        rw [List.erase_append_right _ hxl]
        simpa using hc1
    · by_cases hlt2 : FindTwoClosest.DistanceSq Target x < s.ClosestDist2
      · rw [step_second Target _ x hlt1 hlt2]
        refine ⟨hlen2, ?_, ?_, h1, rfl⟩
        · rw [firstNearestBy_append, hc1]
          rw [h1] at hlt1
          simp only [if_neg hlt1]
        · show firstNearestBy (FindTwoClosest.DistanceSq Target)
            ((l ++ [x]).erase s.ClosestPoint1) = some x
          rw [List.erase_append_left _ hmem, firstNearestBy_append, hc2]
          rw [h2] at hlt2
          simp only [if_pos hlt2]
      · rw [step_none Target _ x hlt1 hlt2]
        refine ⟨hlen2, ?_, ?_, h1, h2⟩
        · rw [firstNearestBy_append, hc1]
          rw [h1] at hlt1
          simp only [if_neg hlt1]
        · rw [List.erase_append_left _ hmem, firstNearestBy_append, hc2]
          rw [h2] at hlt2
          simp only [if_neg hlt2]

theorem ScanOrder_foldl (Target : FVector2D) :
    ∀ (more l : List FVector2D) (s : Closest),
      (∀ p ∈ more, FindTwoClosest.DistanceSq Target p < FLT_MAX) → ScanOrder Target l s →
      ScanOrder Target (l ++ more) (more.foldl (FindTwoClosest.step Target) s) := by
  intro more
  induction more with
  | nil => intro l s _ h; simpa using h
  | cons x more ih =>
    intro l s hfar h
    have hx := hfar x (List.mem_cons_self x more)
    have h2 := ih (l ++ [x]) (FindTwoClosest.step Target s x)
      (fun p hp => hfar p (List.mem_cons_of_mem x hp)) (ScanOrder_step Target l s x hx h)
    simpa using h2

theorem FindTwoClosest_few (Target : FVector2D) (Points : List FVector2D)
    (h : Points.length < 2) : FindTwoClosest Target Points = [] := by
  simp only [FindTwoClosest, if_pos h]

theorem FindTwoClosest_order (Target : FVector2D) (Points : List FVector2D)
    (hlen : 2 ≤ Points.length)
    (hfar : ∀ p ∈ Points, FindTwoClosest.DistanceSq Target p < FLT_MAX) :
    ∃ p1 p2, FindTwoClosest Target Points = [p1, p2] ∧
      firstNearestBy (FindTwoClosest.DistanceSq Target) Points = some p1 ∧
      firstNearestBy (FindTwoClosest.DistanceSq Target) (Points.erase p1) = some p2 := by
  have hinv := ScanOrder_foldl Target Points [] _ hfar (Or.inl ⟨rfl, rfl⟩)
  rw [List.nil_append] at hinv
  have hF : FindTwoClosest Target Points =
      [(Points.foldl (FindTwoClosest.step Target)
          ⟨FVector2D.ZeroVector, FVector2D.ZeroVector, FLT_MAX, FLT_MAX⟩).ClosestPoint1,
        (Points.foldl (FindTwoClosest.step Target)
          ⟨FVector2D.ZeroVector, FVector2D.ZeroVector, FLT_MAX, FLT_MAX⟩).ClosestPoint2] := by
    simp only [FindTwoClosest, if_neg (not_lt.mpr hlen)]
  rcases hinv with ⟨h, _⟩ | ⟨p, h, _⟩ | ⟨_, hc1, hc2, _, _⟩
  · rw [h] at hlen; simp at hlen
  · rw [h] at hlen; simp at hlen
  · exact ⟨_, _, hF, hc1, hc2⟩

theorem nearTie_distances :
    FindTwoClosest.DistanceSq ⟨0, 0⟩ ⟨8388609 / 8388608, 1 / 16777216⟩ = 4194305 / 4194304 ∧
      FindTwoClosest.DistanceSq ⟨0, 0⟩ ⟨8388609 / 8388608, 0⟩ = 4194305 / 4194304 := by
  have hx : toDouble (8388609 / 8388608) = 8388609 / 8388608 :=
    toDouble_of_eq _ 8388609 (-23) (by norm_num) (by norm_num) (by norm_num)
  have hy : toDouble (1 / 16777216) = 1 / 16777216 :=
    toDouble_of_eq _ 1 (-24) (by norm_num) (by norm_num) (by norm_num)
  have hxx : toDouble (8388609 / 8388608 * (8388609 / 8388608))
      = 70368760954881 / 70368744177664 :=
    (toDouble_of_eq _ 70368760954881 (-46) (by norm_num) (by norm_num) (by norm_num)).trans
      (by norm_num)
  have hyy : toDouble (1 / 16777216 * (1 / 16777216)) = 1 / 281474976710656 :=
    (toDouble_of_eq _ 1 (-48) (by norm_num) (by norm_num) (by norm_num)).trans (by norm_num)
  have hs1 : toDouble (70368760954881 / 70368744177664 + 1 / 281474976710656)
      = 281475043819525 / 281474976710656 :=
    (toDouble_of_eq _ 281475043819525 (-48) (by norm_num) (by norm_num)
      (by norm_num)).trans (by norm_num)
  have hs2 : toDouble (70368760954881 / 70368744177664)
      = 70368760954881 / 70368744177664 :=
    toDouble_of_eq _ 70368760954881 (-46) (by norm_num) (by norm_num) (by norm_num)
  have hf1 : toFloat (281475043819525 / 281474976710656) = 4194305 / 4194304 := by
    have h := roundBinary_near 24 (-126) (281475043819525 / 281474976710656) 0 8388610
      (by norm_num) (by norm_num) (by norm_num) (by norm_num) (by norm_num)
    rw [toFloat, h]
    norm_num
  have hf2 : toFloat (70368760954881 / 70368744177664) = 4194305 / 4194304 := by
    have h := roundBinary_near 24 (-126) (70368760954881 / 70368744177664) 0 8388610
      (by norm_num) (by norm_num) (by norm_num) (by norm_num) (by norm_num)
    rw [toFloat, h]
    norm_num
  constructor
  · simp only [FindTwoClosest.DistanceSq, DistSquared, sub_zero, hx, hy, hxx, hyy, hs1, hf1]
  · simp only [FindTwoClosest.DistanceSq, DistSquared, sub_zero, sub_self, hx, hxx,
      toDouble_zero, mul_zero, add_zero, hs2, hf2]

theorem nearTie_closest : FindTwoClosest ⟨0, 0⟩ nearTiePoints = nearTiePoints := by
  obtain ⟨d1, d2⟩ := nearTie_distances
  have e1 : FindTwoClosest.step ⟨0, 0⟩
      ⟨FVector2D.ZeroVector, FVector2D.ZeroVector, FLT_MAX, FLT_MAX⟩
      ⟨8388609 / 8388608, 1 / 16777216⟩
      = ⟨⟨8388609 / 8388608, 1 / 16777216⟩, FVector2D.ZeroVector, 4194305 / 4194304,
          FLT_MAX⟩ := by
    rw [step_first _ _ _ (by rw [d1]; norm_num [FLT_MAX]), d1]
  have e2 : FindTwoClosest.step ⟨0, 0⟩
      ⟨⟨8388609 / 8388608, 1 / 16777216⟩, FVector2D.ZeroVector, 4194305 / 4194304, FLT_MAX⟩
      ⟨8388609 / 8388608, 0⟩
      = ⟨⟨8388609 / 8388608, 1 / 16777216⟩, ⟨8388609 / 8388608, 0⟩, 4194305 / 4194304,
          4194305 / 4194304⟩ := by
    rw [step_second _ _ _ (by rw [d2]; exact lt_irrefl _)
      (by rw [d2]; norm_num [FLT_MAX]), d2]
  rw [nearTiePoints, FindTwoClosest_two, e1, e2]

/-- C16, as stated, fails when the squared distances are read in exact arithmetic.  The
points `(1 + 2^(-23), 2^(-24))` and `(1 + 2^(-23), 0)`, in this list order, have different
exact squared distances to the origin, the second point being the nearer one, so the
first point attaining the minimum is the second point of the list.  Narrowed to `float`
(source line 208) both squared distances are `1 + 2^(-22)`; the strict comparison keeps
the earlier point and `FindTwoClosest` returns the points in list order. -/
theorem FindTwoClosest_near_tie :
    2 ≤ nearTiePoints.length ∧
    (∀ p ∈ nearTiePoints, SquaredDistance ⟨0, 0⟩ p < FLT_MAX) ∧
    (∀ p ∈ nearTiePoints, FindTwoClosest.DistanceSq ⟨0, 0⟩ p < FLT_MAX) ∧
    SquaredDistance ⟨0, 0⟩ ⟨8388609 / 8388608, 0⟩
      < SquaredDistance ⟨0, 0⟩ ⟨8388609 / 8388608, 1 / 16777216⟩ ∧
    firstNearestBy (SquaredDistance ⟨0, 0⟩) nearTiePoints = some ⟨8388609 / 8388608, 0⟩ ∧
    twoNearestBy (SquaredDistance ⟨0, 0⟩) nearTiePoints
      = [⟨8388609 / 8388608, 0⟩, ⟨8388609 / 8388608, 1 / 16777216⟩] ∧
    FindTwoClosest ⟨0, 0⟩ nearTiePoints
      = [⟨8388609 / 8388608, 1 / 16777216⟩, ⟨8388609 / 8388608, 0⟩] ∧
    FindTwoClosest ⟨0, 0⟩ nearTiePoints ≠ twoNearestBy (SquaredDistance ⟨0, 0⟩) nearTiePoints := by
  obtain ⟨d1, d2⟩ := nearTie_distances
  have hlt : SquaredDistance ⟨0, 0⟩ ⟨8388609 / 8388608, 0⟩
      < SquaredDistance ⟨0, 0⟩ ⟨8388609 / 8388608, 1 / 16777216⟩ := by
    norm_num [SquaredDistance]
  have hfirst : firstNearestBy (SquaredDistance ⟨0, 0⟩) nearTiePoints
      = some ⟨8388609 / 8388608, 0⟩ := by
    simp only [nearTiePoints, firstNearestBy, if_pos hlt]
  have hne : (⟨8388609 / 8388608, 1 / 16777216⟩ : FVector2D) ≠ ⟨8388609 / 8388608, 0⟩ := by
    intro h
    have := congrArg FVector2D.Y h
    norm_num at this
  have herase : nearTiePoints.erase ⟨8388609 / 8388608, 0⟩
      = [⟨8388609 / 8388608, 1 / 16777216⟩] := by
    rw [nearTiePoints, List.erase_cons_tail (by simp [hne]), List.erase_cons_head]
  have htwo : twoNearestBy (SquaredDistance ⟨0, 0⟩) nearTiePoints
      = [⟨8388609 / 8388608, 0⟩, ⟨8388609 / 8388608, 1 / 16777216⟩] := by
    unfold twoNearestBy
    rw [hfirst]
    simp only [herase, firstNearestBy]
  have hF : FindTwoClosest ⟨0, 0⟩ nearTiePoints
      = [⟨8388609 / 8388608, 1 / 16777216⟩, ⟨8388609 / 8388608, 0⟩] := nearTie_closest
  refine ⟨by simp [nearTiePoints], ?_, ?_, hlt, hfirst, htwo, hF, ?_⟩
  · intro p hp
    simp only [nearTiePoints, List.mem_cons, List.mem_singleton, List.mem_nil_iff,
      or_false] at hp
    rcases hp with rfl | rfl <;> norm_num [SquaredDistance, FLT_MAX]
  · intro p hp
    simp only [nearTiePoints, List.mem_cons, List.mem_singleton, List.mem_nil_iff,
      or_false] at hp
    rcases hp with rfl | rfl
    · rw [d1]; norm_num [FLT_MAX]
    · rw [d2]; norm_num [FLT_MAX]
  · rw [hF, htwo]
    intro h
    exact hne (List.cons.inj h).1

/-- C16, amended: for every target and every list of at least 2 points whose
single-precision squared distances to the target (the values `DistanceSq` that the scan
compares) are all below the `FLT_MAX` initial bound, `FindTwoClosest` returns `(p1, p2)`
where `p1` is the first point in list order attaining the minimum single-precision squared
distance and `p2` is the first point in list order attaining the minimum single-precision
squared distance among the remaining entries (the list with that occurrence of `p1`
removed); for a list of fewer than 2 points it returns the empty result. -/
theorem FindTwoClosest_first_nearest (Target : FVector2D) (Points : List FVector2D) :
    (Points.length < 2 → FindTwoClosest Target Points = []) ∧
    (2 ≤ Points.length → (∀ p ∈ Points, FindTwoClosest.DistanceSq Target p < FLT_MAX) →
      ∃ p1 p2, FindTwoClosest Target Points = [p1, p2] ∧
        firstNearestBy (FindTwoClosest.DistanceSq Target) Points = some p1 ∧
        firstNearestBy (FindTwoClosest.DistanceSq Target) (Points.erase p1) = some p2 ∧
        FindTwoClosest Target Points
          = twoNearestBy (FindTwoClosest.DistanceSq Target) Points) := by
  refine ⟨FindTwoClosest_few Target Points, fun hlen hfar => ?_⟩
  obtain ⟨p1, p2, hF, h1, h2⟩ := FindTwoClosest_order Target Points hlen hfar
  refine ⟨p1, p2, hF, h1, h2, ?_⟩
  rw [hF]
  simp only [twoNearestBy, h1, h2]

/-- Witness for C16 (amended): the two points of the near tie; the single-precision squared
distances are equal and the points are returned in list order. -/
theorem FindTwoClosest_first_nearest_witness :
    2 ≤ nearTiePoints.length ∧
    (∀ p ∈ nearTiePoints, FindTwoClosest.DistanceSq ⟨0, 0⟩ p < FLT_MAX) ∧
    FindTwoClosest ⟨0, 0⟩ nearTiePoints
      = [⟨8388609 / 8388608, 1 / 16777216⟩, ⟨8388609 / 8388608, 0⟩] ∧
    ∃ p1 p2, FindTwoClosest ⟨0, 0⟩ nearTiePoints = [p1, p2] ∧
      firstNearestBy (FindTwoClosest.DistanceSq ⟨0, 0⟩) nearTiePoints = some p1 ∧
      firstNearestBy (FindTwoClosest.DistanceSq ⟨0, 0⟩) (nearTiePoints.erase p1) = some p2 ∧
      FindTwoClosest ⟨0, 0⟩ nearTiePoints
        = twoNearestBy (FindTwoClosest.DistanceSq ⟨0, 0⟩) nearTiePoints := by
  have hfar : ∀ p ∈ nearTiePoints, FindTwoClosest.DistanceSq ⟨0, 0⟩ p < FLT_MAX := by
    obtain ⟨d1, d2⟩ := nearTie_distances
    intro p hp
    simp only [nearTiePoints, List.mem_cons, List.mem_singleton, List.mem_nil_iff,
      or_false] at hp
    rcases hp with rfl | rfl
    · rw [d1]; norm_num [FLT_MAX]
    · rw [d2]; norm_num [FLT_MAX]
  exact ⟨by simp [nearTiePoints], hfar, nearTie_closest,
    (FindTwoClosest_first_nearest ⟨0, 0⟩ nearTiePoints).2 (by simp [nearTiePoints]) hfar⟩

/-! ## Octave compositor: closed form -/

theorem OctaveLoop_sum (Layer : FVector2D → Option ℚ) (Location : FVector2D) :
    ∀ (n : Nat) (Total MaxValue Amplitude CurrentFrequency : ℚ) (v : Nat → ℚ),
      (∀ k, k < n → Layer (Location.scale (CurrentFrequency * 2 ^ k)) = some (v k)) →
      OctaveLoop Layer Location n Total MaxValue Amplitude CurrentFrequency =
        some (Total + ∑ k in Finset.range n, Amplitude * (1 / 2) ^ k * v k,
          MaxValue + ∑ k in Finset.range n, Amplitude * (1 / 2) ^ k) := by
  intro n
  induction n with
  | zero =>
    intro Total MaxValue Amplitude CurrentFrequency v _
    simp [OctaveLoop]
  | succ n ih =>
    intro Total MaxValue Amplitude CurrentFrequency v hv
    have h0 : Layer (Location.scale CurrentFrequency) = some (v 0) := by
      have := hv 0 (by omega)
      rwa [pow_zero, mul_one] at this
    have hv2 : ∀ k, k < n →
        Layer (Location.scale (CurrentFrequency * 2 * 2 ^ k)) = some (v (k + 1)) := by
      intro k hk
      have := hv (k + 1) (by omega)
      rwa [pow_succ, mul_comm ((2 : ℚ) ^ k) 2, ← mul_assoc] at this
    simp only [OctaveLoop, h0, Option.bind_eq_bind, Option.some_bind]
    rw [ih _ _ _ _ (fun k => v (k + 1)) hv2, Finset.sum_range_succ', Finset.sum_range_succ']
    have e1 : ∀ k, Amplitude * (1 / 2) * (1 / 2) ^ k * v (k + 1)
        = Amplitude * (1 / 2) ^ (k + 1) * v (k + 1) := by
      intro k; ring
    have e2 : ∀ k, Amplitude * (1 / 2) * (1 / 2) ^ k = Amplitude * (1 / 2) ^ (k + 1) := by
      intro k; ring
    simp only [e1, e2, pow_zero, mul_one]
    congr 1
    refine Prod.ext ?_ ?_
    · show _ = _
      ring
    · show _ = _
      ring

theorem amplitude_sum (n : Nat) :
    ∑ k in Finset.range n, ((1 : ℚ) / 2) ^ k = 2 - 2 * (1 / 2) ^ n := by
  induction n with
  | zero => norm_num
  | succ n ih =>
    rw [Finset.sum_range_succ, ih]
    ring

theorem two_zpow_one_sub (Octaves : Int) (hO : 0 ≤ Octaves) :
    (2 : ℚ) ^ (1 - Octaves) = 2 * (1 / 2) ^ Octaves.toNat := by
  have h : Octaves = (Octaves.toNat : Int) := (Int.toNat_of_nonneg hO).symm
  rw [zpow_sub₀ (by norm_num : (2 : ℚ) ≠ 0), zpow_one]
  conv_lhs => rw [h]
  rw [zpow_natCast, one_div, inv_pow]
  rfl

theorem OctaveCompositor_sum (Layer : FVector2D → Option ℚ) (Location : FVector2D)
    (Octaves : Int) (Frequency : ℚ) (hO : 1 ≤ Octaves) (v : Nat → ℚ)
    (hv : ∀ k, k < Octaves.toNat → Layer (Location.scale (Frequency * 2 ^ k)) = some (v k)) :
    OctaveCompositor Layer Location Octaves Frequency =
      some ((∑ k in Finset.range Octaves.toNat, (1 / 2) ^ k * v k)
        / (2 - 2 ^ (1 - Octaves))) := by
  have hM : (2 : ℚ) - 2 * (1 / 2) ^ Octaves.toNat ≠ 0 := by
    have hn : 1 ≤ Octaves.toNat := by omega
    have hp : ((1 : ℚ) / 2) ^ Octaves.toNat ≤ (1 / 2) ^ 1 :=
      pow_le_pow_of_le_one (by norm_num) (by norm_num) hn
    have : (0 : ℚ) < 2 - 2 * (1 / 2) ^ Octaves.toNat := by linarith
    exact ne_of_gt this
  simp only [OctaveCompositor, OctaveLoop_sum Layer Location _ 0 0 1 Frequency v hv,
    Option.bind_eq_bind, Option.some_bind, zero_add, amplitude_sum, fdiv, if_neg hM,
    two_zpow_one_sub Octaves (by omega), one_mul]

theorem OctaveLoop_none (Layer : FVector2D → Option ℚ) (Location : FVector2D) :
    ∀ (n : Nat) (Total MaxValue Amplitude CurrentFrequency : ℚ),
      (∃ k, k < n ∧ Layer (Location.scale (CurrentFrequency * 2 ^ k)) = none) →
      OctaveLoop Layer Location n Total MaxValue Amplitude CurrentFrequency = none := by
  intro n
  induction n with
  | zero =>
    intro _ _ _ _ ⟨k, hk, _⟩
    omega
  | succ n ih =>
    intro Total MaxValue Amplitude CurrentFrequency ⟨k, hk, hnone⟩
    cases h0 : Layer (Location.scale CurrentFrequency) with
    | none => simp only [OctaveLoop, h0, Option.bind_eq_bind, Option.none_bind]
    | some v0 =>
      simp only [OctaveLoop, h0, Option.bind_eq_bind, Option.some_bind]
      apply ih
      cases k with
      | zero =>
        rw [pow_zero, mul_one, h0] at hnone
        exact absurd hnone (by simp)
      | succ k =>
        refine ⟨k, by omega, ?_⟩
        rwa [pow_succ, mul_comm ((2 : ℚ) ^ k) 2, ← mul_assoc] at hnone

theorem OctaveCompositor_none (Layer : FVector2D → Option ℚ) (Location : FVector2D)
    (Octaves : Int) (Frequency : ℚ)
    (h : ∃ k, k < Octaves.toNat ∧ Layer (Location.scale (Frequency * 2 ^ k)) = none) :
    OctaveCompositor Layer Location Octaves Frequency = none := by
  simp only [OctaveCompositor, OctaveLoop_none Layer Location _ 0 0 1 Frequency h,
    Option.bind_eq_bind, Option.none_bind]

theorem perlinBlend_origin (g00 g10 g01 g11 : FVector2D) :
    perlinBlend g00 g10 g01 g11 0 0 = 0 := by
  simp [perlinBlend, Lerp, FVector2D.Dot, Smooth]

/-- At a point whose coordinates are both integers the Perlin layer is zero. -/
theorem PerlinNoiseLayer_integer (Location : FVector2D) {P : List Int} (hP : TableOK P)
    (a b : Int) (hx : Location.X = a) (hy : Location.Y = b) :
    PerlinNoiseLayer Location P = some 0 := by
  obtain ⟨a', b', c, d, h⟩ := PerlinNoiseLayer_eq Location hP
  have fx : Location.X - FloorToInt Location.X = 0 := by
    rw [hx]; simp [FloorToInt]
  have fy : Location.Y - FloorToInt Location.Y = 0 := by
    rw [hy]; simp [FloorToInt]
  rw [h, fx, fy, perlinBlend_origin]

/-- C17: for every point `p`, base frequency `f` and octave count `n >= 1`, `PerlinNoise`
and `VoronoiNoise` each return the sum over `k = 0..n-1` of `2^(-k) * Layer(p * f * 2^k)`
divided by the sum of the amplitudes `2^(-k)`, which is `2 - 2^(1-n)`, where `Layer` is
`PerlinNoiseLayer` resp. `VoronoiNoiseLayer` and `v k` is its value in octave `k`; octave 0
already scales the point by `f`.  When one of the layer values is not a number, neither is
the result. -/
theorem Noise_closed_form (Location : FVector2D) (Frequency : ℚ) (Octaves : Int)
    (hO : 1 ≤ Octaves) :
    (∑ k in Finset.range Octaves.toNat, ((1 : ℚ) / 2) ^ k = 2 - 2 ^ (1 - Octaves)) ∧
    (∀ (Permutation : List Int) (v : Nat → ℚ),
      (∀ k, k < Octaves.toNat →
        PerlinNoiseLayer (Location.scale (Frequency * 2 ^ k)) Permutation = some (v k)) →
      PerlinNoise Location Permutation Octaves Frequency =
        some ((∑ k in Finset.range Octaves.toNat, (1 / 2) ^ k * v k)
          / (2 - 2 ^ (1 - Octaves)))) ∧
    (∀ (Sqrt : ℚ → ℚ) (Nuclei : List FVector2D) (v : Nat → ℚ),
      (∀ k, k < Octaves.toNat →
        VoronoiNoiseLayer Sqrt (Location.scale (Frequency * 2 ^ k)) Nuclei = some (v k)) →
      VoronoiNoise Sqrt Location Nuclei Octaves Frequency =
        some ((∑ k in Finset.range Octaves.toNat, (1 / 2) ^ k * v k)
          / (2 - 2 ^ (1 - Octaves)))) ∧
    (∀ (Permutation : List Int),
      (∃ k, k < Octaves.toNat ∧
        PerlinNoiseLayer (Location.scale (Frequency * 2 ^ k)) Permutation = none) →
      PerlinNoise Location Permutation Octaves Frequency = none) ∧
    (∀ (Sqrt : ℚ → ℚ) (Nuclei : List FVector2D),
      (∃ k, k < Octaves.toNat ∧
        VoronoiNoiseLayer Sqrt (Location.scale (Frequency * 2 ^ k)) Nuclei = none) →
      VoronoiNoise Sqrt Location Nuclei Octaves Frequency = none) := by
  refine ⟨?_, ?_, ?_, ?_, ?_⟩
  · rw [amplitude_sum, two_zpow_one_sub Octaves (by omega)]
  · intro Permutation v hv
    exact OctaveCompositor_sum _ Location Octaves Frequency hO v hv
  · intro Sqrt Nuclei v hv
    exact OctaveCompositor_sum _ Location Octaves Frequency hO v hv
  · intro Permutation h
    exact OctaveCompositor_none _ Location Octaves Frequency h
  · intro Sqrt Nuclei h
    exact OctaveCompositor_none _ Location Octaves Frequency h

theorem range_table_ok : TableOK ((List.range 256).map Int.ofNat) :=
  TableOK_of_perm (List.Perm.refl _)

/-- Witness for C17: two octaves of Perlin noise at the point `(1, 1)` with base frequency
`1/2` on the unshuffled table; the layer values are `1/2` (at `(1/2, 1/2)`) and `0` (at
`(1, 1)`), and the result is `(1/2 + 0/2) / (3/2) = 1/3`. -/
theorem Noise_closed_form_witness :
    (1 : Int) ≤ 2 ∧
    (∀ k, k < (2 : Int).toNat →
      PerlinNoiseLayer ((⟨1, 1⟩ : FVector2D).scale (1 / 2 * 2 ^ k))
        ((List.range 256).map Int.ofNat) = some (if k = 0 then 1 / 2 else 0)) ∧
    PerlinNoise ⟨1, 1⟩ ((List.range 256).map Int.ofNat) 2 (1 / 2) =
      some ((∑ k in Finset.range (2 : Int).toNat,
          (1 / 2) ^ k * (if k = 0 then (1 / 2 : ℚ) else 0)) / (2 - 2 ^ (1 - (2 : Int)))) ∧
    (∑ k in Finset.range (2 : Int).toNat,
        (1 / 2) ^ k * (if k = 0 then (1 / 2 : ℚ) else 0)) / (2 - 2 ^ (1 - (2 : Int))) = 1 / 3 := by
  have h2 : (2 : Int).toNat = 2 := rfl
  have hv : ∀ k, k < (2 : Int).toNat →
      PerlinNoiseLayer ((⟨1, 1⟩ : FVector2D).scale (1 / 2 * 2 ^ k))
        ((List.range 256).map Int.ofNat) = some (if k = 0 then 1 / 2 else 0) := by
    intro k hk
    rw [h2] at hk
    have hk2 : k = 0 ∨ k = 1 := by omega
    rcases hk2 with rfl | rfl
    · have e : (⟨1, 1⟩ : FVector2D).scale (1 / 2 * 2 ^ 0) = ⟨1 / 2, 1 / 2⟩ := by
        norm_num [FVector2D.scale]
      rw [e, PerlinNoiseLayer_centre]
      simp
    · rw [PerlinNoiseLayer_integer _ range_table_ok 1 1 (by norm_num [FVector2D.scale])
        (by norm_num [FVector2D.scale])]
      simp
  refine ⟨by decide, hv,
    (Noise_closed_form ⟨1, 1⟩ (1 / 2) 2 (by decide)).2.1 _ _ hv, ?_⟩
  rw [h2, Finset.sum_range_succ, Finset.sum_range_one]
  norm_num

/-! ## Perlin layer: table reads -/

theorem PerlinNoiseLayer_reads_spec (Location : FVector2D) {P : List Int} (hP : TableOK P) :
    ∃ a b g1 g2 g3 g4 : Int,
      TArrayGet P (Int.land (FloorToInt Location.X) 255) = some a ∧
      TArrayGet P (Int.tmod (Int.land (FloorToInt Location.X) 255 + 1) 256) = some b ∧
      0 ≤ a ∧ a ≤ 255 ∧ 0 ≤ b ∧ b ≤ 255 ∧
      PerlinNoiseLayer.reads Location P =
        some [Int.land (FloorToInt Location.X) 255,
          Int.tmod (a + Int.land (FloorToInt Location.Y) 255) 256,
          Int.tmod (Int.land (FloorToInt Location.X) 255 + 1) 256,
          Int.tmod (b + Int.land (FloorToInt Location.Y) 255) 256,
          Int.land (FloorToInt Location.X) 255,
          Int.tmod (a + Int.land (FloorToInt Location.Y) 255 + 1) 256,
          Int.tmod (Int.land (FloorToInt Location.X) 255 + 1) 256,
          Int.tmod (b + Int.land (FloorToInt Location.Y) 255 + 1) 256] ∧
      TArrayGet P (Int.tmod (a + Int.land (FloorToInt Location.Y) 255) 256) = some g1 ∧
      TArrayGet P (Int.tmod (b + Int.land (FloorToInt Location.Y) 255) 256) = some g2 ∧
      TArrayGet P (Int.tmod (a + Int.land (FloorToInt Location.Y) 255 + 1) 256) = some g3 ∧
      TArrayGet P (Int.tmod (b + Int.land (FloorToInt Location.Y) 255 + 1) 256) = some g4 ∧
      PerlinNoiseLayer Location P =
        some (perlinBlend (GetConstantVector g1) (GetConstantVector g2) (GetConstantVector g3)
          (GetConstantVector g4) (Location.X - FloorToInt Location.X)
          (Location.Y - FloorToInt Location.Y)) := by
  have hX : 0 ≤ Int.land (FloorToInt Location.X) 255 ∧
      Int.land (FloorToInt Location.X) 255 ≤ 255 := by
    rw [land_255]; omega
  have hY : 0 ≤ Int.land (FloorToInt Location.Y) 255 ∧
      Int.land (FloorToInt Location.Y) 255 ≤ 255 := by
    rw [land_255]; omega
  obtain ⟨px, hpx, hpx0, hpx1⟩ := TArrayGet_table hP hX.1 hX.2
  have hX1 := tmod_256_bounds (a := Int.land (FloorToInt Location.X) 255 + 1) (by omega)
  obtain ⟨px1, hpx1', hpx10, hpx11⟩ := TArrayGet_table hP hX1.1 hX1.2
  have h1 := tmod_256_bounds (a := px + Int.land (FloorToInt Location.Y) 255) (by omega)
  have h2 := tmod_256_bounds (a := px1 + Int.land (FloorToInt Location.Y) 255) (by omega)
  have h3 := tmod_256_bounds (a := px + Int.land (FloorToInt Location.Y) 255 + 1) (by omega)
  have h4 := tmod_256_bounds (a := px1 + Int.land (FloorToInt Location.Y) 255 + 1) (by omega)
  obtain ⟨a, ha, _⟩ := TArrayGet_table hP h1.1 h1.2
  obtain ⟨b, hb, _⟩ := TArrayGet_table hP h2.1 h2.2
  obtain ⟨c, hc, _⟩ := TArrayGet_table hP h3.1 h3.2
  obtain ⟨d, hd, _⟩ := TArrayGet_table hP h4.1 h4.2
  refine ⟨px, px1, a, b, c, d, hpx, hpx1', hpx0, hpx1, hpx10, hpx11, ?_, ha, hb, hc, hd, ?_⟩
  · simp only [PerlinNoiseLayer.reads, hpx, hpx1', Option.bind_eq_bind, Option.some_bind,
      Option.pure_def, pure]
  · simp only [PerlinNoiseLayer, hpx, hpx1', ha, hb, hc, hd, Option.bind_eq_bind,
      Option.some_bind, Option.pure_def, perlinBlend, pure]

theorem index_bounds_of_mem {X a b Y : Int} (hX : 0 ≤ X ∧ X ≤ 255) (ha : 0 ≤ a)
    (hb : 0 ≤ b) (hY : 0 ≤ Y) {i : Int}
    (hi : i ∈ [X, Int.tmod (a + Y) 256, Int.tmod (X + 1) 256, Int.tmod (b + Y) 256, X,
      Int.tmod (a + Y + 1) 256, Int.tmod (X + 1) 256, Int.tmod (b + Y + 1) 256]) :
    0 ≤ i ∧ i ≤ 255 := by
  simp only [List.mem_cons, List.mem_singleton, List.mem_nil_iff, or_false] at hi
  rcases hi with rfl | rfl | rfl | rfl | rfl | rfl | rfl | rfl
  · exact hX
  · exact tmod_256_bounds (by omega)
  · exact tmod_256_bounds (by omega)
  · exact tmod_256_bounds (by omega)
  · exact hX
  · exact tmod_256_bounds (by omega)
  · exact tmod_256_bounds (by omega)
  · exact tmod_256_bounds (by omega)

/-- C18: for every point (negative coordinates included) and every table of 256 entries
with values in `0..255`, every table read performed by `PerlinNoiseLayer` uses an index in
`0..255` (`idx` lists the eight indices, and the layer returns a value, which it does only
if no read is out of range); when `floor(x) & 255 = 255` the right-hand corners read entry
0, and when `floor(y) & 255 = 255` the top corners read the index `(table[..] + 256) mod
256`, the same as with `(y + 1) mod 256` in place of `y + 1`. -/
theorem PerlinNoiseLayer_reads_in_range (Location : FVector2D) (P : List Int)
    (hlen : P.length = 256) (hval : ∀ v ∈ P, 0 ≤ v ∧ v ≤ 255) :
    ∃ idx a b, PerlinNoiseLayer.reads Location P = some idx ∧ idx.length = 8 ∧
      (∀ i ∈ idx, 0 ≤ i ∧ i ≤ 255 ∧ (TArrayGet P i).isSome = true) ∧
      (PerlinNoiseLayer Location P).isSome = true ∧
      TArrayGet P (Int.land (FloorToInt Location.X) 255) = some a ∧
      TArrayGet P (Int.tmod (Int.land (FloorToInt Location.X) 255 + 1) 256) = some b ∧
      (Int.land (FloorToInt Location.X) 255 = 255 →
        idx[2]? = some 0 ∧ idx[6]? = some 0 ∧ TArrayGet P 0 = some b) ∧
      (Int.land (FloorToInt Location.Y) 255 = 255 →
        idx[5]? = some (Int.tmod (a + 256) 256) ∧
        idx[7]? = some (Int.tmod (b + 256) 256) ∧
        Int.tmod (a + 256) 256 = Int.tmod (a + Int.tmod (255 + 1) 256) 256 ∧
        Int.tmod (b + 256) 256 = Int.tmod (b + Int.tmod (255 + 1) 256) 256) := by
  have hP : TableOK P := ⟨hlen, hval⟩
  obtain ⟨a, b, g1, g2, g3, g4, ha, hb, ha0, ha1, hb0, hb1, hreads, _, _, _, _, hval⟩ :=
    PerlinNoiseLayer_reads_spec Location hP
  have hX : 0 ≤ Int.land (FloorToInt Location.X) 255 ∧
      Int.land (FloorToInt Location.X) 255 ≤ 255 := by
    rw [land_255]; omega
  have hY : 0 ≤ Int.land (FloorToInt Location.Y) 255 ∧
      Int.land (FloorToInt Location.Y) 255 ≤ 255 := by
    rw [land_255]; omega
  refine ⟨_, a, b, hreads, rfl, ?_, by rw [hval]; rfl, ha, hb, ?_, ?_⟩
  · intro i hi
    have hb := index_bounds_of_mem hX ha0 hb0 hY.1 hi
    obtain ⟨v, hv, _⟩ := TArrayGet_table hP hb.1 hb.2
    exact ⟨hb.1, hb.2, by rw [hv]; rfl⟩
  · intro h255
    rw [h255] at hb ⊢
    have e : Int.tmod (255 + 1) 256 = 0 := by decide
    rw [e] at hb
    simp only [List.getElem?_cons_succ, List.getElem?_cons_zero, e]
    exact ⟨trivial, trivial, hb⟩
  · intro h255
    rw [h255]
    have e : Int.tmod (255 + 1) 256 = 0 := by decide
    have ea : a + 255 + 1 = a + 256 := by ring
    have eb : b + 255 + 1 = b + 256 := by ring
    simp only [List.getElem?_cons_succ, List.getElem?_cons_zero, e, ea, eb, add_zero]
    refine ⟨trivial, trivial, ?_, ?_⟩
    · rw [Int.tmod_eq_emod (by omega) (by decide), Int.tmod_eq_emod ha0 (by decide)]
      omega
    · rw [Int.tmod_eq_emod (by omega) (by decide), Int.tmod_eq_emod hb0 (by decide)]
      omega

/-- Witness for C18: the point `(-1/2, -1/2)` on the unshuffled table; both masked cell
coordinates are 255 and the eight reads use the indices 255, 254, 0, 255, 255, 255, 0, 0. -/
theorem PerlinNoiseLayer_reads_in_range_witness :
    ((List.range 256).map Int.ofNat).length = 256 ∧
    (∀ v ∈ (List.range 256).map Int.ofNat, 0 ≤ v ∧ v ≤ 255) ∧
    Int.land (FloorToInt (-1 / 2)) 255 = 255 ∧
    PerlinNoiseLayer.reads ⟨-1 / 2, -1 / 2⟩ ((List.range 256).map Int.ofNat)
      = some [255, 254, 0, 255, 255, 255, 0, 0] ∧
    ∃ idx a b, PerlinNoiseLayer.reads ⟨-1 / 2, -1 / 2⟩ ((List.range 256).map Int.ofNat)
        = some idx ∧ idx.length = 8 ∧
      (∀ i ∈ idx, 0 ≤ i ∧ i ≤ 255 ∧
        (TArrayGet ((List.range 256).map Int.ofNat) i).isSome = true) ∧
      (PerlinNoiseLayer ⟨-1 / 2, -1 / 2⟩ ((List.range 256).map Int.ofNat)).isSome = true ∧
      TArrayGet ((List.range 256).map Int.ofNat)
        (Int.land (FloorToInt (⟨-1 / 2, -1 / 2⟩ : FVector2D).X) 255) = some a ∧
      TArrayGet ((List.range 256).map Int.ofNat)
        (Int.tmod (Int.land (FloorToInt (⟨-1 / 2, -1 / 2⟩ : FVector2D).X) 255 + 1) 256)
          = some b ∧
      (Int.land (FloorToInt (⟨-1 / 2, -1 / 2⟩ : FVector2D).X) 255 = 255 →
        idx[2]? = some 0 ∧ idx[6]? = some 0 ∧
        TArrayGet ((List.range 256).map Int.ofNat) 0 = some b) ∧
      (Int.land (FloorToInt (⟨-1 / 2, -1 / 2⟩ : FVector2D).Y) 255 = 255 →
        idx[5]? = some (Int.tmod (a + 256) 256) ∧
        idx[7]? = some (Int.tmod (b + 256) 256) ∧
        Int.tmod (a + 256) 256 = Int.tmod (a + Int.tmod (255 + 1) 256) 256 ∧
        Int.tmod (b + 256) 256 = Int.tmod (b + Int.tmod (255 + 1) 256) 256) := by
  have hf : FloorToInt (-1 / 2) = -1 := by
    unfold FloorToInt
    rw [Int.floor_eq_iff]
    norm_num
  have m : Int.land (-1) 255 = 255 := by rw [land_255]; rfl
  have h255 := TArrayGet_range 255 (by decide)
  have h0 := TArrayGet_range 0 (by decide)
  simp only [Nat.cast_zero, Nat.cast_ofNat] at h0 h255
  have t1 : Int.tmod (255 + 1) 256 = 0 := by decide
  have t2 : Int.tmod (255 + 255) 256 = 254 := by decide
  have t3 : Int.tmod (0 + 255) 256 = 255 := by decide
  have t4 : Int.tmod (255 + 255 + 1) 256 = 255 := by decide
  have t5 : Int.tmod (0 + 255 + 1) 256 = 0 := by decide
  refine ⟨by simp, range_table_ok.2, by rw [hf, m], ?_,
    PerlinNoiseLayer_reads_in_range ⟨-1 / 2, -1 / 2⟩ _ (by simp) range_table_ok.2⟩
  simp only [PerlinNoiseLayer.reads, hf, m, t1, h255, h0, t2, t3, t4, t5,
    Option.bind_eq_bind, Option.some_bind, Option.pure_def, pure]

/-! ## `CreateNoise`: the pixel buffer -/

end UNoiseGenerator
